import Mathlib

/-!
# Rate limiter (`internal/ratelimit/ratelimit.go`)

A shallow embedding of the token-bucket rate limiter and of its rule update, followed by
the management handler that replaces the rate-limit configuration.

Modelling conventions:

* A Go `map[string]V` is a finite association list with distinct keys,
  `AList (fun _ : String => V)`; iteration order is never observed.
* The `*tokenBucket` stored in the bucket map is mutated in place by `Check`;
  here the mutated bucket is written back under the same key.
* A `float64` is the rational it denotes, and every `float64` operation of the source
  (`float64(rph)`, `/`, `*`, `+=`, `-=`, `Duration.Seconds`) is the exact operation followed
  by `round64`, rounding to the nearest number with a 53-bit significand, ties to even.
  Each operation is rounded on its own (no fused multiply-add, as on amd64). The exponent
  range is not bounded: infinities, NaN and subnormal numbers do not occur for `int`
  ceilings and `int64` nanosecond durations.
* `time.Now()` is an explicit argument `now`: the monotonic clock reading in nanoseconds.
  `Time.Sub` is the difference of two readings, saturated to the range of `int64`.
* The mutex is not modelled: every operation is one atomic state transition.
* Logging has no effect on the state and is omitted.
-/

namespace RateLimit

/-! ## `float64` arithmetic and durations -/

/-- Rounding of a rational to the nearest integer, ties to the even one. -/
def roundHalfEven (x : ℚ) : Int :=
  if x - ⌊x⌋ < 1 / 2 then ⌊x⌋
  else if 1 / 2 < x - ⌊x⌋ then ⌊x⌋ + 1
  else if ⌊x⌋ % 2 = 0 then ⌊x⌋ else ⌊x⌋ + 1

/-- Rounding of an exact result to `float64`: for `2 ^ e ≤ |q| < 2 ^ (e + 1)` the nearest
multiple of `2 ^ (e - 52)`, ties to the even significand. -/
def round64 (q : ℚ) : ℚ :=
  if q = 0 then 0
  else (roundHalfEven (q / 2 ^ (Int.log 2 (abs q) - 52)) : ℚ) * 2 ^ (Int.log 2 (abs q) - 52)

/-- The rationals that are `float64` values: a significand below `2 ^ 53` times a power of
two. -/
def IsFloat64 (q : ℚ) : Prop :=
  ∃ m k : Int, abs m < 2 ^ 53 ∧ q = (m : ℚ) * 2 ^ k

/-- The conversion `float64(n)` of an integer. -/
def float64 (n : Int) : ℚ :=
  round64 (n : ℚ)

/-- The constant `maxDuration` of package `time`: `1<<63 - 1` nanoseconds. -/
def maxDuration : Int := 2 ^ 63 - 1

/-- The constant `minDuration` of package `time`: `-1 << 63` nanoseconds. -/
def minDuration : Int := -2 ^ 63

/-- The method `Time.Sub` on two monotonic clock readings in nanoseconds: the difference
`t - u` as a `Duration`, saturated at `maxDuration` and `minDuration`. -/
def Sub (t u : Int) : Int :=
  if t - u > maxDuration then maxDuration
  else if t - u < minDuration then minDuration
  else t - u

/-- The method `Duration.Seconds`: `sec := d / Second; nsec := d % Second;
return float64(sec) + float64(nsec)/1e9`, with Go's truncating integer division. -/
def Seconds (d : Int) : ℚ :=
  round64 (float64 (d.tdiv 1000000000) + round64 (float64 (d.tmod 1000000000) / 1000000000))

/-! ## The limiter -/

/-- Go `map[string]V`. -/
abbrev GoMap (V : Type) : Type := AList (fun _ : String => V)

/-- The fields of `config.RateLimitRule` that `Update` reads. The type is declared in the
`config` package; its three fields are taken from their uses in `Update`. -/
structure RateLimitRule where
  APIKey : String
  Model : String
  RPH : Int
  deriving DecidableEq, Repr

/-- The struct `tokenBucket`: three `float64` fields and the clock reading of the last
refill, in nanoseconds. -/
structure tokenBucket where
  tokens : ℚ
  lastUpdate : Int
  capacity : ℚ
  rate : ℚ
  deriving DecidableEq, Repr

/-- The struct `RateLimiter` (without its mutex). -/
structure RateLimiter where
  buckets : GoMap tokenBucket
  rules : GoMap Int

/-- The function `NewRateLimiter`: both maps empty. -/
def NewRateLimiter : RateLimiter :=
  { buckets := ∅, rules := ∅ }

/-- The map key built by `Update` (line 62) and `Check` (line 82): `apiKey + "|" + model`. -/
def ruleKey (apiKey model : String) : String :=
  apiKey ++ "|" ++ model

/-- The set `validKeysMap` built at the start of `Update`. -/
def validKeysMap (validAPIKeys : List String) : GoMap Unit :=
  validAPIKeys.foldl (fun m k => m.insert k ()) ∅

/-- The body of the loop over the candidate rules in `Update`: the three `continue`
guards, then the insertion into `newRules`. `GetModelInfo` is the registry lookup
`registry.GetGlobalRegistry().GetModelInfo`, `none` standing for `nil`. -/
def addRule {Info : Type} (GetModelInfo : String → Option Info) (valid : GoMap Unit)
    (newRules : GoMap Int) (rule : RateLimitRule) : GoMap Int :=
  if (valid.lookup rule.APIKey).isNone then newRules
  else if rule.RPH ≤ 0 then newRules
  else if (GetModelInfo rule.Model).isNone then newRules
  else newRules.insert (rule.APIKey ++ "|" ++ rule.Model) rule.RPH

/-- The cleanup loop of `Update`: every bucket key without a rule is deleted. -/
def cleanupBuckets (rules : GoMap Int) (buckets : GoMap tokenBucket) : GoMap tokenBucket :=
  buckets.keys.foldl (fun bs k => if (rules.lookup k).isNone then bs.erase k else bs) buckets

/-- The method `RateLimiter.Update`. -/
def Update {Info : Type} (GetModelInfo : String → Option Info) (rl : RateLimiter)
    (rules : List RateLimitRule) (validAPIKeys : List String) : RateLimiter :=
  let valid := validKeysMap validAPIKeys
  let newRules := rules.foldl (addRule GetModelInfo valid) ∅
  { buckets := cleanupBuckets newRules rl.buckets, rules := newRules }

/-- The method `RateLimiter.Check` at clock reading `now`: the verdict and the limiter
state it leaves. -/
def Check (rl : RateLimiter) (now : Int) (apiKey model : String) : Bool × RateLimiter :=
  let key := apiKey ++ "|" ++ model
  match rl.rules.lookup key with
  | none => (true, rl)
  | some rph =>
    let bucket : tokenBucket :=
      match rl.buckets.lookup key with
      | none =>
        { tokens := float64 rph, capacity := float64 rph,
          rate := round64 (float64 rph / 3600), lastUpdate := now }
      | some b => { b with capacity := float64 rph, rate := round64 (float64 rph / 3600) }
    let delta := Seconds (Sub now bucket.lastUpdate)
    let tokens := round64 (bucket.tokens + round64 (delta * bucket.rate))
    let tokens := if tokens > bucket.capacity then bucket.capacity else tokens
    let bucket : tokenBucket := { bucket with tokens := tokens, lastUpdate := now }
    if bucket.tokens ≥ 1 then
      (true, { rl with
        buckets := rl.buckets.insert key { bucket with tokens := round64 (bucket.tokens - 1) } })
    else
      (false, { rl with buckets := rl.buckets.insert key bucket })

/-- Consecutive `Check` calls for one `(apiKey, model)` at the clock readings of the list:
the verdicts in call order and the final state. -/
def runChecks (apiKey model : String) : RateLimiter → List Int → List Bool × RateLimiter
  | rl, [] => ([], rl)
  | rl, now :: rest =>
    let r := Check rl now apiKey model
    let rs := runChecks apiKey model r.2 rest
    (r.1 :: rs.1, rs.2)

/-- The limiter state left by the consecutive `Check` calls of `runChecks`. -/
def stateAfter (apiKey model : String) (rl : RateLimiter) (ts : List Int) : RateLimiter :=
  (runChecks apiKey model rl ts).2

/-- The effect of `Check` on the bucket of a key whose rule has ceiling `rph`, given the
bucket found in the map (`none` when absent): lines 88-118 of `Check` read as a function of
the bucket alone. `check_of_rule` shows that `Check` computes exactly this. -/
def stepBucket (rph : Int) (now : Int) (found : Option tokenBucket) : Bool × tokenBucket :=
  let bucket : tokenBucket :=
    match found with
    | none =>
      { tokens := float64 rph, capacity := float64 rph,
        rate := round64 (float64 rph / 3600), lastUpdate := now }
    | some b => { b with capacity := float64 rph, rate := round64 (float64 rph / 3600) }
  let delta := Seconds (Sub now bucket.lastUpdate)
  let tokens := round64 (bucket.tokens + round64 (delta * bucket.rate))
  let tokens := if tokens > bucket.capacity then bucket.capacity else tokens
  let bucket : tokenBucket := { bucket with tokens := tokens, lastUpdate := now }
  if bucket.tokens ≥ 1 then (true, { bucket with tokens := round64 (bucket.tokens - 1) })
  else (false, bucket)

/-- Consecutive `stepBucket` calls with a fixed ceiling: the verdicts and the final bucket. -/
def runBucket (rph : Int) : Option tokenBucket → List Int → List Bool × Option tokenBucket
  | found, [] => ([], found)
  | found, now :: rest =>
    let r := stepBucket rph now found
    let rs := runBucket rph (some r.2) rest
    (r.1 :: rs.1, rs.2)

/-- The token count of bucket `b` after the refill step of `Check` (lines 100-110) under
ceiling `rph` at clock reading `now`, before a token is taken. -/
def refilled (rph : Int) (now : Int) (b : tokenBucket) : ℚ :=
  if round64 (b.tokens +
      round64 (Seconds (Sub now b.lastUpdate) * round64 (float64 rph / 3600))) > float64 rph
  then float64 rph
  else round64 (b.tokens +
      round64 (Seconds (Sub now b.lastUpdate) * round64 (float64 rph / 3600)))

/-- The bucket that `Check` creates for a key without one (lines 92-97). -/
def freshBucket (rph : Int) (now : Int) : tokenBucket :=
  { tokens := float64 rph, lastUpdate := now, capacity := float64 rph,
    rate := round64 (float64 rph / 3600) }

/-- The candidate rule gets past the three `continue` guards of the loop in `Update`. -/
def passesGuards {Info : Type} (GetModelInfo : String → Option Info) (valid : GoMap Unit)
    (rule : RateLimitRule) : Bool :=
  !(valid.lookup rule.APIKey).isNone && !decide (rule.RPH ≤ 0) &&
    !(GetModelInfo rule.Model).isNone

/-- The limiter states that can be reached from `NewRateLimiter` by `Update` and `Check`
calls with arbitrary arguments, registry contents and clock readings. -/
inductive Reachable : RateLimiter → Prop
  | init : Reachable NewRateLimiter
  | update {Info : Type} (GetModelInfo : String → Option Info) (rl : RateLimiter)
      (rules : List RateLimitRule) (validAPIKeys : List String) :
      Reachable rl → Reachable (Update GetModelInfo rl rules validAPIKeys)
  | check (rl : RateLimiter) (now : Int) (apiKey model : String) :
      Reachable rl → Reachable (Check rl now apiKey model).2

/-- The limiter states reachable from `NewRateLimiter` by `Update` and `Check` calls whose
clock readings never decrease; the index is the latest clock reading (any reading at the
start, `Update` reads no clock). -/
inductive ReachableAt : Int → RateLimiter → Prop
  | init (t : Int) : ReachableAt t NewRateLimiter
  | update {Info : Type} (t : Int) (GetModelInfo : String → Option Info) (rl : RateLimiter)
      (rules : List RateLimitRule) (validAPIKeys : List String) :
      ReachableAt t rl → ReachableAt t (Update GetModelInfo rl rules validAPIKeys)
  | check (t : Int) (rl : RateLimiter) (now : Int) (apiKey model : String) :
      ReachableAt t rl → t ≤ now → ReachableAt now (Check rl now apiKey model).2

/-- The exact number of tokens that bucket `b` (or a new bucket, for `none`) would hold at
clock reading `now` under ceiling `c` before the cap: `t0 + (now - last) * c / 3600` with
the elapsed time `now - last` in seconds and `(t0, last)` equal to `(c, now)` when the key
has no bucket and to the bucket's `(tokens, lastUpdate)` otherwise. -/
def exactBudget (c : Int) (now : Int) (found : Option tokenBucket) : ℚ :=
  let t0 : ℚ := match found with
    | none => (c : ℚ)
    | some b => b.tokens
  let last : Int := match found with
    | none => now
    | some b => b.lastUpdate
  t0 + ((now - last : Int) : ℚ) / 1000000000 * (c : ℚ) / 3600

/-- The reference token-bucket step of claim C16, written from the claim's words and not
from the code, in exact arithmetic: with `r = min(c, t0 + (now - last) * c / 3600)`, the
verdict is `r ≥ 1` and the bucket left is
`{tokens = r - 1 if r ≥ 1 else r, capacity = c, rate = c / 3600, lastUpdate = now}`. -/
def referenceStep (c : Int) (now : Int) (found : Option tokenBucket) : Bool × tokenBucket :=
  let r : ℚ := min (c : ℚ) (exactBudget c now found)
  (decide (r ≥ 1),
    { tokens := if r ≥ 1 then r - 1 else r, capacity := (c : ℚ), rate := (c : ℚ) / 3600,
      lastUpdate := now })

/-- The reference step of the amended claim C16, the same formula with every operation
carried out in `float64`: `r = min(float64(c), t0 + Seconds(now - last) * (float64(c) /
3600))`, the verdict is `r ≥ 1` and the bucket left is `{tokens = r - 1 if r ≥ 1 else r,
capacity = float64(c), rate = float64(c) / 3600, lastUpdate = now}`. -/
def referenceStepFloat64 (c : Int) (now : Int) (found : Option tokenBucket) :
    Bool × tokenBucket :=
  let t0 : ℚ := match found with
    | none => float64 c
    | some b => b.tokens
  let last : Int := match found with
    | none => now
    | some b => b.lastUpdate
  let r : ℚ := min (float64 c)
    (round64 (t0 + round64 (Seconds (Sub now last) * round64 (float64 c / 3600))))
  (decide (r ≥ 1),
    { tokens := if r ≥ 1 then round64 (r - 1) else r, capacity := float64 c,
      rate := round64 (float64 c / 3600), lastUpdate := now })

end RateLimit

/-! # Management handler (`internal/api/handlers/management/ratelimit.go`) -/

namespace Management

/-- What `PutRateLimits` does to the outside, in call order: the JSON answer it writes
itself, the call of the `OnConfigUpdated` callback and the call of `h.persist`. The callback
and `persist` are defined outside the two source files; only the fact and the order of
their calls are recorded. -/
inductive Effect where
  | json (status : Nat) (error : String)
  | onConfigUpdated
  | persist
  deriving DecidableEq, Repr

/-- The part of `Handler` that `PutRateLimits` touches: the field `cfg.RateLimit`, of the
type `config.RateLimitConfig` (a parameter here, the type is declared in `config`), and
whether the callback field `OnConfigUpdated` is non-nil. -/
structure Handler (RateLimitConfig : Type) where
  RateLimit : RateLimitConfig
  hasOnConfigUpdated : Bool

/-- The method `Handler.PutRateLimits`. The argument `bound` is the outcome of
`c.ShouldBindJSON(&body)`: `Except.error` for `err != nil`, `Except.ok body` otherwise.
`http.StatusBadRequest` is 400. -/
def PutRateLimits {RateLimitConfig : Type} (h : Handler RateLimitConfig)
    (bound : Except String RateLimitConfig) : Handler RateLimitConfig × List Effect :=
  match bound with
  | Except.error _ => (h, [Effect.json 400 "invalid body"])
  | Except.ok body =>
    let h1 : Handler RateLimitConfig := { h with RateLimit := body }
    let called : List Effect := if h1.hasOnConfigUpdated then [Effect.onConfigUpdated] else []
    (h1, called ++ [Effect.persist])

end Management

namespace RateLimit

/-- The factor `1 + 2 ^ (-53)` by which one `float64` rounding can exceed the exact result
of an operation on non-negative numbers. -/
def roundingFactor : ℚ := 1 + 1 / 2 ^ (53 : ℕ)

/-- The factor `1 - 2 ^ (-53)` by which one `float64` rounding can fall short of the exact
result of an operation on non-negative numbers. -/
def roundingDeficit : ℚ := 1 - 1 / 2 ^ (53 : ℕ)

/-! ### Concrete states used to instantiate the theorems -/

/-- A registry that resolves the models `m1` and `m2` only. -/
def exampleRegistry : String → Option Unit :=
  fun m => if m = "m1" ∨ m = "m2" then some () else none

/-- The state after a first `Update` with one rule: key `k1|m1`, ceiling `rph`, no
bucket. -/
def limiterWith (rph : Int) : RateLimiter :=
  Update exampleRegistry NewRateLimiter [{ APIKey := "k1", Model := "m1", RPH := rph }] ["k1"]

/-- The state after a first `Update`: one rule, key `k1|m1`, ceiling 3, no bucket. -/
def exampleLimiter : RateLimiter :=
  Update exampleRegistry NewRateLimiter [{ APIKey := "k1", Model := "m1", RPH := 3 }] ["k1"]

/-- The state of `exampleLimiter` after four `Check` calls on `("k1", "m1")` at clock
reading 0: the bucket of `k1|m1` is empty. -/
def exhaustedLimiter : RateLimiter :=
  stateAfter "k1" "m1" exampleLimiter [0, 0, 0, 0]

/-- One rule, key `k1|m1`, ceiling 3600, no bucket. -/
def hourlyLimiter : RateLimiter :=
  Update exampleRegistry NewRateLimiter [{ APIKey := "k1", Model := "m1", RPH := 3600 }] ["k1"]

/-- The state of `exhaustedLimiter` after an `Update` that raises the ceiling of `k1|m1`
from 3 to 40. -/
def staleLimiter : RateLimiter :=
  Update exampleRegistry exhaustedLimiter [{ APIKey := "k1", Model := "m1", RPH := 40 }] ["k1"]

/-- The bucket of `k1|m1` in `exhaustedLimiter` and in `staleLimiter`: empty, last touched
at reading 0, with the parameters of ceiling 3. -/
def exhaustedBucket : tokenBucket :=
  { tokens := 0, lastUpdate := 0, capacity := float64 3, rate := round64 (float64 3 / 3600) }

/-- The state of `limiterWith c` after `c` allowed `Check` calls on `("k1", "m1")` at clock
reading 0: the bucket of `k1|m1` is empty. -/
def drainedLimiter (c : Nat) : RateLimiter :=
  stateAfter "k1" "m1" (limiterWith (c : Int)) (List.replicate c 0)

/-! ## Rounding -/

theorem roundHalfEven_intCast (n : Int) : roundHalfEven (n : ℚ) = n := by
  simp [roundHalfEven]

theorem floor_le_roundHalfEven (x : ℚ) : ⌊x⌋ ≤ roundHalfEven x := by
  unfold roundHalfEven
  split_ifs <;> omega

theorem roundHalfEven_le_floor_add_one (x : ℚ) : roundHalfEven x ≤ ⌊x⌋ + 1 := by
  unfold roundHalfEven
  split_ifs <;> omega

theorem roundHalfEven_mono {x y : ℚ} (h : x ≤ y) : roundHalfEven x ≤ roundHalfEven y := by
  have hf : ⌊x⌋ ≤ ⌊y⌋ := Int.floor_mono h
  rcases lt_or_eq_of_le hf with hlt | heq
  · calc roundHalfEven x ≤ ⌊x⌋ + 1 := roundHalfEven_le_floor_add_one x
      _ ≤ ⌊y⌋ := hlt
      _ ≤ roundHalfEven y := floor_le_roundHalfEven y
  · have hxy : x - ⌊x⌋ ≤ y - ⌊y⌋ := by rw [heq]; linarith
    unfold roundHalfEven
    rw [heq]
    split_ifs <;> first | omega | (exfalso; linarith)

theorem roundHalfEven_sub_le (x : ℚ) : (roundHalfEven x : ℚ) - x ≤ 1 / 2 := by
  have h1 : (⌊x⌋ : ℚ) ≤ x := Int.floor_le x
  unfold roundHalfEven
  split_ifs <;> push_cast <;> linarith

theorem sub_roundHalfEven_le (x : ℚ) : x - (roundHalfEven x : ℚ) ≤ 1 / 2 := by
  have h2 : x < ⌊x⌋ + 1 := Int.lt_floor_add_one x
  unfold roundHalfEven
  split_ifs <;> push_cast <;> linarith

theorem round64_zero : round64 0 = 0 := by simp [round64]

theorem scaled_bounds {q : ℚ} (hq : 0 < q) :
    (2 : ℚ) ^ (52 : ℕ) ≤ q / 2 ^ (Int.log 2 q - 52) ∧
      q / 2 ^ (Int.log 2 q - 52) < (2 : ℚ) ^ (53 : ℕ) := by
  have h2 : (0 : ℚ) < 2 := by norm_num
  have hpos : (0 : ℚ) < 2 ^ (Int.log 2 q - 52) := zpow_pos h2 _
  have hlo : ((2 : ℕ) : ℚ) ^ Int.log 2 q ≤ q := Int.zpow_log_le_self (by norm_num) hq
  have hhi : q < ((2 : ℕ) : ℚ) ^ (Int.log 2 q + 1) := Int.lt_zpow_succ_log_self (by norm_num) q
  push_cast at hlo hhi
  have e1 : (2 : ℚ) ^ Int.log 2 q = 2 ^ (52 : ℕ) * 2 ^ (Int.log 2 q - 52) := by
    rw [← zpow_natCast, ← zpow_add₀ (by norm_num : (2 : ℚ) ≠ 0)]
    congr 1; push_cast; ring
  have e2 : (2 : ℚ) ^ (Int.log 2 q + 1) = 2 ^ (53 : ℕ) * 2 ^ (Int.log 2 q - 52) := by
    rw [← zpow_natCast, ← zpow_add₀ (by norm_num : (2 : ℚ) ≠ 0)]
    congr 1; push_cast; ring
  constructor
  · rw [le_div_iff₀ hpos, ← e1]; exact hlo
  · rw [div_lt_iff₀ hpos, ← e2]; exact hhi


theorem round64_of_pos {q : ℚ} (hq : 0 < q) :
    round64 q =
      (roundHalfEven (q / 2 ^ (Int.log 2 q - 52)) : ℚ) * 2 ^ (Int.log 2 q - 52) := by
  rw [round64, if_neg (ne_of_gt hq), abs_of_pos hq]

theorem roundHalfEven_scaled_bounds {q : ℚ} (hq : 0 < q) :
    (2 : Int) ^ (52 : ℕ) ≤ roundHalfEven (q / 2 ^ (Int.log 2 q - 52)) ∧
      roundHalfEven (q / 2 ^ (Int.log 2 q - 52)) ≤ (2 : Int) ^ (53 : ℕ) := by
  obtain ⟨h1, h2⟩ := scaled_bounds hq
  constructor
  · have := roundHalfEven_mono h1
    have e : ((2 : ℚ) ^ (52 : ℕ)) = (((2 : Int) ^ (52 : ℕ) : Int) : ℚ) := by norm_num
    rw [e, roundHalfEven_intCast] at this
    exact this
  · have := roundHalfEven_mono (le_of_lt h2)
    have e : ((2 : ℚ) ^ (53 : ℕ)) = (((2 : Int) ^ (53 : ℕ) : Int) : ℚ) := by norm_num
    rw [e, roundHalfEven_intCast] at this
    exact this

theorem round64_nonneg {q : ℚ} (hq : 0 ≤ q) : 0 ≤ round64 q := by
  rcases eq_or_lt_of_le hq with h0 | hpos
  · rw [← h0, round64_zero]
  · rw [round64_of_pos hpos]
    have h := (roundHalfEven_scaled_bounds hpos).1
    have hr : (0 : ℚ) ≤ (roundHalfEven (q / 2 ^ (Int.log 2 q - 52)) : ℚ) := by
      exact_mod_cast le_trans (by norm_num) h
    exact mul_nonneg hr (le_of_lt (zpow_pos (by norm_num) _))

theorem round64_bounds {q : ℚ} (hq : 0 < q) :
    (2 : ℚ) ^ Int.log 2 q ≤ round64 q ∧ round64 q ≤ (2 : ℚ) ^ (Int.log 2 q + 1) := by
  have hpos : (0 : ℚ) < 2 ^ (Int.log 2 q - 52) := zpow_pos (by norm_num) _
  obtain ⟨h1, h2⟩ := roundHalfEven_scaled_bounds hq
  have e1 : (2 : ℚ) ^ Int.log 2 q = 2 ^ (52 : ℕ) * 2 ^ (Int.log 2 q - 52) := by
    rw [← zpow_natCast, ← zpow_add₀ (by norm_num : (2 : ℚ) ≠ 0)]
    congr 1; push_cast; ring
  have e2 : (2 : ℚ) ^ (Int.log 2 q + 1) = 2 ^ (53 : ℕ) * 2 ^ (Int.log 2 q - 52) := by
    rw [← zpow_natCast, ← zpow_add₀ (by norm_num : (2 : ℚ) ≠ 0)]
    congr 1; push_cast; ring
  rw [round64_of_pos hq, e1, e2]
  constructor
  · apply mul_le_mul_of_nonneg_right _ (le_of_lt hpos)
    exact_mod_cast h1
  · apply mul_le_mul_of_nonneg_right _ (le_of_lt hpos)
    exact_mod_cast h2

theorem round64_mono_of_nonneg {q1 q2 : ℚ} (h0 : 0 ≤ q1) (h : q1 ≤ q2) :
    round64 q1 ≤ round64 q2 := by
  rcases eq_or_lt_of_le h0 with hz | hpos
  · rw [← hz, round64_zero]
    exact round64_nonneg (le_trans h0 h)
  · have hpos2 : 0 < q2 := lt_of_lt_of_le hpos h
    have hlog : Int.log 2 q1 ≤ Int.log 2 q2 := Int.log_mono_right hpos h
    rcases lt_or_eq_of_le hlog with hlt | heq
    · calc round64 q1 ≤ (2 : ℚ) ^ (Int.log 2 q1 + 1) := (round64_bounds hpos).2
        _ ≤ (2 : ℚ) ^ Int.log 2 q2 := zpow_le_zpow_right₀ (by norm_num) (by omega)
        _ ≤ round64 q2 := (round64_bounds hpos2).1
    · rw [round64_of_pos hpos, round64_of_pos hpos2, heq]
      have hp : (0 : ℚ) < 2 ^ (Int.log 2 q2 - 52) := zpow_pos (by norm_num) _
      apply mul_le_mul_of_nonneg_right _ (le_of_lt hp)
      have : q1 / 2 ^ (Int.log 2 q2 - 52) ≤ q2 / 2 ^ (Int.log 2 q2 - 52) :=
        div_le_div_of_nonneg_right h (le_of_lt hp)
      exact_mod_cast roundHalfEven_mono this

theorem round64_le_mul {q : ℚ} (hq : 0 ≤ q) : round64 q ≤ q * (1 + 1 / 2 ^ (53 : ℕ)) := by
  rcases eq_or_lt_of_le hq with hz | hpos
  · rw [← hz, round64_zero]; norm_num
  · have hp : (0 : ℚ) < 2 ^ (Int.log 2 q - 52) := zpow_pos (by norm_num) _
    obtain ⟨h1, _⟩ := scaled_bounds hpos
    have hr := roundHalfEven_sub_le (q / 2 ^ (Int.log 2 q - 52))
    rw [round64_of_pos hpos]
    have hq2 : q = q / 2 ^ (Int.log 2 q - 52) * 2 ^ (Int.log 2 q - 52) := by
      field_simp
    have hu : (2 : ℚ) ^ (Int.log 2 q - 52) * 2 ^ (52 : ℕ) ≤ q := by
      calc (2 : ℚ) ^ (Int.log 2 q - 52) * 2 ^ (52 : ℕ)
          ≤ 2 ^ (Int.log 2 q - 52) * (q / 2 ^ (Int.log 2 q - 52)) :=
            mul_le_mul_of_nonneg_left h1 (le_of_lt hp)
        _ = q := by field_simp
    have key : (roundHalfEven (q / 2 ^ (Int.log 2 q - 52)) : ℚ) * 2 ^ (Int.log 2 q - 52) ≤
        q + 1 / 2 * 2 ^ (Int.log 2 q - 52) := by
      have : (roundHalfEven (q / 2 ^ (Int.log 2 q - 52)) : ℚ) ≤
          q / 2 ^ (Int.log 2 q - 52) + 1 / 2 := by linarith
      calc (roundHalfEven (q / 2 ^ (Int.log 2 q - 52)) : ℚ) * 2 ^ (Int.log 2 q - 52)
          ≤ (q / 2 ^ (Int.log 2 q - 52) + 1 / 2) * 2 ^ (Int.log 2 q - 52) :=
            mul_le_mul_of_nonneg_right this (le_of_lt hp)
        _ = q + 1 / 2 * 2 ^ (Int.log 2 q - 52) := by
            rw [add_mul, div_mul_cancel₀ _ (ne_of_gt hp)]
    have : (1 : ℚ) / 2 * 2 ^ (Int.log 2 q - 52) ≤ q * (1 / 2 ^ (53 : ℕ)) := by
      have e : (1 : ℚ) / 2 * 2 ^ (Int.log 2 q - 52) =
          (2 ^ (Int.log 2 q - 52) * 2 ^ (52 : ℕ)) * (1 / 2 ^ (53 : ℕ)) := by
        norm_num; ring
      rw [e]
      exact mul_le_mul_of_nonneg_right hu (by positivity)
    linarith


theorem round64_of_isFloat64 {q : ℚ} (h : IsFloat64 q) : round64 q = q := by
  obtain ⟨m, k, hm, rfl⟩ := h
  by_cases hq : (m : ℚ) * 2 ^ k = 0
  · rw [hq, round64_zero]
  · have h2k : (0 : ℚ) < 2 ^ k := zpow_pos (by norm_num) _
    have habs : abs ((m : ℚ) * 2 ^ k) = ((abs m : Int) : ℚ) * 2 ^ k := by
      rw [abs_mul, abs_of_pos h2k, Int.cast_abs]
    have hapos : 0 < abs ((m : ℚ) * 2 ^ k) := abs_pos.mpr hq
    have hlt : abs ((m : ℚ) * 2 ^ k) < ((2 : ℕ) : ℚ) ^ (53 + k) := by
      rw [habs, zpow_add₀ (by norm_num : ((2 : ℕ) : ℚ) ≠ 0)]
      push_cast
      apply mul_lt_mul_of_pos_right _ h2k
      have : ((abs m : Int) : ℚ) < ((2 ^ 53 : Int) : ℚ) := by exact_mod_cast hm
      have h53 : (2 : ℚ) ^ (53 : ℤ) = ((2 ^ 53 : Int) : ℚ) := by norm_num
      rw [h53, ← Int.cast_abs]
      exact this
    have hlog : Int.log 2 (abs ((m : ℚ) * 2 ^ k)) < 53 + k :=
      (Int.lt_zpow_iff_log_lt (by norm_num) hapos).mp hlt
    obtain ⟨J, hJ⟩ : ∃ J : ℕ, (J : Int) = k - (Int.log 2 (abs ((m : ℚ) * 2 ^ k)) - 52) :=
      ⟨(k - (Int.log 2 (abs ((m : ℚ) * 2 ^ k)) - 52)).toNat, by omega⟩
    have hk : k = (J : Int) + (Int.log 2 (abs ((m : ℚ) * 2 ^ k)) - 52) := by omega
    have hu : (0 : ℚ) < 2 ^ (Int.log 2 (abs ((m : ℚ) * 2 ^ k)) - 52) := zpow_pos (by norm_num) _
    have hsc : (m : ℚ) * 2 ^ k / 2 ^ (Int.log 2 (abs ((m : ℚ) * 2 ^ k)) - 52) =
        ((m * 2 ^ J : Int) : ℚ) := by
      rw [div_eq_iff (ne_of_gt hu)]
      push_cast
      rw [mul_assoc, ← zpow_natCast, ← zpow_add₀ (by norm_num : (2 : ℚ) ≠ 0), ← hk]
    rw [round64, if_neg hq, hsc, roundHalfEven_intCast]
    push_cast
    rw [mul_assoc, ← zpow_natCast, ← zpow_add₀ (by norm_num : (2 : ℚ) ≠ 0), ← hk]

theorem isFloat64_zero : IsFloat64 0 := ⟨0, 0, by norm_num, by norm_num⟩

theorem isFloat64_of_scaled (r : Int) (k : Int) (h : abs r ≤ 2 ^ 53) :
    IsFloat64 ((r : ℚ) * 2 ^ k) := by
  rcases lt_or_eq_of_le h with hlt | heq
  · exact ⟨r, k, hlt, rfl⟩
  · rcases abs_eq (by norm_num : (0 : Int) ≤ 2 ^ 53) |>.mp heq with hr | hr
    · refine ⟨2 ^ 52, k + 1, by norm_num, ?_⟩
      rw [hr, zpow_add₀ (by norm_num : (2 : ℚ) ≠ 0)]
      push_cast
      ring
    · refine ⟨-2 ^ 52, k + 1, by norm_num, ?_⟩
      rw [hr, zpow_add₀ (by norm_num : (2 : ℚ) ≠ 0)]
      push_cast
      ring

theorem isFloat64_round64 (q : ℚ) : IsFloat64 (round64 q) := by
  rcases lt_trichotomy q 0 with hneg | hz | hpos
  · have hpos : 0 < -q := neg_pos.mpr hneg
    obtain ⟨h1, h2⟩ := scaled_bounds hpos
    rw [round64, if_neg (ne_of_lt hneg), abs_of_neg hneg]
    apply isFloat64_of_scaled
    have e : q / 2 ^ (Int.log 2 (-q) - 52) = -(-q / 2 ^ (Int.log 2 (-q) - 52)) := by ring
    have hlo : ((-(2 : Int) ^ (53 : ℕ) : Int) : ℚ) ≤ q / 2 ^ (Int.log 2 (-q) - 52) := by
      rw [e]; push_cast; linarith
    have hhi : q / 2 ^ (Int.log 2 (-q) - 52) ≤ ((-(2 : Int) ^ (52 : ℕ) : Int) : ℚ) := by
      rw [e]; push_cast; linarith
    have a := roundHalfEven_mono hlo
    have b := roundHalfEven_mono hhi
    rw [roundHalfEven_intCast] at a b
    rw [abs_le]
    constructor <;> omega
  · rw [hz, round64_zero]; exact isFloat64_zero
  · obtain ⟨h1, h2⟩ := roundHalfEven_scaled_bounds hpos
    rw [round64_of_pos hpos]
    apply isFloat64_of_scaled
    rw [abs_le]
    constructor <;> omega

theorem round64_round64 (q : ℚ) : round64 (round64 q) = round64 q :=
  round64_of_isFloat64 (isFloat64_round64 q)

theorem isFloat64_intCast (n : Int) (h : abs n ≤ 2 ^ 53) : IsFloat64 (n : ℚ) := by
  have := isFloat64_of_scaled n 0 h
  simpa using this

theorem isFloat64_sub_one {x : ℚ} (h : IsFloat64 x) (h1 : 1 ≤ x) (h2 : x ≤ 2 ^ (53 : ℕ)) :
    IsFloat64 (x - 1) := by
  obtain ⟨m, k, hm, rfl⟩ := h
  have h2k : (0 : ℚ) < 2 ^ k := zpow_pos (by norm_num) _
  have hmpos : 0 < m := by
    by_contra hc
    have : (m : ℚ) ≤ 0 := by exact_mod_cast not_lt.mp hc
    have := mul_nonpos_of_nonpos_of_nonneg this (le_of_lt h2k)
    linarith
  have hm2 : m < 2 ^ 53 := by rw [abs_of_pos hmpos] at hm; exact hm
  rcases le_or_lt 0 k with hk | hk
  · obtain ⟨K, rfl⟩ : ∃ K : ℕ, k = (K : Int) := ⟨k.toNat, by omega⟩
    have e : (m : ℚ) * 2 ^ (K : Int) - 1 = ((m * 2 ^ K - 1 : Int) : ℚ) := by
      push_cast; rw [zpow_natCast]
    rw [e]
    apply isFloat64_intCast
    have hge : (1 : ℚ) ≤ ((m * 2 ^ K : Int) : ℚ) := by push_cast; rw [← zpow_natCast]; exact h1
    have hle : ((m * 2 ^ K : Int) : ℚ) ≤ ((2 ^ 53 : Int) : ℚ) := by
      push_cast; rw [← zpow_natCast]; exact h2
    have hge2 : (1 : Int) ≤ m * 2 ^ K := by exact_mod_cast hge
    have hle2 : m * 2 ^ K ≤ (2 : Int) ^ 53 := by exact_mod_cast hle
    rw [abs_le]
    constructor <;> omega
  · obtain ⟨K, hK⟩ : ∃ K : ℕ, k = -(K : Int) := ⟨(-k).toNat, by omega⟩
    have e1 : (1 : ℚ) = ((2 ^ K : Int) : ℚ) * 2 ^ k := by
      rw [hK]; push_cast
      rw [zpow_neg, zpow_natCast]
      field_simp
    have hge : ((2 ^ K : Int) : ℚ) ≤ (m : ℚ) := by
      have : ((2 ^ K : Int) : ℚ) * 2 ^ k ≤ (m : ℚ) * 2 ^ k := by rw [← e1]; exact h1
      exact le_of_mul_le_mul_right this h2k
    have hge2 : (2 : Int) ^ K ≤ m := by exact_mod_cast hge
    have hK0 : (0 : Int) < 2 ^ K := by positivity
    refine ⟨m - 2 ^ K, k, ?_, ?_⟩
    · rw [abs_lt]; constructor <;> omega
    · push_cast
      rw [sub_mul]
      congr 1
      rw [e1]; push_cast; ring

theorem round64_sub_one {x : ℚ} (h : IsFloat64 x) (h1 : 1 ≤ x) (h2 : x ≤ 2 ^ (53 : ℕ)) :
    round64 (x - 1) = x - 1 :=
  round64_of_isFloat64 (isFloat64_sub_one h h1 h2)


theorem roundHalfEven_of_near {y : ℚ} {r : Int} (h1 : (r : ℚ) - 1 / 2 < y)
    (h2 : y < (r : ℚ) + 1 / 2) : roundHalfEven y = r := by
  rcases le_or_lt (r : ℚ) y with hge | hlt
  · have hf : ⌊y⌋ = r := Int.floor_eq_iff.mpr ⟨hge, by linarith⟩
    unfold roundHalfEven
    rw [hf, if_pos (by linarith)]
  · have hf : ⌊y⌋ = r - 1 := Int.floor_eq_iff.mpr ⟨by push_cast; linarith, by push_cast; linarith⟩
    unfold roundHalfEven
    rw [hf, if_neg (by push_cast; linarith), if_pos (by push_cast; linarith)]
    ring

theorem roundHalfEven_tie {y : ℚ} {r : Int} (h : y = (r : ℚ) + 1 / 2) :
    roundHalfEven y = if r % 2 = 0 then r else r + 1 := by
  have hf : ⌊y⌋ = r := Int.floor_eq_iff.mpr ⟨by linarith, by linarith⟩
  unfold roundHalfEven
  rw [hf, if_neg (by linarith), if_neg (by linarith)]

theorem log_eq_of_scaled {q : ℚ} (k : Int) (hq : 0 < q) (h1 : (2 : ℚ) ^ (52 : ℕ) ≤ q / 2 ^ k)
    (h2 : q / 2 ^ k < (2 : ℚ) ^ (53 : ℕ)) : Int.log 2 q = k + 52 := by
  have hp : (0 : ℚ) < 2 ^ k := zpow_pos (by norm_num) _
  rw [le_div_iff₀ hp] at h1
  rw [div_lt_iff₀ hp] at h2
  have e1 : ((2 : ℕ) : ℚ) ^ (k + 52) = 2 ^ (52 : ℕ) * 2 ^ k := by
    push_cast
    rw [← zpow_natCast, ← zpow_add₀ (by norm_num : (2 : ℚ) ≠ 0)]
    congr 1; push_cast; ring
  have e2 : ((2 : ℕ) : ℚ) ^ (k + 53) = 2 ^ (53 : ℕ) * 2 ^ k := by
    push_cast
    rw [← zpow_natCast, ← zpow_add₀ (by norm_num : (2 : ℚ) ≠ 0)]
    congr 1; push_cast; ring
  have a : k + 52 ≤ Int.log 2 q :=
    (Int.zpow_le_iff_le_log (by norm_num) hq).mp (by rw [e1]; exact h1)
  have b : Int.log 2 q < k + 53 :=
    (Int.lt_zpow_iff_log_lt (by norm_num) hq).mp (by rw [e2]; exact h2)
  omega

theorem round64_eq_of_scaled {q : ℚ} (k : Int) (r : Int) (hq : 0 < q)
    (h1 : (2 : ℚ) ^ (52 : ℕ) ≤ q / 2 ^ k) (h2 : q / 2 ^ k < (2 : ℚ) ^ (53 : ℕ))
    (hr : roundHalfEven (q / 2 ^ k) = r) : round64 q = (r : ℚ) * 2 ^ k := by
  have hl := log_eq_of_scaled k hq h1 h2
  rw [round64_of_pos hq, hl]
  have e : k + 52 - 52 = k := by ring
  rw [e, hr]

/-! ## Conversions and durations -/

theorem isFloat64_float64 (n : Int) : IsFloat64 (float64 n) :=
  isFloat64_round64 _

theorem float64_of_abs_le (n : Int) (h : abs n ≤ 2 ^ 53) : float64 n = (n : ℚ) :=
  round64_of_isFloat64 (isFloat64_intCast n h)

theorem float64_nonneg {n : Int} (h : 0 ≤ n) : 0 ≤ float64 n :=
  round64_nonneg (by exact_mod_cast h)

theorem float64_zero : float64 0 = 0 := by
  simp [float64, round64_zero]

theorem Sub_self (t : Int) : Sub t t = 0 := by
  simp [Sub, maxDuration, minDuration]

theorem Sub_nonneg {t u : Int} (h : u ≤ t) : 0 ≤ Sub t u := by
  unfold Sub maxDuration minDuration
  split_ifs <;> omega

theorem Sub_le {t u : Int} (h : u ≤ t) : Sub t u ≤ t - u := by
  unfold Sub maxDuration minDuration
  split_ifs <;> omega

theorem Seconds_zero : Seconds 0 = 0 := by
  simp [Seconds, float64, round64_zero]

theorem isFloat64_Seconds (d : Int) : IsFloat64 (Seconds d) :=
  isFloat64_round64 _

theorem Seconds_nonneg {d : Int} (h : 0 ≤ d) : 0 ≤ Seconds d := by
  unfold Seconds
  apply round64_nonneg
  have h1 : 0 ≤ float64 (d.tdiv 1000000000) :=
    float64_nonneg (Int.tdiv_nonneg h (by norm_num))
  have h2 : 0 ≤ float64 (d.tmod 1000000000) := float64_nonneg (Int.tmod_nonneg _ h)
  have h3 : 0 ≤ round64 (float64 (d.tmod 1000000000) / 1000000000) :=
    round64_nonneg (div_nonneg h2 (by norm_num))
  linarith

/-! ## `Check` and the bucket of its key -/

theorem check_of_rule (rl : RateLimiter) (now : Int) (apiKey model : String) (rph : Int)
    (h : rl.rules.lookup (apiKey ++ "|" ++ model) = some rph) :
    Check rl now apiKey model =
      ((stepBucket rph now (rl.buckets.lookup (apiKey ++ "|" ++ model))).1,
        { rl with
          buckets := (AList.insert (apiKey ++ "|" ++ model)
            (stepBucket rph now (rl.buckets.lookup (apiKey ++ "|" ++ model))).2 rl.buckets) }) := by
  simp only [Check, h, stepBucket]
  split_ifs <;> rfl

theorem check_no_rule (rl : RateLimiter) (now : Int) (apiKey model : String)
    (h : rl.rules.lookup (apiKey ++ "|" ++ model) = none) :
    Check rl now apiKey model = (true, rl) := by
  simp [Check, h]

theorem check_rules (rl : RateLimiter) (now : Int) (apiKey model : String) :
    (Check rl now apiKey model).2.rules = rl.rules := by
  cases h : rl.rules.lookup (apiKey ++ "|" ++ model) with
  | none => rw [check_no_rule rl now apiKey model h]
  | some rph => rw [check_of_rule rl now apiKey model rph h]

theorem runChecks_eq_runBucket (apiKey model : String) (rph : Int) (ts : List Int) :
    ∀ rl : RateLimiter, rl.rules.lookup (apiKey ++ "|" ++ model) = some rph →
      (runChecks apiKey model rl ts).1 =
        (runBucket rph (rl.buckets.lookup (apiKey ++ "|" ++ model)) ts).1 := by
  induction ts with
  | nil => intro rl _; rfl
  | cons t ts ih =>
    intro rl h
    have hc := check_of_rule rl t apiKey model rph h
    have h2 : (Check rl t apiKey model).2.rules.lookup (apiKey ++ "|" ++ model) = some rph := by
      rw [check_rules]; exact h
    have h3 : (Check rl t apiKey model).2.buckets.lookup (apiKey ++ "|" ++ model) =
        some (stepBucket rph t (rl.buckets.lookup (apiKey ++ "|" ++ model))).2 := by
      rw [hc]; simp
    simp only [runChecks, runBucket]
    rw [ih _ h2, h3, hc]

theorem runChecks_bucket (apiKey model : String) (rph : Int) (ts : List Int) :
    ∀ rl : RateLimiter, rl.rules.lookup (apiKey ++ "|" ++ model) = some rph →
      (runChecks apiKey model rl ts).2.buckets.lookup (apiKey ++ "|" ++ model) =
        (runBucket rph (rl.buckets.lookup (apiKey ++ "|" ++ model)) ts).2 := by
  induction ts with
  | nil => intro rl _; rfl
  | cons t ts ih =>
    intro rl h
    have hc := check_of_rule rl t apiKey model rph h
    have h2 : (Check rl t apiKey model).2.rules.lookup (apiKey ++ "|" ++ model) = some rph := by
      rw [check_rules]; exact h
    have h3 : (Check rl t apiKey model).2.buckets.lookup (apiKey ++ "|" ++ model) =
        some (stepBucket rph t (rl.buckets.lookup (apiKey ++ "|" ++ model))).2 := by
      rw [hc]; simp
    simp only [runChecks, runBucket]
    rw [ih _ h2, h3]

theorem runChecks_rules (apiKey model : String) (ts : List Int) :
    ∀ rl : RateLimiter, (runChecks apiKey model rl ts).2.rules = rl.rules := by
  induction ts with
  | nil => intro rl; rfl
  | cons t ts ih =>
    intro rl
    simp only [runChecks]
    rw [ih, check_rules]

theorem stateAfter_rules (apiKey model : String) (rl : RateLimiter) (ts : List Int) :
    (stateAfter apiKey model rl ts).rules = rl.rules :=
  runChecks_rules apiKey model ts rl

theorem stateAfter_bucket (apiKey model : String) (rph : Int) (ts : List Int)
    (rl : RateLimiter) (h : rl.rules.lookup (apiKey ++ "|" ++ model) = some rph) :
    (stateAfter apiKey model rl ts).buckets.lookup (apiKey ++ "|" ++ model) =
      (runBucket rph (rl.buckets.lookup (apiKey ++ "|" ++ model)) ts).2 :=
  runChecks_bucket apiKey model rph ts rl h

theorem reachable_stateAfter (apiKey model : String) (ts : List Int) :
    ∀ rl : RateLimiter, Reachable rl → Reachable (stateAfter apiKey model rl ts) := by
  induction ts with
  | nil => intro rl h; exact h
  | cons t ts ih =>
    intro rl h
    exact ih _ (Reachable.check rl t apiKey model h)

theorem reachableAt_stateAfter (apiKey model : String) (ts : List Int) :
    ∀ (t : Int) (rl : RateLimiter), ReachableAt t rl → List.Chain (· ≤ ·) t ts →
      ReachableAt (ts.getLastD t) (stateAfter apiKey model rl ts) := by
  induction ts with
  | nil => intro t rl h _; exact h
  | cons x ts ih =>
    intro t rl h hc
    rw [List.chain_cons] at hc
    rw [List.getLastD_cons]
    exact ih x _ (ReachableAt.check t rl x apiKey model h hc.1) hc.2

theorem runBucket_append (rph : Int) (xs ys : List Int) :
    ∀ found : Option tokenBucket,
      runBucket rph found (xs ++ ys) =
        ((runBucket rph found xs).1 ++ (runBucket rph (runBucket rph found xs).2 ys).1,
          (runBucket rph (runBucket rph found xs).2 ys).2) := by
  induction xs with
  | nil => intro found; simp [runBucket]
  | cons x xs ih => intro found; simp [runBucket, ih]

/-! ## The refill step -/

theorem stepBucket_none (rph : Int) (now : Int) :
    stepBucket rph now none = stepBucket rph now (some (freshBucket rph now)) := by
  simp [stepBucket, freshBucket]

theorem runBucket_none (rph : Int) (now : Int) (rest : List Int) :
    runBucket rph none (now :: rest) =
      runBucket rph (some (freshBucket rph now)) (now :: rest) := by
  simp only [runBucket, stepBucket_none]

theorem stepBucket_some (rph : Int) (now : Int) (b : tokenBucket) :
    stepBucket rph now (some b) =
      (decide (1 ≤ refilled rph now b),
        { tokens := if 1 ≤ refilled rph now b then round64 (refilled rph now b - 1)
                    else refilled rph now b,
          lastUpdate := now, capacity := float64 rph,
          rate := round64 (float64 rph / 3600) }) := by
  by_cases h : 1 ≤ refilled rph now b
  · have h2 := h
    unfold refilled at h2
    simp only [stepBucket, refilled, ge_iff_le, h2, h, if_true, decide_True]
  · have h2 := h
    unfold refilled at h2
    simp only [stepBucket, refilled, ge_iff_le, h2, h, if_false, decide_False]

theorem refilled_le_capacity (rph : Int) (now : Int) (b : tokenBucket) :
    refilled rph now b ≤ float64 rph := by
  unfold refilled
  split_ifs with h
  · exact le_rfl
  · exact not_lt.mp h

theorem isFloat64_refilled (rph : Int) (now : Int) (b : tokenBucket) :
    IsFloat64 (refilled rph now b) := by
  unfold refilled
  split_ifs with h
  · exact isFloat64_float64 rph
  · exact isFloat64_round64 _

theorem refilled_same_time (rph : Int) (now : Int) (b : tokenBucket)
    (hl : b.lastUpdate = now) (hf : IsFloat64 b.tokens) (hx : b.tokens ≤ float64 rph) :
    refilled rph now b = b.tokens := by
  have h : ¬ (b.tokens > float64 rph) := not_lt.mpr hx
  simp [refilled, hl, Sub_self, Seconds_zero, round64_zero, round64_of_isFloat64 hf, h]

theorem refilled_nonneg (rph : Int) (now : Int) (b : tokenBucket) (h0 : 0 ≤ b.tokens)
    (hr : 0 ≤ rph) (ht : b.lastUpdate ≤ now) : 0 ≤ refilled rph now b := by
  have hd : 0 ≤ Seconds (Sub now b.lastUpdate) := Seconds_nonneg (Sub_nonneg ht)
  have hrate : 0 ≤ round64 (float64 rph / 3600) :=
    round64_nonneg (div_nonneg (float64_nonneg hr) (by norm_num))
  have hp : 0 ≤ round64 (Seconds (Sub now b.lastUpdate) * round64 (float64 rph / 3600)) :=
    round64_nonneg (mul_nonneg hd hrate)
  unfold refilled
  split_ifs with h
  · exact float64_nonneg hr
  · exact round64_nonneg (by linarith)

/-! ## Calls at one clock reading -/

theorem stepBucket_same_time (rph : Int) (t0 : Int) (x c r : ℚ) (hf : IsFloat64 x)
    (hx : x ≤ float64 rph) :
    stepBucket rph t0 (some { tokens := x, lastUpdate := t0, capacity := c, rate := r }) =
      (decide (1 ≤ x),
        { tokens := if 1 ≤ x then round64 (x - 1) else x, lastUpdate := t0,
          capacity := float64 rph, rate := round64 (float64 rph / 3600) }) := by
  rw [stepBucket_some, refilled_same_time rph t0 _ rfl hf hx]

theorem natCast_le_two_pow {k : ℕ} (h : k ≤ 2 ^ 53) : abs (k : Int) ≤ 2 ^ 53 := by
  rw [abs_of_nonneg (by positivity)]
  exact_mod_cast h

theorem isFloat64_natCast {k : ℕ} (h : k ≤ 2 ^ 53) : IsFloat64 (k : ℚ) := by
  have := isFloat64_intCast (k : Int) (natCast_le_two_pow h)
  simpa using this

theorem runBucket_burst (rph : Int) (t0 : Int) :
    ∀ (k : ℕ) (c r : ℚ), k ≤ 2 ^ 53 → (k : ℚ) ≤ float64 rph →
      runBucket rph (some { tokens := (k : ℚ), lastUpdate := t0, capacity := c, rate := r })
          (List.replicate k t0) =
        (List.replicate k true,
          some { tokens := 0, lastUpdate := t0,
                 capacity := if k = 0 then c else float64 rph,
                 rate := if k = 0 then r else round64 (float64 rph / 3600) }) := by
  intro k
  induction k with
  | zero => intro c r _ _; simp [runBucket]
  | succ k ih =>
    intro c r hb hk
    have hk1 : (1 : ℚ) ≤ ((k + 1 : ℕ) : ℚ) := by
      push_cast; linarith [(Nat.cast_nonneg k : (0 : ℚ) ≤ k)]
    have hk2 : (k : ℚ) ≤ float64 rph := by push_cast at hk; linarith
    have hb2 : k ≤ 2 ^ 53 := by omega
    simp only [List.replicate_succ, runBucket]
    rw [stepBucket_same_time rph t0 _ c r (isFloat64_natCast hb) hk]
    simp only [hk1, if_true, decide_True]
    have e : (((k + 1 : ℕ) : ℚ) - 1) = (k : ℚ) := by push_cast; ring
    rw [e, round64_of_isFloat64 (isFloat64_natCast hb2), ih _ _ hb2 hk2]
    by_cases h0 : k = 0 <;> simp [h0]

theorem runBucket_denied (rph : Int) (t0 : Int) (x : ℚ) (hx : x < 1) (hf : IsFloat64 x) :
    ∀ (j : ℕ) (c r : ℚ), x ≤ float64 rph →
      runBucket rph (some { tokens := x, lastUpdate := t0, capacity := c, rate := r })
          (List.replicate j t0) =
        (List.replicate j false,
          some { tokens := x, lastUpdate := t0,
                 capacity := if j = 0 then c else float64 rph,
                 rate := if j = 0 then r else round64 (float64 rph / 3600) }) := by
  intro j
  induction j with
  | zero => intro c r _; simp [runBucket]
  | succ j ih =>
    intro c r hle
    have hx1 : ¬ (1 ≤ x) := not_le.mpr hx
    simp only [List.replicate_succ, runBucket]
    rw [stepBucket_same_time rph t0 _ c r hf hle]
    simp only [hx1, if_false, decide_False]
    rw [ih _ _ hle]
    by_cases hj : j = 0 <;> simp [hj]

theorem runBucket_fresh (rph : Int) (t0 : Int) (n : ℕ) (hn : 1 ≤ n) (hb : n ≤ 2 ^ 53)
    (h : rph = (n : Int)) (j : ℕ) :
    runBucket rph none (List.replicate n t0 ++ List.replicate j t0) =
      (List.replicate n true ++ List.replicate j false,
        some { tokens := 0, lastUpdate := t0,
               capacity := float64 rph, rate := round64 (float64 rph / 3600) }) := by
  obtain ⟨m, rfl⟩ : ∃ m, n = m + 1 := ⟨n - 1, by omega⟩
  have hq : float64 rph = ((m + 1 : ℕ) : ℚ) := by
    rw [h, float64_of_abs_le _ (natCast_le_two_pow hb)]
    norm_cast
  have hle : ((m + 1 : ℕ) : ℚ) ≤ float64 rph := le_of_eq hq.symm
  have h0 : (0 : ℚ) ≤ float64 rph := by rw [hq]; exact Nat.cast_nonneg _
  have e : List.replicate (m + 1) t0 ++ List.replicate j t0
      = t0 :: (List.replicate m t0 ++ List.replicate j t0) := by
    simp [List.replicate_succ]
  rw [e, runBucket_none, ← e, runBucket_append]
  have hfresh : freshBucket rph t0 =
      { tokens := ((m + 1 : ℕ) : ℚ), lastUpdate := t0, capacity := float64 rph,
        rate := round64 (float64 rph / 3600) } := by
    rw [freshBucket, hq]
  rw [hfresh, runBucket_burst rph t0 (m + 1) _ _ hb hle]
  simp only [Nat.succ_ne_zero, if_false]
  rw [runBucket_denied rph t0 0 (by norm_num) isFloat64_zero j _ _ h0]
  by_cases hj : j = 0 <;> simp [hj]

theorem runChecks_fresh_burst (rl : RateLimiter) (apiKey model : String) (N : Int)
    (t0 : Int) (j : ℕ) (hN : 1 ≤ N) (hb : N ≤ 2 ^ 53)
    (hrule : rl.rules.lookup (apiKey ++ "|" ++ model) = some N)
    (hbucket : rl.buckets.lookup (apiKey ++ "|" ++ model) = none) :
    (runChecks apiKey model rl (List.replicate N.toNat t0 ++ List.replicate j t0)).1 =
      List.replicate N.toNat true ++ List.replicate j false := by
  have hn : 1 ≤ N.toNat := by omega
  have hcast : N = (N.toNat : Int) := by omega
  have hb2 : N.toNat ≤ 2 ^ 53 := by
    have : ((N.toNat : ℕ) : Int) ≤ 2 ^ 53 := by rw [← hcast]; exact hb
    exact_mod_cast this
  rw [runChecks_eq_runBucket apiKey model N _ rl hrule, hbucket,
    runBucket_fresh N t0 N.toNat hn hb2 hcast j]

/-! ## Ceilings above `2 ^ 53` -/

theorem stepBucket_stuck (rph : Int) (t0 : Int) (c r : ℚ) (h1 : 1 ≤ float64 rph)
    (hs : round64 (float64 rph - 1) = float64 rph) :
    stepBucket rph t0 (some { tokens := float64 rph, lastUpdate := t0,
                              capacity := c, rate := r }) =
      (true, { tokens := float64 rph, lastUpdate := t0, capacity := float64 rph,
               rate := round64 (float64 rph / 3600) }) := by
  rw [stepBucket_same_time rph t0 _ c r (isFloat64_float64 rph) le_rfl]
  simp only [h1, if_true, decide_True, hs]

theorem runBucket_stuck (rph : Int) (t0 : Int) (h1 : 1 ≤ float64 rph)
    (hs : round64 (float64 rph - 1) = float64 rph) :
    ∀ (n : ℕ) (c r : ℚ),
      (runBucket rph (some { tokens := float64 rph, lastUpdate := t0,
                             capacity := c, rate := r }) (List.replicate n t0)).1 =
        List.replicate n true := by
  intro n
  induction n with
  | zero => intro c r; rfl
  | succ n ih =>
    intro c r
    simp only [List.replicate_succ, runBucket]
    rw [stepBucket_stuck rph t0 c r h1 hs, ih]

theorem runBucket_stuck_none (rph : Int) (t0 : Int) (h1 : 1 ≤ float64 rph)
    (hs : round64 (float64 rph - 1) = float64 rph) (n : ℕ) :
    (runBucket rph none (List.replicate n t0)).1 = List.replicate n true := by
  cases n with
  | zero => rfl
  | succ n =>
    rw [List.replicate_succ, runBucket_none, ← List.replicate_succ, freshBucket]
    exact runBucket_stuck rph t0 h1 hs (n + 1) _ _

theorem replicate_succ_true_ne (n : ℕ) :
    List.replicate (n + 1) true ≠ List.replicate n true ++ [false] := by
  rw [List.replicate_succ']
  intro h
  have := List.append_cancel_left h
  simp at this

theorem round64_two_pow_53_add_3 : round64 9007199254740995 = 9007199254740996 := by
  rw [round64_eq_of_scaled 1 4503599627370498 (by norm_num) (by norm_num) (by norm_num)
    (by rw [roundHalfEven_tie (r := 4503599627370497) (by norm_num)]; decide)]
  norm_num

theorem round64_two_pow_54_sub_1 : round64 18014398509481983 = 18014398509481984 := by
  rw [round64_eq_of_scaled 1 9007199254740992 (by norm_num) (by norm_num) (by norm_num)
    (by rw [roundHalfEven_tie (r := 9007199254740991) (by norm_num)]; decide)]
  norm_num

theorem round64_two_pow_60_sub_1 :
    round64 1152921504606846975 = 1152921504606846976 := by
  rw [round64_eq_of_scaled 7 9007199254740992 (by norm_num) (by norm_num) (by norm_num)
    (roundHalfEven_of_near (by norm_num) (by norm_num))]
  norm_num

theorem float64_two_pow_53_add_4 : float64 9007199254740996 = 9007199254740996 := by
  have h : IsFloat64 ((9007199254740996 : Int) : ℚ) :=
    ⟨2251799813685249, 2, by norm_num, by norm_num⟩
  exact round64_of_isFloat64 h

theorem float64_two_pow_54 : float64 18014398509481984 = 18014398509481984 := by
  have h : IsFloat64 ((18014398509481984 : Int) : ℚ) := ⟨1, 54, by norm_num, by norm_num⟩
  exact round64_of_isFloat64 h

theorem float64_two_pow_60 : float64 1152921504606846976 = 1152921504606846976 := by
  have h : IsFloat64 ((1152921504606846976 : Int) : ℚ) := ⟨1, 60, by norm_num, by norm_num⟩
  exact round64_of_isFloat64 h

theorem float64_two_pow_53_add_3 : float64 9007199254740995 = 9007199254740996 := by
  rw [float64]
  exact_mod_cast round64_two_pow_53_add_3

theorem limiterWith_rule (rph : Int) (h : 0 < rph) :
    (limiterWith rph).rules.lookup ("k1" ++ "|" ++ "m1") = some rph := by
  have hv : ((validKeysMap ["k1"]).lookup "k1").isNone = false := by decide
  have hg : (exampleRegistry "m1").isNone = false := by decide
  have hr : ¬ rph ≤ 0 := by omega
  simp only [limiterWith, Update, List.foldl, addRule, hv, hg, hr, if_false,
    Bool.false_eq_true]
  exact AList.lookup_insert _

theorem limiterWith_bucket (rph : Int) :
    (limiterWith rph).buckets.lookup ("k1" ++ "|" ++ "m1") = none := by
  simp [limiterWith, Update, cleanupBuckets, NewRateLimiter]

/-! ## Spending over time -/

theorem roundingFactor_ge_one : 1 ≤ roundingFactor := by
  unfold roundingFactor; norm_num

theorem roundingFactor_pos : 0 < roundingFactor :=
  lt_of_lt_of_le (by norm_num) roundingFactor_ge_one

theorem round64_le_factor {q : ℚ} (hq : 0 ≤ q) : round64 q ≤ q * roundingFactor :=
  round64_le_mul hq

theorem round64_le_of_le {q x : ℚ} (hq : 0 ≤ q) (h : q ≤ x) :
    round64 q ≤ x * roundingFactor :=
  le_trans (round64_le_factor hq) (mul_le_mul_of_nonneg_right h (le_of_lt roundingFactor_pos))

theorem Seconds_le {d : Int} (h : 0 ≤ d) :
    Seconds d ≤ (d : ℚ) / 1000000000 * roundingFactor ^ 3 := by
  have hF := roundingFactor_ge_one
  have hFp := roundingFactor_pos
  have hs : 0 ≤ d.tdiv 1000000000 := Int.tdiv_nonneg h (by norm_num)
  have hn : 0 ≤ d.tmod 1000000000 := Int.tmod_nonneg _ h
  have hd : (d : ℚ) = 1000000000 * ((d.tdiv 1000000000 : Int) : ℚ) +
      ((d.tmod 1000000000 : Int) : ℚ) := by
    have := Int.tdiv_add_tmod d 1000000000
    exact_mod_cast this.symm
  have hsq : (0 : ℚ) ≤ ((d.tdiv 1000000000 : Int) : ℚ) := by exact_mod_cast hs
  have hnq : (0 : ℚ) ≤ ((d.tmod 1000000000 : Int) : ℚ) := by exact_mod_cast hn
  have a1 : float64 (d.tdiv 1000000000) ≤ ((d.tdiv 1000000000 : Int) : ℚ) * roundingFactor :=
    round64_le_factor hsq
  have a2 : float64 (d.tmod 1000000000) ≤ ((d.tmod 1000000000 : Int) : ℚ) * roundingFactor :=
    round64_le_factor hnq
  have a3 : round64 (float64 (d.tmod 1000000000) / 1000000000) ≤
      ((d.tmod 1000000000 : Int) : ℚ) * roundingFactor / 1000000000 * roundingFactor :=
    round64_le_of_le (div_nonneg (float64_nonneg hn) (by norm_num))
      (div_le_div_of_nonneg_right a2 (by norm_num))
  have h0 : 0 ≤ float64 (d.tdiv 1000000000) +
      round64 (float64 (d.tmod 1000000000) / 1000000000) :=
    add_nonneg (float64_nonneg hs)
      (round64_nonneg (div_nonneg (float64_nonneg hn) (by norm_num)))
  have hF2 : roundingFactor ≤ roundingFactor ^ 2 := by nlinarith
  have a4 : float64 (d.tdiv 1000000000) +
      round64 (float64 (d.tmod 1000000000) / 1000000000) ≤
      (d : ℚ) / 1000000000 * roundingFactor ^ 2 := by
    have b1 : ((d.tdiv 1000000000 : Int) : ℚ) * roundingFactor ≤
        ((d.tdiv 1000000000 : Int) : ℚ) * roundingFactor ^ 2 :=
      mul_le_mul_of_nonneg_left hF2 hsq
    have e : (d : ℚ) / 1000000000 * roundingFactor ^ 2 =
        ((d.tdiv 1000000000 : Int) : ℚ) * roundingFactor ^ 2 +
          ((d.tmod 1000000000 : Int) : ℚ) * roundingFactor / 1000000000 * roundingFactor := by
      rw [hd]; ring
    rw [e]
    linarith
  unfold Seconds
  calc round64 (float64 (d.tdiv 1000000000) +
        round64 (float64 (d.tmod 1000000000) / 1000000000))
      ≤ (d : ℚ) / 1000000000 * roundingFactor ^ 2 * roundingFactor := round64_le_of_le h0 a4
    _ = (d : ℚ) / 1000000000 * roundingFactor ^ 3 := by ring

theorem refilled_le_budget (rph : Int) (now : Int) (b : tokenBucket) (h0 : 0 ≤ b.tokens)
    (hr : 0 ≤ rph) (hb : rph ≤ 2 ^ 53) (ht : b.lastUpdate ≤ now) :
    refilled rph now b ≤
      (b.tokens + ((now - b.lastUpdate : Int) : ℚ) / 1000000000 * ((rph : ℚ) / 3600)) *
        roundingFactor ^ 6 := by
  have hF := roundingFactor_ge_one
  have hFp := roundingFactor_pos
  have hrq : (0 : ℚ) ≤ (rph : ℚ) := by exact_mod_cast hr
  have hfl : float64 rph = (rph : ℚ) :=
    float64_of_abs_le rph (by rw [abs_of_nonneg hr]; exact hb)
  have hdn : 0 ≤ Sub now b.lastUpdate := Sub_nonneg ht
  have hdl : ((Sub now b.lastUpdate : Int) : ℚ) ≤ ((now - b.lastUpdate : Int) : ℚ) := by
    exact_mod_cast Sub_le ht
  have hdq : (0 : ℚ) ≤ ((Sub now b.lastUpdate : Int) : ℚ) := by exact_mod_cast hdn
  have hsec0 : 0 ≤ Seconds (Sub now b.lastUpdate) := Seconds_nonneg hdn
  have hsec : Seconds (Sub now b.lastUpdate) ≤
      ((now - b.lastUpdate : Int) : ℚ) / 1000000000 * roundingFactor ^ 3 :=
    le_trans (Seconds_le hdn)
      (mul_le_mul_of_nonneg_right (div_le_div_of_nonneg_right hdl (by norm_num))
        (by positivity))
  have hrate0 : 0 ≤ round64 (float64 rph / 3600) :=
    round64_nonneg (div_nonneg (float64_nonneg hr) (by norm_num))
  have hrate : round64 (float64 rph / 3600) ≤ (rph : ℚ) / 3600 * roundingFactor := by
    rw [hfl]
    exact round64_le_factor (div_nonneg hrq (by norm_num))
  have hel : (0 : ℚ) ≤ ((now - b.lastUpdate : Int) : ℚ) / 1000000000 :=
    div_nonneg (le_trans hdq hdl) (by norm_num)
  have hprod : Seconds (Sub now b.lastUpdate) * round64 (float64 rph / 3600) ≤
      ((now - b.lastUpdate : Int) : ℚ) / 1000000000 * ((rph : ℚ) / 3600) *
        roundingFactor ^ 4 := by
    calc Seconds (Sub now b.lastUpdate) * round64 (float64 rph / 3600)
        ≤ (((now - b.lastUpdate : Int) : ℚ) / 1000000000 * roundingFactor ^ 3) *
            ((rph : ℚ) / 3600 * roundingFactor) :=
          mul_le_mul hsec hrate hrate0 (by positivity)
      _ = ((now - b.lastUpdate : Int) : ℚ) / 1000000000 * ((rph : ℚ) / 3600) *
            roundingFactor ^ 4 := by ring
  have hp : round64 (Seconds (Sub now b.lastUpdate) * round64 (float64 rph / 3600)) ≤
      ((now - b.lastUpdate : Int) : ℚ) / 1000000000 * ((rph : ℚ) / 3600) *
        roundingFactor ^ 4 * roundingFactor :=
    round64_le_of_le (mul_nonneg hsec0 hrate0) hprod
  have hp0 : 0 ≤ round64 (Seconds (Sub now b.lastUpdate) * round64 (float64 rph / 3600)) :=
    round64_nonneg (mul_nonneg hsec0 hrate0)
  have hD : (0 : ℚ) ≤ ((now - b.lastUpdate : Int) : ℚ) / 1000000000 * ((rph : ℚ) / 3600) :=
    mul_nonneg hel (div_nonneg hrq (by norm_num))
  have hF5 : (1 : ℚ) ≤ roundingFactor ^ 5 := one_le_pow₀ hF
  have hsum : b.tokens +
      round64 (Seconds (Sub now b.lastUpdate) * round64 (float64 rph / 3600)) ≤
      (b.tokens + ((now - b.lastUpdate : Int) : ℚ) / 1000000000 * ((rph : ℚ) / 3600)) *
        roundingFactor ^ 5 := by
    have : b.tokens ≤ b.tokens * roundingFactor ^ 5 := le_mul_of_one_le_right h0 hF5
    have e : ((now - b.lastUpdate : Int) : ℚ) / 1000000000 * ((rph : ℚ) / 3600) *
        roundingFactor ^ 4 * roundingFactor =
        ((now - b.lastUpdate : Int) : ℚ) / 1000000000 * ((rph : ℚ) / 3600) *
          roundingFactor ^ 5 := by ring
    rw [e] at hp
    linarith
  have hfin : round64 (b.tokens +
      round64 (Seconds (Sub now b.lastUpdate) * round64 (float64 rph / 3600))) ≤
      (b.tokens + ((now - b.lastUpdate : Int) : ℚ) / 1000000000 * ((rph : ℚ) / 3600)) *
        roundingFactor ^ 6 := by
    have := round64_le_of_le (add_nonneg h0 hp0) hsum
    calc _ ≤ _ := this
      _ = _ := by ring
  unfold refilled
  split_ifs with h
  · exact le_trans (le_of_lt h) hfin
  · exact hfin

theorem roundingDeficit_le_one : roundingDeficit ≤ 1 := by
  unfold roundingDeficit; norm_num

theorem roundingDeficit_pos : 0 < roundingDeficit := by
  unfold roundingDeficit; norm_num

theorem round64_ge_mul {q : ℚ} (hq : 0 ≤ q) : q * roundingDeficit ≤ round64 q := by
  unfold roundingDeficit
  rcases eq_or_lt_of_le hq with hz | hpos
  · rw [← hz, round64_zero]; norm_num
  · have hp : (0 : ℚ) < 2 ^ (Int.log 2 q - 52) := zpow_pos (by norm_num) _
    obtain ⟨h1, _⟩ := scaled_bounds hpos
    have hr := sub_roundHalfEven_le (q / 2 ^ (Int.log 2 q - 52))
    rw [round64_of_pos hpos]
    have hu : (2 : ℚ) ^ (Int.log 2 q - 52) * 2 ^ (52 : ℕ) ≤ q := by
      calc (2 : ℚ) ^ (Int.log 2 q - 52) * 2 ^ (52 : ℕ)
          ≤ 2 ^ (Int.log 2 q - 52) * (q / 2 ^ (Int.log 2 q - 52)) :=
            mul_le_mul_of_nonneg_left h1 (le_of_lt hp)
        _ = q := by field_simp
    have key : q - 1 / 2 * 2 ^ (Int.log 2 q - 52) ≤
        (roundHalfEven (q / 2 ^ (Int.log 2 q - 52)) : ℚ) * 2 ^ (Int.log 2 q - 52) := by
      have : q / 2 ^ (Int.log 2 q - 52) - 1 / 2 ≤
          (roundHalfEven (q / 2 ^ (Int.log 2 q - 52)) : ℚ) := by linarith
      calc q - 1 / 2 * 2 ^ (Int.log 2 q - 52)
          = (q / 2 ^ (Int.log 2 q - 52) - 1 / 2) * 2 ^ (Int.log 2 q - 52) := by
            rw [sub_mul, div_mul_cancel₀ _ (ne_of_gt hp)]
        _ ≤ (roundHalfEven (q / 2 ^ (Int.log 2 q - 52)) : ℚ) * 2 ^ (Int.log 2 q - 52) :=
            mul_le_mul_of_nonneg_right this (le_of_lt hp)
    have : (1 : ℚ) / 2 * 2 ^ (Int.log 2 q - 52) ≤ q * (1 / 2 ^ (53 : ℕ)) := by
      have e : (1 : ℚ) / 2 * 2 ^ (Int.log 2 q - 52) =
          (2 ^ (Int.log 2 q - 52) * 2 ^ (52 : ℕ)) * (1 / 2 ^ (53 : ℕ)) := by
        norm_num; ring
      rw [e]
      exact mul_le_mul_of_nonneg_right hu (by positivity)
    linarith

theorem round64_ge_of_ge {q x : ℚ} (hx : 0 ≤ x) (h : x ≤ q) :
    x * roundingDeficit ≤ round64 q :=
  le_trans (mul_le_mul_of_nonneg_right h (le_of_lt roundingDeficit_pos))
    (round64_ge_mul (le_trans hx h))

theorem Seconds_ge {d : Int} (h : 0 ≤ d) :
    (d : ℚ) / 1000000000 * roundingDeficit ^ 3 ≤ Seconds d := by
  have hL := roundingDeficit_le_one
  have hLp := roundingDeficit_pos
  have hs : 0 ≤ d.tdiv 1000000000 := Int.tdiv_nonneg h (by norm_num)
  have hn : 0 ≤ d.tmod 1000000000 := Int.tmod_nonneg _ h
  have hd : (d : ℚ) = 1000000000 * ((d.tdiv 1000000000 : Int) : ℚ) +
      ((d.tmod 1000000000 : Int) : ℚ) := by
    have := Int.tdiv_add_tmod d 1000000000
    exact_mod_cast this.symm
  have hsq : (0 : ℚ) ≤ ((d.tdiv 1000000000 : Int) : ℚ) := by exact_mod_cast hs
  have hnq : (0 : ℚ) ≤ ((d.tmod 1000000000 : Int) : ℚ) := by exact_mod_cast hn
  have a1 : ((d.tdiv 1000000000 : Int) : ℚ) * roundingDeficit ≤ float64 (d.tdiv 1000000000) :=
    round64_ge_mul hsq
  have a2 : ((d.tmod 1000000000 : Int) : ℚ) * roundingDeficit ≤ float64 (d.tmod 1000000000) :=
    round64_ge_mul hnq
  have a3 : ((d.tmod 1000000000 : Int) : ℚ) * roundingDeficit / 1000000000 * roundingDeficit ≤
      round64 (float64 (d.tmod 1000000000) / 1000000000) :=
    round64_ge_of_ge (div_nonneg (mul_nonneg hnq (le_of_lt hLp)) (by norm_num))
      (div_le_div_of_nonneg_right a2 (by norm_num))
  have hL2 : roundingDeficit ^ 2 ≤ roundingDeficit := by nlinarith
  have a4 : (d : ℚ) / 1000000000 * roundingDeficit ^ 2 ≤
      float64 (d.tdiv 1000000000) +
        round64 (float64 (d.tmod 1000000000) / 1000000000) := by
    have b1 : ((d.tdiv 1000000000 : Int) : ℚ) * roundingDeficit ^ 2 ≤
        ((d.tdiv 1000000000 : Int) : ℚ) * roundingDeficit :=
      mul_le_mul_of_nonneg_left hL2 hsq
    have e : (d : ℚ) / 1000000000 * roundingDeficit ^ 2 =
        ((d.tdiv 1000000000 : Int) : ℚ) * roundingDeficit ^ 2 +
          ((d.tmod 1000000000 : Int) : ℚ) * roundingDeficit / 1000000000 * roundingDeficit := by
      rw [hd]; ring
    rw [e]
    linarith
  have h0 : (0 : ℚ) ≤ (d : ℚ) / 1000000000 * roundingDeficit ^ 2 :=
    mul_nonneg (div_nonneg (by exact_mod_cast h) (by norm_num)) (by positivity)
  unfold Seconds
  calc (d : ℚ) / 1000000000 * roundingDeficit ^ 3
      = (d : ℚ) / 1000000000 * roundingDeficit ^ 2 * roundingDeficit := by ring
    _ ≤ _ := round64_ge_of_ge h0 a4

theorem Sub_eq_of_le {t u : Int} (h : u ≤ t) (hd : t - u ≤ maxDuration) : Sub t u = t - u := by
  unfold Sub
  unfold maxDuration minDuration at *
  split_ifs <;> omega

theorem refilled_ge_budget (rph : Int) (now : Int) (b : tokenBucket) (h0 : 0 ≤ b.tokens)
    (hr : 0 ≤ rph) (hb : rph ≤ 2 ^ 53) (ht : b.lastUpdate ≤ now)
    (hd : now - b.lastUpdate ≤ maxDuration) :
    min (rph : ℚ)
        ((b.tokens + ((now - b.lastUpdate : Int) : ℚ) / 1000000000 * ((rph : ℚ) / 3600)) *
          roundingDeficit ^ 6) ≤
      refilled rph now b := by
  have hL := roundingDeficit_le_one
  have hLp := roundingDeficit_pos
  have hrq : (0 : ℚ) ≤ (rph : ℚ) := by exact_mod_cast hr
  have hfl : float64 rph = (rph : ℚ) :=
    float64_of_abs_le rph (by rw [abs_of_nonneg hr]; exact hb)
  have hsub : Sub now b.lastUpdate = now - b.lastUpdate := Sub_eq_of_le ht hd
  have hdn : 0 ≤ now - b.lastUpdate := by omega
  have hel : (0 : ℚ) ≤ ((now - b.lastUpdate : Int) : ℚ) / 1000000000 :=
    div_nonneg (by exact_mod_cast hdn) (by norm_num)
  have hsec := Seconds_ge hdn
  have hrate : (rph : ℚ) / 3600 * roundingDeficit ≤ round64 (float64 rph / 3600) := by
    rw [hfl]
    exact round64_ge_mul (div_nonneg hrq (by norm_num))
  have hq0 : (0 : ℚ) ≤ (rph : ℚ) / 3600 := div_nonneg hrq (by norm_num)
  have hprod : ((now - b.lastUpdate : Int) : ℚ) / 1000000000 * ((rph : ℚ) / 3600) *
      roundingDeficit ^ 4 ≤
      Seconds (now - b.lastUpdate) * round64 (float64 rph / 3600) := by
    calc ((now - b.lastUpdate : Int) : ℚ) / 1000000000 * ((rph : ℚ) / 3600) *
          roundingDeficit ^ 4
        = (((now - b.lastUpdate : Int) : ℚ) / 1000000000 * roundingDeficit ^ 3) *
            ((rph : ℚ) / 3600 * roundingDeficit) := by ring
      _ ≤ Seconds (now - b.lastUpdate) * round64 (float64 rph / 3600) :=
          mul_le_mul hsec hrate (mul_nonneg hq0 (le_of_lt hLp))
            (Seconds_nonneg hdn)
  have hD : (0 : ℚ) ≤ ((now - b.lastUpdate : Int) : ℚ) / 1000000000 * ((rph : ℚ) / 3600) :=
    mul_nonneg hel hq0
  have hp : ((now - b.lastUpdate : Int) : ℚ) / 1000000000 * ((rph : ℚ) / 3600) *
      roundingDeficit ^ 4 * roundingDeficit ≤
      round64 (Seconds (now - b.lastUpdate) * round64 (float64 rph / 3600)) :=
    round64_ge_of_ge (mul_nonneg hD (by positivity)) hprod
  have hL5 : roundingDeficit ^ 5 ≤ 1 := pow_le_one₀ (le_of_lt hLp) hL
  have hsum : (b.tokens + ((now - b.lastUpdate : Int) : ℚ) / 1000000000 * ((rph : ℚ) / 3600)) *
      roundingDeficit ^ 5 ≤
      b.tokens + round64 (Seconds (now - b.lastUpdate) * round64 (float64 rph / 3600)) := by
    have : b.tokens * roundingDeficit ^ 5 ≤ b.tokens := mul_le_of_le_one_right h0 hL5
    have e : ((now - b.lastUpdate : Int) : ℚ) / 1000000000 * ((rph : ℚ) / 3600) *
        roundingDeficit ^ 4 * roundingDeficit =
        ((now - b.lastUpdate : Int) : ℚ) / 1000000000 * ((rph : ℚ) / 3600) *
          roundingDeficit ^ 5 := by ring
    rw [e] at hp
    rw [add_mul]
    linarith
  have hfin : (b.tokens + ((now - b.lastUpdate : Int) : ℚ) / 1000000000 * ((rph : ℚ) / 3600)) *
      roundingDeficit ^ 6 ≤
      round64 (b.tokens +
        round64 (Seconds (now - b.lastUpdate) * round64 (float64 rph / 3600))) := by
    have h5 : (0 : ℚ) ≤ (b.tokens +
        ((now - b.lastUpdate : Int) : ℚ) / 1000000000 * ((rph : ℚ) / 3600)) *
        roundingDeficit ^ 5 := mul_nonneg (add_nonneg h0 hD) (by positivity)
    have := round64_ge_of_ge h5 hsum
    calc _ = _ := by ring
      _ ≤ _ := this
  unfold refilled
  rw [hsub, hfl]
  rw [hfl] at hfin
  split_ifs with h
  · exact min_le_left _ _
  · exact le_trans (min_le_right _ _) hfin

theorem exactBudget_some (c : Int) (now : Int) (b : tokenBucket) :
    exactBudget c now (some b) =
      b.tokens + ((now - b.lastUpdate : Int) : ℚ) / 1000000000 * ((c : ℚ) / 3600) := by
  simp only [exactBudget]
  ring

theorem stepBucket_spend (rph : Int) (now : Int) (b : tokenBucket) (h0 : 0 ≤ b.tokens)
    (hr : 0 ≤ rph) (hb : rph ≤ 2 ^ 53) (ht : b.lastUpdate ≤ now) :
    0 ≤ (stepBucket rph now (some b)).2.tokens ∧
      (stepBucket rph now (some b)).2.lastUpdate = now ∧
      (if (stepBucket rph now (some b)).1 then (1 : ℚ) else 0) +
          (stepBucket rph now (some b)).2.tokens ≤
        (b.tokens + ((now - b.lastUpdate : Int) : ℚ) / 1000000000 * ((rph : ℚ) / 3600)) *
          roundingFactor ^ 6 := by
  have hle := refilled_le_budget rph now b h0 hr hb ht
  have hnn := refilled_nonneg rph now b h0 hr ht
  have hcap := refilled_le_capacity rph now b
  have hfl : float64 rph = (rph : ℚ) :=
    float64_of_abs_le rph (by rw [abs_of_nonneg hr]; exact hb)
  have hbq : (rph : ℚ) ≤ 2 ^ (53 : ℕ) := by exact_mod_cast hb
  rw [stepBucket_some]
  by_cases h : 1 ≤ refilled rph now b
  · have hex : round64 (refilled rph now b - 1) = refilled rph now b - 1 :=
      round64_sub_one (isFloat64_refilled rph now b) h (by rw [hfl] at hcap; linarith)
    simp only [h, if_true, decide_True, hex]
    exact ⟨by linarith, trivial, by linarith⟩
  · simp only [h, if_false, decide_False, Bool.false_eq_true]
    exact ⟨hnn, trivial, by linarith⟩

theorem chain_le_getLastD (ts : List Int) :
    ∀ t : Int, List.Chain (· ≤ ·) t ts → t ≤ ts.getLastD t := by
  induction ts with
  | nil => intro t _; exact le_rfl
  | cons x ts ih =>
    intro t h
    rw [List.chain_cons] at h
    rw [List.getLastD_cons]
    exact le_trans h.1 (ih x h.2)

theorem runBucket_spend (rph : Int) (hr : 0 ≤ rph) (hb : rph ≤ 2 ^ 53) (ts : List Int) :
    ∀ b : tokenBucket, 0 ≤ b.tokens → List.Chain (· ≤ ·) b.lastUpdate ts →
      ∃ b2 : tokenBucket, (runBucket rph (some b) ts).2 = some b2 ∧ 0 ≤ b2.tokens ∧
        (((runBucket rph (some b) ts).1.count true : ℕ) : ℚ) + b2.tokens ≤
          (b.tokens + ((ts.getLastD b.lastUpdate - b.lastUpdate : Int) : ℚ) / 1000000000 *
              ((rph : ℚ) / 3600)) * (roundingFactor ^ 6) ^ ts.length := by
  induction ts with
  | nil => intro b h0 _; exact ⟨b, rfl, h0, by simp [runBucket]⟩
  | cons t ts ih =>
    intro b h0 hc
    rw [List.chain_cons] at hc
    obtain ⟨hle, hrest⟩ := hc
    obtain ⟨s0, s1, s2⟩ := stepBucket_spend rph t b h0 hr hb hle
    rw [← s1] at hrest
    obtain ⟨b2, e, hb2, hsum⟩ := ih _ s0 hrest
    have hlast := chain_le_getLastD ts _ hrest
    rw [s1] at hsum hlast
    refine ⟨b2, by simpa [runBucket] using e, hb2, ?_⟩
    simp only [runBucket, List.getLastD_cons, List.length_cons]
    have hG : (1 : ℚ) ≤ roundingFactor ^ 6 := one_le_pow₀ roundingFactor_ge_one
    have hGn : (1 : ℚ) ≤ (roundingFactor ^ 6) ^ ts.length := one_le_pow₀ hG
    have hrq : (0 : ℚ) ≤ (rph : ℚ) / 3600 := div_nonneg (by exact_mod_cast hr) (by norm_num)
    have hD2 : (0 : ℚ) ≤ ((ts.getLastD t - t : Int) : ℚ) / 1000000000 * ((rph : ℚ) / 3600) := by
      apply mul_nonneg _ hrq
      apply div_nonneg _ (by norm_num)
      exact_mod_cast (by omega : (0 : Int) ≤ ts.getLastD t - t)
    have hsplit : ((ts.getLastD t - b.lastUpdate : Int) : ℚ) / 1000000000 * ((rph : ℚ) / 3600) =
        ((t - b.lastUpdate : Int) : ℚ) / 1000000000 * ((rph : ℚ) / 3600) +
          ((ts.getLastD t - t : Int) : ℚ) / 1000000000 * ((rph : ℚ) / 3600) := by
      push_cast; ring
    rw [hsplit]
    set c1 : ℚ := if (stepBucket rph t (some b)).1 then (1 : ℚ) else 0 with hc1
    have hc1n : 0 ≤ c1 := by rw [hc1]; split_ifs <;> norm_num
    set x1 := (stepBucket rph t (some b)).2.tokens
    set D1 := ((t - b.lastUpdate : Int) : ℚ) / 1000000000 * ((rph : ℚ) / 3600)
    set D2 := ((ts.getLastD t - t : Int) : ℚ) / 1000000000 * ((rph : ℚ) / 3600)
    set G := roundingFactor ^ 6
    set cr : ℚ := (((runBucket rph (some (stepBucket rph t (some b)).2) ts).1.count true : ℕ) : ℚ)
    have hcount : (((List.count true
        ((stepBucket rph t (some b)).1 ::
          (runBucket rph (some (stepBucket rph t (some b)).2) ts).1) : ℕ) : ℚ)) = c1 + cr := by
      cases hv : (stepBucket rph t (some b)).1 with
      | true => rw [List.count_cons_self, hc1, hv]; push_cast; simp only [if_true]; ring
      | false =>
        rw [List.count_cons_of_ne (by simp), hc1, hv]
        simp only [Bool.false_eq_true, if_false]; ring
    rw [hcount]
    have step1 : c1 + cr + b2.tokens ≤ c1 + (x1 + D2) * G ^ ts.length := by linarith
    have step2 : c1 + (x1 + D2) * G ^ ts.length ≤ (c1 + x1 + D2) * G ^ ts.length := by
      have : c1 ≤ c1 * G ^ ts.length := le_mul_of_one_le_right hc1n hGn
      nlinarith
    have step3 : (c1 + x1 + D2) * G ^ ts.length ≤ ((b.tokens + D1) * G + D2) * G ^ ts.length :=
      mul_le_mul_of_nonneg_right (by linarith) (by positivity)
    have step4 : ((b.tokens + D1) * G + D2) * G ^ ts.length ≤
        (b.tokens + (D1 + D2)) * G ^ (ts.length + 1) := by
      have : D2 ≤ D2 * G := le_mul_of_one_le_right hD2 hG
      have e : (b.tokens + (D1 + D2)) * G ^ (ts.length + 1) =
          ((b.tokens + D1) * G + D2 * G) * G ^ ts.length := by ring
      rw [e]
      exact mul_le_mul_of_nonneg_right (by linarith) (by positivity)
    linarith

/-! ## The map key -/

theorem append_sep_inj {α : Type} (c : α) :
    ∀ (a1 a2 m1 m2 : List α), c ∉ a1 → c ∉ a2 → a1 ++ c :: m1 = a2 ++ c :: m2 →
      a1 = a2 ∧ m1 = m2 := by
  intro a1
  induction a1 with
  | nil =>
    intro a2 m1 m2 _ h2 h
    cases a2 with
    | nil => simpa using h
    | cons y a2 =>
      simp only [List.nil_append, List.cons_append, List.cons.injEq] at h
      exact absurd (h.1 ▸ List.mem_cons_self _ _) h2
  | cons x a1 ih =>
    intro a2 m1 m2 h1 h2 h
    cases a2 with
    | nil =>
      simp only [List.nil_append, List.cons_append, List.cons.injEq] at h
      exact absurd (h.1 ▸ List.mem_cons_self _ _) h1
    | cons y a2 =>
      simp only [List.cons_append, List.cons.injEq] at h
      obtain ⟨hxy, ht⟩ := h
      obtain ⟨e1, e2⟩ := ih a2 m1 m2 (fun hc => h1 (List.mem_cons_of_mem _ hc))
        (fun hc => h2 (List.mem_cons_of_mem _ hc)) ht
      exact ⟨by rw [hxy, e1], e2⟩

theorem ruleKey_data (apiKey model : String) :
    (ruleKey apiKey model).data = apiKey.data ++ '|' :: model.data := by
  simp [ruleKey, String.data_append]

/-! ## `Update` -/

theorem mem_foldl_insert_unit (l : List String) (k : String) :
    ∀ acc : GoMap Unit, k ∈ l.foldl (fun m k => m.insert k ()) acc ↔ k ∈ acc ∨ k ∈ l := by
  induction l with
  | nil => intro acc; simp
  | cons x l ih =>
    intro acc
    simp only [List.foldl_cons, ih, AList.mem_insert, List.mem_cons]
    tauto

theorem validKeysMap_lookup (l : List String) (k : String) :
    ((validKeysMap l).lookup k).isNone = false ↔ k ∈ l := by
  have h := mem_foldl_insert_unit l k ∅
  rw [← AList.lookup_isSome] at h
  unfold validKeysMap
  cases hl : AList.lookup k (List.foldl (fun m k => AList.insert k () m) (∅ : GoMap Unit) l) with
  | none => rw [hl] at h; simpa using h
  | some u => rw [hl] at h; simpa using h

theorem passesGuards_iff {Info : Type} (g : String → Option Info) (l : List String)
    (r : RateLimitRule) :
    passesGuards g (validKeysMap l) r = true ↔
      r.APIKey ∈ l ∧ 0 < r.RPH ∧ (g r.Model).isSome = true := by
  simp only [passesGuards, Bool.and_eq_true, Bool.not_eq_true', validKeysMap_lookup,
    decide_eq_false_iff_not, not_le]
  cases g r.Model <;> simp

theorem addRule_eq {Info : Type} (g : String → Option Info) (valid : GoMap Unit)
    (m : GoMap Int) (r : RateLimitRule) :
    addRule g valid m r =
      if passesGuards g valid r = true then m.insert (ruleKey r.APIKey r.Model) r.RPH else m := by
  unfold addRule passesGuards ruleKey
  by_cases h1 : (valid.lookup r.APIKey).isNone = true
  · simp [h1]
  · by_cases h2 : r.RPH ≤ 0
    · simp [h1, h2]
    · by_cases h3 : (g r.Model).isNone = true
      · simp [h1, h2, h3]
      · simp [h1, h2, h3]

theorem mem_foldl_addRule {Info : Type} (g : String → Option Info) (valid : GoMap Unit)
    (K : String) (rules : List RateLimitRule) :
    ∀ acc : GoMap Int, K ∈ rules.foldl (addRule g valid) acc ↔
      K ∈ acc ∨ ∃ r ∈ rules, passesGuards g valid r = true ∧ ruleKey r.APIKey r.Model = K := by
  induction rules with
  | nil => intro acc; simp
  | cons x rules ih =>
    intro acc
    rw [List.foldl_cons, ih, addRule_eq]
    by_cases hp : passesGuards g valid x = true
    · simp only [hp, if_true, AList.mem_insert, List.mem_cons, exists_eq_or_imp, true_and]
      constructor
      · rintro ((h | h) | h)
        · exact Or.inr (Or.inl h.symm)
        · exact Or.inl h
        · exact Or.inr (Or.inr h)
      · rintro (h | h | h)
        · exact Or.inl (Or.inr h)
        · exact Or.inl (Or.inl h.symm)
        · exact Or.inr h
    · simp only [hp, if_false, List.mem_cons, exists_eq_or_imp, false_and, false_or,
        Bool.false_eq_true]

theorem lookup_foldl_addRule_of_no_key {Info : Type} (g : String → Option Info)
    (valid : GoMap Unit) (K : String) (rules : List RateLimitRule) :
    ∀ acc : GoMap Int,
      (∀ r ∈ rules, passesGuards g valid r = true → ruleKey r.APIKey r.Model ≠ K) →
      (rules.foldl (addRule g valid) acc).lookup K = acc.lookup K := by
  induction rules with
  | nil => intro acc _; rfl
  | cons x rules ih =>
    intro acc h
    rw [List.foldl_cons, ih _ (fun r hr => h r (List.mem_cons_of_mem _ hr)), addRule_eq]
    by_cases hp : passesGuards g valid x = true
    · have hne := h x (List.mem_cons_self _ _) hp
      simp only [hp, if_true]
      exact AList.lookup_insert_ne (Ne.symm hne)
    · simp only [hp, if_false, Bool.false_eq_true]

theorem lookup_foldl_erase (rules : GoMap Int) (k : String) (ks : List String) :
    ∀ bs : GoMap tokenBucket,
      (ks.foldl (fun bs k => if (rules.lookup k).isNone then bs.erase k else bs) bs).lookup k =
        if k ∈ ks ∧ (rules.lookup k).isNone = true then none else bs.lookup k := by
  induction ks with
  | nil => intro bs; simp
  | cons x ks ih =>
    intro bs
    rw [List.foldl_cons, ih]
    by_cases hk : k ∈ ks ∧ (rules.lookup k).isNone = true
    · have hk2 : k ∈ x :: ks ∧ (rules.lookup k).isNone = true :=
        ⟨List.mem_cons_of_mem _ hk.1, hk.2⟩
      rw [if_pos hk, if_pos hk2]
    · rw [if_neg hk]
      by_cases hx : k = x
      · subst hx
        by_cases hn : (rules.lookup k).isNone = true
        · simp [hn]
        · simp [hn]
      · have hiff : (k ∈ x :: ks ∧ (rules.lookup k).isNone = true) ↔
            (k ∈ ks ∧ (rules.lookup k).isNone = true) := by
          simp [List.mem_cons, hx]
        rw [if_neg (fun h => hk (hiff.mp h))]
        by_cases hn : (rules.lookup x).isNone = true
        · simp only [hn, if_true]
          exact AList.lookup_erase_ne hx
        · simp only [hn, if_false, Bool.false_eq_true]

theorem cleanupBuckets_lookup (rules : GoMap Int) (bs : GoMap tokenBucket) (k : String) :
    (cleanupBuckets rules bs).lookup k =
      if (rules.lookup k).isNone = true then none else bs.lookup k := by
  unfold cleanupBuckets
  rw [lookup_foldl_erase]
  by_cases hn : (rules.lookup k).isNone = true
  · by_cases hk : k ∈ bs.keys
    · simp [hn, hk]
    · have : bs.lookup k = none := AList.lookup_eq_none.mpr (fun h => hk (AList.mem_keys.mp h))
      simp [hn, this]
  · simp [hn]

theorem update_rules_mem {Info : Type} (g : String → Option Info) (rl : RateLimiter)
    (rules : List RateLimitRule) (validAPIKeys : List String) (K : String) :
    K ∈ (Update g rl rules validAPIKeys).rules ↔
      ∃ r ∈ rules, ruleKey r.APIKey r.Model = K ∧
        r.APIKey ∈ validAPIKeys ∧ 0 < r.RPH ∧ (g r.Model).isSome = true := by
  simp only [Update, mem_foldl_addRule, passesGuards_iff]
  constructor
  · rintro (h | ⟨r, hr, hp, hk⟩)
    · exact absurd h (AList.not_mem_empty K)
    · exact ⟨r, hr, hk, hp⟩
  · rintro ⟨r, hr, hk, hp⟩
    exact Or.inr ⟨r, hr, hp, hk⟩

theorem update_rules_lookup_none {Info : Type} (g : String → Option Info) (rl : RateLimiter)
    (rules : List RateLimitRule) (validAPIKeys : List String) (K : String)
    (hgone : ∀ r ∈ rules, r.APIKey ∈ validAPIKeys → 0 < r.RPH → (g r.Model).isSome = true →
      ruleKey r.APIKey r.Model ≠ K) :
    (Update g rl rules validAPIKeys).rules.lookup K = none := by
  rw [AList.lookup_eq_none, update_rules_mem]
  rintro ⟨r, hr, hk, h1, h2, h3⟩
  exact hgone r hr h1 h2 h3 hk

theorem update_buckets_lookup {Info : Type} (g : String → Option Info) (rl : RateLimiter)
    (rules : List RateLimitRule) (validAPIKeys : List String) (k : String) :
    (Update g rl rules validAPIKeys).buckets.lookup k =
      if ((Update g rl rules validAPIKeys).rules.lookup k).isNone = true then none
      else rl.buckets.lookup k := by
  simp only [Update, cleanupBuckets_lookup]

theorem update_buckets_subset {Info : Type} (g : String → Option Info) (rl : RateLimiter)
    (rules : List RateLimitRule) (validAPIKeys : List String) (k : String)
    (hk : k ∈ (Update g rl rules validAPIKeys).buckets) :
    k ∈ (Update g rl rules validAPIKeys).rules := by
  rw [← AList.lookup_isSome] at hk ⊢
  rw [update_buckets_lookup] at hk
  by_cases hn : ((Update g rl rules validAPIKeys).rules.lookup k).isNone = true
  · rw [if_pos hn] at hk
    exact absurd hk (by simp)
  · cases hl : (Update g rl rules validAPIKeys).rules.lookup k with
    | none => rw [hl] at hn; exact absurd rfl hn
    | some v => rfl

theorem check_buckets_subset (rl : RateLimiter) (now : Int) (apiKey model : String)
    (h : ∀ k, k ∈ rl.buckets → k ∈ rl.rules) :
    ∀ k, k ∈ (Check rl now apiKey model).2.buckets → k ∈ (Check rl now apiKey model).2.rules := by
  intro k hk
  rw [check_rules]
  cases hl : rl.rules.lookup (apiKey ++ "|" ++ model) with
  | none =>
    have e : Check rl now apiKey model = (true, rl) := by simp [Check, hl]
    rw [e] at hk
    exact h k hk
  | some rph =>
    rw [check_of_rule rl now apiKey model rph hl] at hk
    rcases (AList.mem_insert _).mp hk with hk | hk
    · rw [hk, ← AList.lookup_isSome, hl]; rfl
    · exact h k hk

theorem keys_length_le_of_subset {V W : Type} (bs : GoMap V) (rs : GoMap W)
    (h : ∀ k, k ∈ bs → k ∈ rs) : bs.keys.length ≤ rs.keys.length :=
  (List.subperm_of_subset bs.keys_nodup
    (fun k hk => AList.mem_keys.mp (h k (AList.mem_keys.mpr hk)))).length_le

theorem reachable_buckets_subset (rl : RateLimiter) (h : Reachable rl) :
    ∀ k, k ∈ rl.buckets → k ∈ rl.rules := by
  induction h with
  | init => intro k hk; exact absurd hk (AList.not_mem_empty k)
  | update g rl rules valid _ _ => exact fun k => update_buckets_subset g rl rules valid k
  | check rl now apiKey model _ ih => exact check_buckets_subset rl now apiKey model ih

/-- C1: when the rule map has no entry for the key of `(apiKey, model)`, `Check` allows the
request at every clock reading and returns the limiter state unchanged. -/
theorem check_no_rule_default_open (rl : RateLimiter) (now : Int) (apiKey model : String)
    (h : rl.rules.lookup (ruleKey apiKey model) = none) :
    Check rl now apiKey model = (true, rl) := by
  unfold ruleKey at h
  simp [Check, h]

/-- C1 at a concrete state: `k2|m1` has no rule in `exampleLimiter`. -/
theorem check_no_rule_default_open_witness :
    exampleLimiter.rules.lookup (ruleKey "k2" "m1") = none ∧
      Check exampleLimiter 5 "k2" "m1" = (true, exampleLimiter) :=
  ⟨by decide, check_no_rule_default_open exampleLimiter 5 "k2" "m1" (by decide)⟩

/-- C2 (as stated, refuted): with ceiling `2 ^ 53 + 4 = 9007199254740996` and no bucket,
`float64` subtraction of 1 rounds back to the same token count, so the bucket never
drains: all of `N + 1` calls at one clock reading return `true`, and the verdicts are not
`N` times `true` followed by `false`. -/
theorem check_burst_never_exhausts_above_two_pow_53 :
    ¬ ((runChecks "k1" "m1" (limiterWith 9007199254740996)
          (List.replicate (9007199254740996 + 1) 0)).1 =
        List.replicate 9007199254740996 true ++ [false]) := by
  have h1 : (1 : ℚ) ≤ float64 9007199254740996 := by
    rw [float64_two_pow_53_add_4]; norm_num
  have hs : round64 (float64 9007199254740996 - 1) = float64 9007199254740996 := by
    rw [float64_two_pow_53_add_4]
    have e : (9007199254740996 : ℚ) - 1 = 9007199254740995 := by norm_num
    rw [e]
    exact round64_two_pow_53_add_3
  rw [runChecks_eq_runBucket "k1" "m1" 9007199254740996 _ _
    (limiterWith_rule 9007199254740996 (by norm_num)), limiterWith_bucket,
    runBucket_stuck_none 9007199254740996 0 h1 hs]
  exact replicate_succ_true_ne 9007199254740996

/-- C2 (amended): for a key with ceiling `N`, `1 ≤ N ≤ 2 ^ 53`, and no bucket yet, `N + 1`
consecutive `Check` calls at one clock reading `t0` return `true` for the first `N` calls
and `false` for the last one. -/
theorem check_burst_then_exhaust (rl : RateLimiter) (apiKey model : String) (N : Int)
    (t0 : Int) (hN : 1 ≤ N) (hb : N ≤ 2 ^ 53)
    (hrule : rl.rules.lookup (ruleKey apiKey model) = some N)
    (hbucket : rl.buckets.lookup (ruleKey apiKey model) = none) :
    (runChecks apiKey model rl (List.replicate (N.toNat + 1) t0)).1 =
      List.replicate N.toNat true ++ [false] := by
  rw [List.replicate_add]
  exact runChecks_fresh_burst rl apiKey model N t0 1 hN hb hrule hbucket

/-- C2 (amended) at ceiling 3: three allowed calls, then a denied one. -/
theorem check_burst_then_exhaust_witness :
    (runChecks "k1" "m1" exampleLimiter (List.replicate 4 7)).1 = [true, true, true, false] :=
  check_burst_then_exhaust exampleLimiter "k1" "m1" 3 7 (by decide) (by decide) (by decide)
    (by decide)

/-- C3 (as stated, refuted): with ceiling `N = 2 ^ 60` and no bucket, all of `N + 1` calls
at clock reading 0 return `true` (`float64` subtraction of 1 leaves `2 ^ 60` unchanged),
more than the `N + (0 - 0) * N / 3600` the claim allows. -/
theorem check_overspend_above_two_pow_53 :
    ¬ ((((runChecks "k1" "m1" (limiterWith 1152921504606846976)
            (List.replicate (1152921504606846976 + 1) 0)).1.count true : ℕ) : ℚ) ≤
        ((1152921504606846976 : Int) : ℚ) +
          (((0 : Int) - 0 : Int) : ℚ) / 1000000000 * ((1152921504606846976 : Int) : ℚ) /
            3600) := by
  have h1 : (1 : ℚ) ≤ float64 1152921504606846976 := by
    rw [float64_two_pow_60]; norm_num
  have hs : round64 (float64 1152921504606846976 - 1) = float64 1152921504606846976 := by
    rw [float64_two_pow_60]
    have e : (1152921504606846976 : ℚ) - 1 = 1152921504606846975 := by norm_num
    rw [e]
    exact round64_two_pow_60_sub_1
  rw [runChecks_eq_runBucket "k1" "m1" 1152921504606846976 _ _
    (limiterWith_rule 1152921504606846976 (by norm_num)), limiterWith_bucket,
    runBucket_stuck_none 1152921504606846976 0 h1 hs, List.count_replicate_self]
  push_cast
  norm_num

/-- C3 (amended): for a key whose ceiling `N`, `1 ≤ N ≤ 2 ^ 53`, is fixed and that has no
bucket at the start, in every sequence of `k` `Check` calls at non-decreasing clock
readings `t1 ≤ ... ≤ tk` (nanoseconds) the number of calls that return `true` is at most
`(N + (tk - t1) / 10 ^ 9 * N / 3600) * (1 + 2 ^ (-53)) ^ (6 * k)`: the exact budget, up to
six `float64` roundings per call. -/
theorem check_no_overspend (rl : RateLimiter) (apiKey model : String) (N : Int)
    (t1 : Int) (ts : List Int) (hN : 1 ≤ N) (hb : N ≤ 2 ^ 53)
    (hrule : rl.rules.lookup (ruleKey apiKey model) = some N)
    (hbucket : rl.buckets.lookup (ruleKey apiKey model) = none)
    (hclock : List.Chain' (· ≤ ·) (t1 :: ts)) :
    (((runChecks apiKey model rl (t1 :: ts)).1.count true : ℕ) : ℚ) ≤
      ((N : ℚ) +
          (((t1 :: ts).getLast (List.cons_ne_nil t1 ts) - t1 : Int) : ℚ) / 1000000000 *
            ((N : ℚ) / 3600)) *
        (roundingFactor ^ 6) ^ (ts.length + 1) := by
  unfold ruleKey at hrule hbucket
  have hr : 0 ≤ N := by omega
  have hfl : float64 N = (N : ℚ) :=
    float64_of_abs_le N (by rw [abs_of_nonneg hr]; exact hb)
  have hq : (0 : ℚ) ≤ float64 N := float64_nonneg hr
  rw [runChecks_eq_runBucket apiKey model N _ rl hrule, hbucket, runBucket_none]
  have hch : List.Chain (· ≤ ·) (freshBucket N t1).lastUpdate (t1 :: ts) :=
    List.Chain.cons le_rfl hclock
  obtain ⟨b2, _, hb2, hsum⟩ := runBucket_spend N hr hb (t1 :: ts) (freshBucket N t1) hq hch
  rw [List.getLast_eq_getLastD]
  have e1 : (freshBucket N t1).tokens = (N : ℚ) := hfl
  have e2 : (freshBucket N t1).lastUpdate = t1 := rfl
  simp only [List.getLastD_cons, List.length_cons] at hsum
  rw [e1, e2] at hsum
  linarith

/-- C3 (amended) at ceiling 3 and clock readings 0 s, 0 s, 1800 s, 3600 s. -/
theorem check_no_overspend_witness :
    List.Chain' (· ≤ ·) [(0 : Int), 0, 1800000000000, 3600000000000] ∧
      (((runChecks "k1" "m1" exampleLimiter
          [0, 0, 1800000000000, 3600000000000]).1.count true : ℕ) : ℚ) ≤
        (((3 : Int) : ℚ) +
            ((([0, 0, 1800000000000, 3600000000000] : List Int).getLast
                (List.cons_ne_nil 0 [0, 1800000000000, 3600000000000]) - 0 : Int) : ℚ) /
              1000000000 * (((3 : Int) : ℚ) / 3600)) *
          (roundingFactor ^ 6) ^ (([0, 1800000000000, 3600000000000] : List Int).length + 1) :=
  ⟨by simp,
    check_no_overspend exampleLimiter "k1" "m1" 3 0 [0, 1800000000000, 3600000000000]
      (by decide) (by decide) (by decide) (by decide) (by simp)⟩

/-- C4 (as stated, refuted): the pairs `("a|b", "c")` and `("a", "b|c")` are different
and get the same map key `"a|b|c"`. -/
theorem ruleKey_collision :
    ¬ (ruleKey "a|b" "c" = ruleKey "a" "b|c" → "a|b" = "a" ∧ "c" = "b|c") := by
  decide

/-- C4 (amended): two pairs with the same map key are equal provided the character `|`
occurs in neither API key, or in neither model name. -/
theorem ruleKey_injective_of_no_delimiter (apiKey1 model1 apiKey2 model2 : String)
    (hfree : ('|' ∉ apiKey1.data ∧ '|' ∉ apiKey2.data) ∨
      ('|' ∉ model1.data ∧ '|' ∉ model2.data))
    (h : ruleKey apiKey1 model1 = ruleKey apiKey2 model2) :
    apiKey1 = apiKey2 ∧ model1 = model2 := by
  have hd : apiKey1.data ++ '|' :: model1.data = apiKey2.data ++ '|' :: model2.data := by
    rw [← ruleKey_data, ← ruleKey_data, h]
  rcases hfree with ⟨h1, h2⟩ | ⟨h1, h2⟩
  · obtain ⟨e1, e2⟩ := append_sep_inj '|' _ _ _ _ h1 h2 hd
    exact ⟨String.ext e1, String.ext e2⟩
  · have hr := congrArg List.reverse hd
    simp only [List.reverse_append, List.reverse_cons, List.append_assoc,
      List.singleton_append] at hr
    obtain ⟨e1, e2⟩ := append_sep_inj '|' _ _ _ _
      (fun hc => h1 (List.mem_reverse.mp hc)) (fun hc => h2 (List.mem_reverse.mp hc)) hr
    exact ⟨String.ext (List.reverse_injective e2), String.ext (List.reverse_injective e1)⟩

/-- C4 (amended) at two pairs whose API keys are free of `|`. -/
theorem ruleKey_injective_of_no_delimiter_witness :
    ruleKey "k1" "m|x" = ruleKey "k1" "m|x" ∧ ("k1" = "k1" ∧ "m|x" = "m|x") :=
  ⟨rfl, ruleKey_injective_of_no_delimiter "k1" "m|x" "k1" "m|x"
    (Or.inl ⟨by decide, by decide⟩) rfl⟩

/-- C5: after `Update` the rule map has an entry for key `K` exactly when some candidate
rule with that key has its API key among `validAPIKeys`, a positive `RPH` and a model the
registry resolves, whatever the previous state was; and the candidate list
`[{APIKey: "unknown", Model: "r", RPH: 10}]` with valid keys `["a", "b"]` leaves the rule
map empty. -/
theorem update_installs_exactly_valid_rules {Info : Type} (GetModelInfo : String → Option Info)
    (rl : RateLimiter) (rules : List RateLimitRule) (validAPIKeys : List String) :
    (∀ K : String, K ∈ (Update GetModelInfo rl rules validAPIKeys).rules ↔
        ∃ r ∈ rules, ruleKey r.APIKey r.Model = K ∧
          r.APIKey ∈ validAPIKeys ∧ 0 < r.RPH ∧ (GetModelInfo r.Model).isSome = true) ∧
      (Update GetModelInfo rl [{ APIKey := "unknown", Model := "r", RPH := 10 }]
          ["a", "b"]).rules = ∅ := by
  refine ⟨fun K => update_rules_mem GetModelInfo rl rules validAPIKeys K, ?_⟩
  have hv : ((validKeysMap ["a", "b"]).lookup "unknown").isNone = true := by decide
  simp [Update, addRule, hv]

/-- C6: when the candidate list is `pre ++ r :: post`, the rule `r` is accepted and no
accepted rule of `post` has the key of `r`, the ceiling stored for that key after `Update`
is `r.RPH`: among accepted rules with one key the last in input order wins. -/
theorem update_last_write_wins {Info : Type} (GetModelInfo : String → Option Info)
    (rl : RateLimiter) (pre post : List RateLimitRule) (r : RateLimitRule)
    (validAPIKeys : List String)
    (hr : r.APIKey ∈ validAPIKeys ∧ 0 < r.RPH ∧ (GetModelInfo r.Model).isSome = true)
    (hpost : ∀ r2 ∈ post, r2.APIKey ∈ validAPIKeys → 0 < r2.RPH →
      (GetModelInfo r2.Model).isSome = true →
      ruleKey r2.APIKey r2.Model ≠ ruleKey r.APIKey r.Model) :
    (Update GetModelInfo rl (pre ++ r :: post) validAPIKeys).rules.lookup
      (ruleKey r.APIKey r.Model) = some r.RPH := by
  have hp : passesGuards GetModelInfo (validKeysMap validAPIKeys) r = true :=
    (passesGuards_iff _ _ _).mpr hr
  simp only [Update, List.foldl_append, List.foldl_cons]
  rw [lookup_foldl_addRule_of_no_key, addRule_eq, if_pos hp, AList.lookup_insert]
  intro r2 h2 hp2
  obtain ⟨a, b, c⟩ := (passesGuards_iff _ _ _).mp hp2
  exact hpost r2 h2 a b c

/-- C6 at a candidate list with two accepted rules for `k1|m1`: the later ceiling 7 is
stored. -/
theorem update_last_write_wins_witness :
    (Update exampleRegistry exampleLimiter
        ([{ APIKey := "k1", Model := "m1", RPH := 5 }] ++
          { APIKey := "k1", Model := "m1", RPH := 7 } ::
            [{ APIKey := "k1", Model := "m2", RPH := 9 }]) ["k1"]).rules.lookup
      (ruleKey "k1" "m1") = some 7 :=
  update_last_write_wins exampleRegistry exampleLimiter
    [{ APIKey := "k1", Model := "m1", RPH := 5 }] [{ APIKey := "k1", Model := "m2", RPH := 9 }]
    { APIKey := "k1", Model := "m1", RPH := 7 } ["k1"] (by decide) (by decide)

/-- C7: in every state reachable from `NewRateLimiter` by `Update` and `Check` calls every
key of the bucket map is a key of the rule map, so the bucket map has at most as many
entries as the rule map; and right after an `Update` from any state no bucket is left
whose key is absent from the new rule map. -/
theorem no_orphan_buckets (rl : RateLimiter) (h : Reachable rl) :
    (∀ k : String, k ∈ rl.buckets → k ∈ rl.rules) ∧
      rl.buckets.keys.length ≤ rl.rules.keys.length ∧
      (∀ (Info : Type) (GetModelInfo : String → Option Info) (rl0 : RateLimiter)
          (rules : List RateLimitRule) (validAPIKeys : List String) (k : String),
        k ∉ (Update GetModelInfo rl0 rules validAPIKeys).rules →
        (Update GetModelInfo rl0 rules validAPIKeys).buckets.lookup k = none) := by
  refine ⟨reachable_buckets_subset rl h,
    keys_length_le_of_subset _ _ (reachable_buckets_subset rl h), ?_⟩
  intro Info g rl0 rules valid k hk
  rw [AList.lookup_eq_none]
  exact fun hb => hk (update_buckets_subset g rl0 rules valid k hb)

/-- C7 at the state reached by one `Update` and four `Check` calls. -/
theorem no_orphan_buckets_witness :
    Reachable exhaustedLimiter ∧ (∀ k : String, k ∈ exhaustedLimiter.buckets →
      k ∈ exhaustedLimiter.rules) :=
  have h : Reachable exhaustedLimiter :=
    reachable_stateAfter "k1" "m1" [0, 0, 0, 0] exampleLimiter
      (Reachable.update exampleRegistry NewRateLimiter
        [{ APIKey := "k1", Model := "m1", RPH := 3 }] ["k1"] Reachable.init)
  ⟨h, (no_orphan_buckets exhaustedLimiter h).1⟩

/-- C8: after an `Update` whose candidate list yields no accepted rule for the key of
`(apiKey, model)`, whatever rule and bucket the key had before, the key has neither rule
nor bucket and the next `Check` on it returns `true` at every clock reading, leaving the
state as it is. -/
theorem removal_reverts_to_default_open {Info : Type} (GetModelInfo : String → Option Info)
    (rl : RateLimiter) (rules : List RateLimitRule) (validAPIKeys : List String)
    (apiKey model : String) (now : Int)
    (hgone : ∀ r ∈ rules, r.APIKey ∈ validAPIKeys → 0 < r.RPH →
      (GetModelInfo r.Model).isSome = true →
      ruleKey r.APIKey r.Model ≠ ruleKey apiKey model) :
    Check (Update GetModelInfo rl rules validAPIKeys) now apiKey model =
        (true, Update GetModelInfo rl rules validAPIKeys) ∧
      (Update GetModelInfo rl rules validAPIKeys).buckets.lookup (ruleKey apiKey model) = none := by
  have hnone := update_rules_lookup_none GetModelInfo rl rules validAPIKeys
    (ruleKey apiKey model) hgone
  constructor
  · unfold ruleKey at hnone
    simp [Check, hnone]
  · rw [update_buckets_lookup, hnone]
    rfl

/-- C8 at the exhausted bucket of `k1|m1`: an `Update` that only carries a rule for
`k1|m2` reopens `k1|m1`. -/
theorem removal_reverts_to_default_open_witness :
    exhaustedLimiter.rules.lookup (ruleKey "k1" "m1") = some 3 ∧
      (Check (Update exampleRegistry exhaustedLimiter
        [{ APIKey := "k1", Model := "m2", RPH := 4 }] ["k1"]) 0 "k1" "m1").1 = true :=
by
  have hgone : ∀ r ∈ [({ APIKey := "k1", Model := "m2", RPH := 4 } : RateLimitRule)],
      r.APIKey ∈ ["k1"] → 0 < r.RPH → (exampleRegistry r.Model).isSome = true →
      ruleKey r.APIKey r.Model ≠ ruleKey "k1" "m1" := by decide
  have h := (removal_reverts_to_default_open exampleRegistry exhaustedLimiter
    [{ APIKey := "k1", Model := "m2", RPH := 4 }] ["k1"] "k1" "m1" 0 hgone).1
  refine ⟨?_, ?_⟩
  · have e : exhaustedLimiter.rules = exampleLimiter.rules :=
      stateAfter_rules "k1" "m1" exampleLimiter [0, 0, 0, 0]
    rw [e]
    decide
  · rw [h]

/-- C9 (as stated, refuted): after an `Update` that drops `k1|m1` and an `Update` that
gives it the ceiling `N = 2 ^ 54 = 18014398509481984`, all of `N + 1` calls at one clock
reading return `true` (`float64` subtraction of 1 rounds `2 ^ 54 - 1` back to `2 ^ 54`), so
the verdicts are not `N` times `true` followed by `false`. -/
theorem readd_burst_never_exhausts_above_two_pow_53 :
    ¬ ((runChecks "k1" "m1"
          (Update exampleRegistry (Update exampleRegistry exhaustedLimiter [] ["k1"])
            [{ APIKey := "k1", Model := "m1", RPH := 18014398509481984 }] ["k1"])
          (List.replicate (18014398509481984 + 1) 0)).1 =
        List.replicate 18014398509481984 true ++ [false]) := by
  have h1 : (1 : ℚ) ≤ float64 18014398509481984 := by
    rw [float64_two_pow_54]; norm_num
  have hs : round64 (float64 18014398509481984 - 1) = float64 18014398509481984 := by
    rw [float64_two_pow_54]
    have e : (18014398509481984 : ℚ) - 1 = 18014398509481983 := by norm_num
    rw [e]
    exact round64_two_pow_54_sub_1
  have hrule : (Update exampleRegistry (Update exampleRegistry exhaustedLimiter [] ["k1"])
      [{ APIKey := "k1", Model := "m1", RPH := 18014398509481984 }] ["k1"]).rules.lookup
      ("k1" ++ "|" ++ "m1") = some 18014398509481984 := by decide
  have hb1 : (Update exampleRegistry exhaustedLimiter [] ["k1"]).buckets.lookup
      ("k1" ++ "|" ++ "m1") = none := by
    rw [update_buckets_lookup]
    have : (Update exampleRegistry exhaustedLimiter [] ["k1"]).rules.lookup
        ("k1" ++ "|" ++ "m1") = none := by decide
    rw [this]
    rfl
  have hb2 : (Update exampleRegistry (Update exampleRegistry exhaustedLimiter [] ["k1"])
      [{ APIKey := "k1", Model := "m1", RPH := 18014398509481984 }] ["k1"]).buckets.lookup
      ("k1" ++ "|" ++ "m1") = none := by
    rw [update_buckets_lookup, hrule, hb1]
    rfl
  rw [runChecks_eq_runBucket "k1" "m1" 18014398509481984 _ _ hrule, hb2,
    runBucket_stuck_none 18014398509481984 0 h1 hs]
  exact replicate_succ_true_ne 18014398509481984

/-- C9 (amended): after an `Update` that drops the key of `(apiKey, model)` and a second
`Update` that stores a ceiling `N`, `1 ≤ N ≤ 2 ^ 53`, for it, `N + 1` consecutive `Check`
calls at one clock reading return `true` `N` times and then `false`, whatever bucket the
key had before. -/
theorem readd_grants_fresh_burst {Info1 Info2 : Type} (GetModelInfo1 : String → Option Info1)
    (GetModelInfo2 : String → Option Info2) (rl : RateLimiter)
    (rules1 rules2 : List RateLimitRule) (valid1 valid2 : List String)
    (apiKey model : String) (N : Int) (t : Int) (hN : 1 ≤ N) (hb : N ≤ 2 ^ 53)
    (hdrop : ∀ r ∈ rules1, r.APIKey ∈ valid1 → 0 < r.RPH →
      (GetModelInfo1 r.Model).isSome = true →
      ruleKey r.APIKey r.Model ≠ ruleKey apiKey model)
    (hadd : (Update GetModelInfo2 (Update GetModelInfo1 rl rules1 valid1) rules2 valid2).rules.lookup
      (ruleKey apiKey model) = some N) :
    (runChecks apiKey model
        (Update GetModelInfo2 (Update GetModelInfo1 rl rules1 valid1) rules2 valid2)
        (List.replicate (N.toNat + 1) t)).1 =
      List.replicate N.toNat true ++ [false] := by
  have h1 : (Update GetModelInfo1 rl rules1 valid1).buckets.lookup (ruleKey apiKey model) = none := by
    rw [update_buckets_lookup,
      update_rules_lookup_none GetModelInfo1 rl rules1 valid1 (ruleKey apiKey model) hdrop]
    rfl
  have h2 : (Update GetModelInfo2 (Update GetModelInfo1 rl rules1 valid1) rules2 valid2).buckets.lookup
      (ruleKey apiKey model) = none := by
    rw [update_buckets_lookup, hadd, h1]
    rfl
  rw [List.replicate_add]
  exact runChecks_fresh_burst _ apiKey model N t 1 hN hb hadd h2

/-- C9 (amended) at the exhausted bucket of `k1|m1`: dropping the key and adding it again
with ceiling 2 gives two allowed calls and a denied one. -/
theorem readd_grants_fresh_burst_witness :
    (runChecks "k1" "m1"
        (Update exampleRegistry (Update exampleRegistry exhaustedLimiter [] ["k1"])
          [{ APIKey := "k1", Model := "m1", RPH := 2 }] ["k1"])
        (List.replicate 3 0)).1 = [true, true, false] :=
  readd_grants_fresh_burst exampleRegistry exampleRegistry exhaustedLimiter []
    [{ APIKey := "k1", Model := "m1", RPH := 2 }] ["k1"] ["k1"] "k1" "m1" 2 0 (by decide)
    (by decide) (by simp) (by decide)

/-! ## Refill after one to two seconds -/

theorem round64_one : round64 1 = 1 := by
  have h : IsFloat64 (1 : ℚ) := ⟨1, 0, by norm_num, by norm_num⟩
  exact round64_of_isFloat64 h

theorem round64_largest_nsec :
    round64 (999999999 / 1000000000) = 9007199245733793 / 9007199254740992 := by
  rw [round64_eq_of_scaled (-53) 9007199245733793 (by norm_num) (by norm_num) (by norm_num)
    (roundHalfEven_of_near (by norm_num) (by norm_num))]
  norm_num

theorem round64_one_add_largest_nsec :
    round64 (1 + 9007199245733793 / 9007199254740992) =
      562949953139837 / 281474976710656 := by
  rw [round64_eq_of_scaled (-52) 9007199250237392 (by norm_num) (by norm_num) (by norm_num)
    (by rw [roundHalfEven_tie (r := 9007199250237392) (by norm_num)]; decide)]
  norm_num

theorem Seconds_between_one_and_two (d : Int) (h1 : 1000000000 ≤ d) (h2 : d < 2000000000) :
    1 ≤ Seconds d ∧ Seconds d < 2 := by
  have hd0 : 0 ≤ d := by omega
  have ht : d.tdiv 1000000000 = 1 := by
    rw [Int.tdiv_eq_ediv hd0 (by norm_num)]; omega
  have hm : d.tmod 1000000000 = d - 1000000000 := by
    rw [Int.tmod_eq_emod hd0 (by norm_num)]; omega
  have hf1 : float64 1 = 1 := by
    have := float64_of_abs_le 1 (by norm_num)
    simpa using this
  have hfn : float64 (d - 1000000000) = ((d - 1000000000 : Int) : ℚ) :=
    float64_of_abs_le _ (by rw [abs_le]; constructor <;> omega)
  have hn0 : (0 : ℚ) ≤ ((d - 1000000000 : Int) : ℚ) := by
    exact_mod_cast (by omega : (0 : Int) ≤ d - 1000000000)
  have hn1 : ((d - 1000000000 : Int) : ℚ) ≤ 999999999 := by
    exact_mod_cast (by omega : d - 1000000000 ≤ 999999999)
  have hq0 : 0 ≤ round64 (((d - 1000000000 : Int) : ℚ) / 1000000000) :=
    round64_nonneg (div_nonneg hn0 (by norm_num))
  have hq1 : round64 (((d - 1000000000 : Int) : ℚ) / 1000000000) ≤
      9007199245733793 / 9007199254740992 := by
    rw [← round64_largest_nsec]
    exact round64_mono_of_nonneg (div_nonneg hn0 (by norm_num))
      (div_le_div_of_nonneg_right hn1 (by norm_num))
  unfold Seconds
  rw [ht, hm, hf1, hfn]
  constructor
  · have : round64 1 ≤ round64 (1 + round64 (((d - 1000000000 : Int) : ℚ) / 1000000000)) :=
      round64_mono_of_nonneg (by norm_num) (by linarith)
    rw [round64_one] at this
    exact this
  · have : round64 (1 + round64 (((d - 1000000000 : Int) : ℚ) / 1000000000)) ≤
        round64 (1 + 9007199245733793 / 9007199254740992) :=
      round64_mono_of_nonneg (by linarith) (by linarith)
    rw [round64_one_add_largest_nsec] at this
    have hlt : (562949953139837 : ℚ) / 281474976710656 < 2 := by norm_num
    exact lt_of_le_of_lt this hlt

theorem float64_3600 : float64 3600 = 3600 := by
  have := float64_of_abs_le 3600 (by norm_num)
  simpa using this

theorem rate_3600 : round64 (float64 3600 / 3600) = 1 := by
  rw [float64_3600]
  have e : (3600 : ℚ) / 3600 = 1 := by norm_num
  rw [e, round64_one]

theorem Sub_add_of_small (t0 d : Int) (h1 : 0 ≤ d) (h2 : d < 2000000000) :
    Sub (t0 + d) t0 = d := by
  unfold Sub maxDuration minDuration
  have e : t0 + d - t0 = d := by ring
  rw [e]
  split_ifs <;> omega

theorem refilled_hourly_after (t0 d : Int) (c r : ℚ) (h1 : 1000000000 ≤ d)
    (h2 : d < 2000000000) :
    refilled 3600 (t0 + d) { tokens := 0, lastUpdate := t0, capacity := c, rate := r } =
      Seconds d := by
  obtain ⟨_, hs2⟩ := Seconds_between_one_and_two d h1 h2
  have hs : round64 (Seconds d) = Seconds d := round64_of_isFloat64 (isFloat64_Seconds d)
  have hgt : ¬ (Seconds d > 3600) := by linarith
  have hr1 : round64 ((3600 : ℚ) / 3600) = 1 := by
    have e : (3600 : ℚ) / 3600 = 1 := by norm_num
    rw [e, round64_one]
  simp only [refilled, Sub_add_of_small t0 d (by omega) h2, float64_3600, hr1, mul_one,
    zero_add, hs, hgt, if_false]

/-- C10: with ceiling 3600 and no bucket yet, after 3600 allowed `Check` calls at clock
reading `t0`, followed by any number `j` of denied calls at `t0`, a `Check` at `t0 + d`
with `1 s ≤ d < 2 s` (`d` in nanoseconds) returns `true` and a second `Check` at that
reading returns `false`. -/
theorem linear_refill (rl : RateLimiter) (apiKey model : String) (t0 d : Int) (j : ℕ)
    (hrule : rl.rules.lookup (ruleKey apiKey model) = some 3600)
    (hbucket : rl.buckets.lookup (ruleKey apiKey model) = none)
    (hd1 : 1000000000 ≤ d) (hd2 : d < 2000000000) :
    (runChecks apiKey model rl
        (List.replicate 3600 t0 ++ List.replicate j t0 ++ [t0 + d, t0 + d])).1 =
      List.replicate 3600 true ++ List.replicate j false ++ [true, false] := by
  unfold ruleKey at hrule hbucket
  obtain ⟨hs1, hs2⟩ := Seconds_between_one_and_two d hd1 hd2
  rw [runChecks_eq_runBucket apiKey model 3600 _ rl hrule, hbucket, runBucket_append,
    runBucket_fresh 3600 t0 3600 (by norm_num) (by norm_num) (by norm_num) j]
  have hex : round64 (Seconds d - 1) = Seconds d - 1 :=
    round64_sub_one (isFloat64_Seconds d) hs1 (by linarith)
  have r2 : refilled 3600 (t0 + d)
      { tokens := Seconds d - 1, lastUpdate := t0 + d, capacity := float64 3600,
        rate := round64 (float64 3600 / 3600) } = Seconds d - 1 :=
    refilled_same_time 3600 (t0 + d) _ rfl
      (isFloat64_sub_one (isFloat64_Seconds d) hs1 (by linarith))
      (by rw [float64_3600]; show Seconds d - 1 ≤ 3600; linarith)
  have hd3 : ¬ (1 ≤ Seconds d - 1) := by linarith
  simp only [runBucket, stepBucket_some, refilled_hourly_after t0 d _ _ hd1 hd2, hs1, if_true,
    decide_True, hex, r2, hd3, if_false, decide_False]

/-- C10 with two denied calls at reading 10 ns and the next calls one and a half seconds
later. -/
theorem linear_refill_witness :
    (runChecks "k1" "m1" hourlyLimiter
        (List.replicate 3600 10 ++ List.replicate 2 10 ++ [10 + 1500000000, 10 + 1500000000])).1 =
      List.replicate 3600 true ++ List.replicate 2 false ++ [true, false] :=
  linear_refill hourlyLimiter "k1" "m1" 10 1500000000 2 (by decide) (by decide) (by decide)
    (by decide)

/-! ## The cap at the ceiling -/

theorem stepBucket_tokens_le (rph : Int) (now : Int) (found : Option tokenBucket) :
    (stepBucket rph now found).2.tokens ≤ float64 rph ∧
      (stepBucket rph now found).2.capacity = float64 rph := by
  have key : ∀ b : tokenBucket, (stepBucket rph now (some b)).2.tokens ≤ float64 rph ∧
      (stepBucket rph now (some b)).2.capacity = float64 rph := by
    intro b
    have hc := refilled_le_capacity rph now b
    have hf : round64 (refilled rph now b) = refilled rph now b :=
      round64_of_isFloat64 (isFloat64_refilled rph now b)
    rw [stepBucket_some]
    by_cases h1 : 1 ≤ refilled rph now b
    · simp only [h1, if_true]
      refine ⟨?_, trivial⟩
      have : round64 (refilled rph now b - 1) ≤ round64 (refilled rph now b) :=
        round64_mono_of_nonneg (by linarith) (by linarith)
      rw [hf] at this
      linarith
    · simp only [h1, if_false]
      exact ⟨hc, trivial⟩
  cases found with
  | none => rw [stepBucket_none]; exact key _
  | some b => exact key b

theorem runBucket_same_reading_count (rph : Int) (now : Int)
    (hcap : float64 rph ≤ 2 ^ (53 : ℕ)) :
    ∀ (n : ℕ) (b : tokenBucket),
      (((runBucket rph (some b) (List.replicate n now)).1.count true : ℕ) : ℚ) ≤
        max 0 (refilled rph now b) := by
  intro n
  induction n with
  | zero => intro b; simp [runBucket]
  | succ n ih =>
    intro b
    have hc := refilled_le_capacity rph now b
    have hfl := isFloat64_refilled rph now b
    simp only [List.replicate_succ, runBucket]
    rw [stepBucket_some]
    by_cases h1 : 1 ≤ refilled rph now b
    · have hex : round64 (refilled rph now b - 1) = refilled rph now b - 1 :=
        round64_sub_one hfl h1 (by linarith)
      simp only [h1, if_true, decide_True, hex]
      have hi := ih { tokens := refilled rph now b - 1, lastUpdate := now,
                      capacity := float64 rph, rate := round64 (float64 rph / 3600) }
      have e := refilled_same_time rph now
        { tokens := refilled rph now b - 1, lastUpdate := now,
          capacity := float64 rph, rate := round64 (float64 rph / 3600) } rfl
        (isFloat64_sub_one hfl h1 (by linarith))
        (show refilled rph now b - 1 ≤ float64 rph by linarith)
      rw [e] at hi
      rw [List.count_cons_self]
      push_cast
      have h2 : max 0 (refilled rph now b - 1) = refilled rph now b - 1 :=
        max_eq_right (by linarith)
      have h3 : max 0 (refilled rph now b) = refilled rph now b := max_eq_right (by linarith)
      simp only at hi
      rw [h2] at hi
      rw [h3]
      linarith
    · simp only [h1, if_false, decide_False, Bool.false_eq_true]
      have hi := ih { tokens := refilled rph now b, lastUpdate := now,
                      capacity := float64 rph, rate := round64 (float64 rph / 3600) }
      have e := refilled_same_time rph now
        { tokens := refilled rph now b, lastUpdate := now,
          capacity := float64 rph, rate := round64 (float64 rph / 3600) } rfl hfl
        (show refilled rph now b ≤ float64 rph from hc)
      rw [e] at hi
      rw [List.count_cons_of_ne (by simp)]
      exact hi

theorem runBucket_same_reading_le (rph : Int) (hr : 0 ≤ rph) (hb : rph ≤ 2 ^ 53) (now : Int)
    (n : ℕ) (found : Option tokenBucket) :
    (((runBucket rph found (List.replicate n now)).1.count true : ℕ) : Int) ≤ rph := by
  have hfl : float64 rph = (rph : ℚ) :=
    float64_of_abs_le rph (by rw [abs_of_nonneg hr]; exact hb)
  have hq : (0 : ℚ) ≤ (rph : ℚ) := by exact_mod_cast hr
  have hcap : float64 rph ≤ 2 ^ (53 : ℕ) := by rw [hfl]; exact_mod_cast hb
  have key : ∀ b : tokenBucket,
      (((runBucket rph (some b) (List.replicate n now)).1.count true : ℕ) : ℚ) ≤ (rph : ℚ) :=
    fun b => le_trans (runBucket_same_reading_count rph now hcap n b)
      (max_le hq (by rw [← hfl]; exact refilled_le_capacity rph now b))
  cases found with
  | some b => exact_mod_cast key b
  | none =>
    cases n with
    | zero => simpa [runBucket] using hr
    | succ n =>
      rw [List.replicate_succ, runBucket_none, ← List.replicate_succ]
      exact_mod_cast key _

/-- C11 (as stated, refuted): with ceiling `N = 2 ^ 53 + 3 = 9007199254740995` the capacity
is `float64(N) = 2 ^ 53 + 4`: one `Check` on the key without a bucket leaves
`9007199254740996 > N` tokens, and all of `N + 1` calls at one clock reading return
`true`. -/
theorem cap_exceeds_ceiling_above_two_pow_53 :
    (∃ b : tokenBucket,
        (Check (limiterWith 9007199254740995) 0 "k1" "m1").2.buckets.lookup
          (ruleKey "k1" "m1") = some b ∧ ((9007199254740995 : Int) : ℚ) < b.tokens) ∧
      ¬ ((((runChecks "k1" "m1" (limiterWith 9007199254740995)
            (List.replicate (9007199254740995 + 1) 0)).1.count true : ℕ) : Int) ≤
          9007199254740995) := by
  have h1 : (1 : ℚ) ≤ float64 9007199254740995 := by
    rw [float64_two_pow_53_add_3]; norm_num
  have hs : round64 (float64 9007199254740995 - 1) = float64 9007199254740995 := by
    rw [float64_two_pow_53_add_3]
    have e : (9007199254740996 : ℚ) - 1 = 9007199254740995 := by norm_num
    rw [e]
    exact round64_two_pow_53_add_3
  have hrule := limiterWith_rule 9007199254740995 (by norm_num)
  constructor
  · unfold ruleKey
    rw [check_of_rule _ 0 "k1" "m1" 9007199254740995 hrule, limiterWith_bucket,
      stepBucket_none, freshBucket, stepBucket_stuck 9007199254740995 0 _ _ h1 hs]
    refine ⟨_, AList.lookup_insert _, ?_⟩
    show ((9007199254740995 : Int) : ℚ) < float64 9007199254740995
    rw [float64_two_pow_53_add_3]
    norm_num
  · rw [runChecks_eq_runBucket "k1" "m1" 9007199254740995 _ _ hrule, limiterWith_bucket,
      runBucket_stuck_none 9007199254740995 0 h1 hs, List.count_replicate_self]
    omega

/-- C11 (amended): for a key with ceiling `N`, whatever bucket the key has (any tokens, any
stale capacity, any `lastUpdate`, or none) and whatever the clock reading, the token count
after the refill step of `Check`, and the one `Check` leaves, are at most the capacity
`float64(N)`, which is `N` itself when `|N| ≤ 2 ^ 53`; and for `0 ≤ N ≤ 2 ^ 53` at most `N`
of any number of `Check` calls at that one reading return `true`. -/
theorem cap_at_capacity (rl : RateLimiter) (apiKey model : String) (N : Int) (now : Int)
    (hrule : rl.rules.lookup (ruleKey apiKey model) = some N) :
    (∀ b : tokenBucket, rl.buckets.lookup (ruleKey apiKey model) = some b →
        refilled N now b ≤ float64 N) ∧
      (∃ b2 : tokenBucket,
        (Check rl now apiKey model).2.buckets.lookup (ruleKey apiKey model) = some b2 ∧
          b2.tokens ≤ float64 N ∧ b2.capacity = float64 N) ∧
      (abs N ≤ 2 ^ 53 → float64 N = (N : ℚ)) ∧
      (0 ≤ N → N ≤ 2 ^ 53 → ∀ n : ℕ,
        (((runChecks apiKey model rl (List.replicate n now)).1.count true : ℕ) : Int) ≤ N) := by
  unfold ruleKey at hrule ⊢
  refine ⟨fun b _ => refilled_le_capacity N now b, ?_, float64_of_abs_le N, ?_⟩
  · rw [check_of_rule rl now apiKey model N hrule]
    exact ⟨_, AList.lookup_insert _, stepBucket_tokens_le N now _⟩
  · intro hN hb n
    rw [runChecks_eq_runBucket apiKey model N _ rl hrule]
    exact runBucket_same_reading_le N hN hb now n _

/-- C11 (amended) at a bucket left over from ceiling 3, under ceiling 40, after a long idle
time: at most 40 of 50 calls at one reading are allowed. -/
theorem cap_at_capacity_witness :
    staleLimiter.rules.lookup (ruleKey "k1" "m1") = some 40 ∧
      (((runChecks "k1" "m1" staleLimiter
          (List.replicate 50 1000000000000000)).1.count true : ℕ) : Int) ≤ 40 :=
  ⟨by decide,
    (cap_at_capacity staleLimiter "k1" "m1" 40 1000000000000000 (by decide)).2.2.2
      (by decide) (by decide) 50⟩

/-! ## The token range -/

theorem stepBucket_range (rph : Int) (hr : 0 ≤ rph) (now : Int)
    (found : Option tokenBucket)
    (h : ∀ b, found = some b → 0 ≤ b.tokens ∧ b.lastUpdate ≤ now) :
    0 ≤ (stepBucket rph now found).2.tokens ∧
      (stepBucket rph now found).2.tokens ≤ (stepBucket rph now found).2.capacity ∧
      (stepBucket rph now found).2.lastUpdate = now := by
  have key : ∀ b : tokenBucket, 0 ≤ b.tokens → b.lastUpdate ≤ now →
      0 ≤ (stepBucket rph now (some b)).2.tokens ∧
      (stepBucket rph now (some b)).2.tokens ≤ (stepBucket rph now (some b)).2.capacity ∧
      (stepBucket rph now (some b)).2.lastUpdate = now := by
    intro b h0 hl
    have hnn := refilled_nonneg rph now b h0 hr hl
    obtain ⟨hle, hcap⟩ := stepBucket_tokens_le rph now (some b)
    rw [hcap]
    refine ⟨?_, hle, ?_⟩
    · rw [stepBucket_some]
      by_cases h1 : 1 ≤ refilled rph now b
      · simp only [h1, if_true]
        exact round64_nonneg (by linarith)
      · simp only [h1, if_false]
        exact hnn
    · rw [stepBucket_some]
  cases found with
  | none =>
    rw [stepBucket_none]
    exact key _ (float64_nonneg hr) le_rfl
  | some b => exact key b (h b rfl).1 (h b rfl).2

theorem lookup_foldl_addRule_pos {Info : Type} (g : String → Option Info)
    (valid : GoMap Unit) (rules : List RateLimitRule) :
    ∀ acc : GoMap Int, (∀ k c, acc.lookup k = some c → 0 < c) →
      ∀ k c, (rules.foldl (addRule g valid) acc).lookup k = some c → 0 < c := by
  induction rules with
  | nil => intro acc h; exact h
  | cons x rules ih =>
    intro acc h
    rw [List.foldl_cons]
    apply ih
    intro k c hk
    rw [addRule_eq] at hk
    by_cases hp : passesGuards g valid x = true
    · rw [if_pos hp] at hk
      by_cases hkx : k = ruleKey x.APIKey x.Model
      · rw [hkx, AList.lookup_insert] at hk
        have hpos : 0 < x.RPH := by
          simp only [passesGuards, Bool.and_eq_true, Bool.not_eq_true',
            decide_eq_false_iff_not, not_le] at hp
          exact hp.1.2
        cases hk
        exact hpos
      · rw [AList.lookup_insert_ne hkx] at hk
        exact h k c hk
    · rw [if_neg hp] at hk
      exact h k c hk

theorem update_rules_pos {Info : Type} (g : String → Option Info) (rl : RateLimiter)
    (rules : List RateLimitRule) (validAPIKeys : List String) (k : String) (c : Int)
    (h : (Update g rl rules validAPIKeys).rules.lookup k = some c) : 0 < c := by
  refine lookup_foldl_addRule_pos g (validKeysMap validAPIKeys) rules ∅ ?_ k c h
  intro k c hk
  simp at hk

theorem update_buckets_lookup_some {Info : Type} (g : String → Option Info)
    (rl : RateLimiter) (rules : List RateLimitRule) (validAPIKeys : List String) (k : String)
    (b : tokenBucket) (h : (Update g rl rules validAPIKeys).buckets.lookup k = some b) :
    rl.buckets.lookup k = some b := by
  rw [update_buckets_lookup] at h
  by_cases hn : ((Update g rl rules validAPIKeys).rules.lookup k).isNone = true
  · rw [if_pos hn] at h; exact absurd h (by simp)
  · rw [if_neg hn] at h; exact h

theorem check_buckets_lookup_ne (rl : RateLimiter) (now : Int) (apiKey model k : String)
    (hk : k ≠ apiKey ++ "|" ++ model) :
    (Check rl now apiKey model).2.buckets.lookup k = rl.buckets.lookup k := by
  cases hl : rl.rules.lookup (apiKey ++ "|" ++ model) with
  | none =>
    have e : Check rl now apiKey model = (true, rl) := by simp [Check, hl]
    rw [e]
  | some rph =>
    rw [check_of_rule rl now apiKey model rph hl]
    exact AList.lookup_insert_ne hk

theorem reachableAt_invariant (t : Int) (rl : RateLimiter) (h : ReachableAt t rl) :
    (∀ k c, rl.rules.lookup k = some c → 0 < c) ∧
      (∀ k b, rl.buckets.lookup k = some b →
        0 ≤ b.tokens ∧ b.tokens ≤ b.capacity ∧ b.lastUpdate ≤ t) := by
  induction h with
  | init t =>
    constructor
    · intro k c hk; simp [NewRateLimiter] at hk
    · intro k b hk; simp [NewRateLimiter] at hk
  | update t g rl rules valid _ ih =>
    exact ⟨fun k c hk => update_rules_pos g rl rules valid k c hk,
      fun k b hk => ih.2 k b (update_buckets_lookup_some g rl rules valid k b hk)⟩
  | check t rl now apiKey model _ hle ih =>
    refine ⟨by rw [check_rules]; exact ih.1, ?_⟩
    intro k b hk
    by_cases hkey : k = apiKey ++ "|" ++ model
    · cases hl : rl.rules.lookup (apiKey ++ "|" ++ model) with
      | none =>
        rw [check_no_rule rl now apiKey model hl] at hk
        obtain ⟨a, b1, c1⟩ := ih.2 k b hk
        exact ⟨a, b1, le_trans c1 hle⟩
      | some rph =>
        rw [check_of_rule rl now apiKey model rph hl, hkey] at hk
        simp only [AList.lookup_insert, Option.some.injEq] at hk
        have hr : 0 ≤ rph := le_of_lt (ih.1 _ _ hl)
        obtain ⟨a, b1, c1⟩ := stepBucket_range rph hr now
          (rl.buckets.lookup (apiKey ++ "|" ++ model))
          (fun b0 hb0 => ⟨(ih.2 _ b0 hb0).1, le_trans (ih.2 _ b0 hb0).2.2 hle⟩)
        rw [hk] at a b1 c1
        exact ⟨a, b1, le_of_eq c1⟩
    · rw [check_buckets_lookup_ne rl now apiKey model k hkey] at hk
      obtain ⟨a, b1, c1⟩ := ih.2 k b hk
      exact ⟨a, b1, le_trans c1 hle⟩

/-- C12: in every state reached from `NewRateLimiter` by `Update` and `Check` calls whose
clock readings never decrease, every bucket has `0 ≤ tokens ≤ capacity`. -/
theorem token_range_invariant (t : Int) (rl : RateLimiter) (h : ReachableAt t rl)
    (k : String) (b : tokenBucket) (hb : rl.buckets.lookup k = some b) :
    0 ≤ b.tokens ∧ b.tokens ≤ b.capacity :=
  ⟨((reachableAt_invariant t rl h).2 k b hb).1, ((reachableAt_invariant t rl h).2 k b hb).2.1⟩

theorem exampleLimiter_rule : exampleLimiter.rules.lookup ("k1" ++ "|" ++ "m1") = some 3 := by
  decide

theorem exhaustedLimiter_rule :
    exhaustedLimiter.rules.lookup (ruleKey "k1" "m1") = some 3 := by
  have e : exhaustedLimiter.rules = exampleLimiter.rules :=
    stateAfter_rules "k1" "m1" exampleLimiter [0, 0, 0, 0]
  rw [e]
  decide

theorem exhaustedLimiter_bucket :
    exhaustedLimiter.buckets.lookup ("k1" ++ "|" ++ "m1") = some exhaustedBucket := by
  have hb : exampleLimiter.buckets.lookup ("k1" ++ "|" ++ "m1") = none := by decide
  have h := stateAfter_bucket "k1" "m1" 3 [0, 0, 0, 0] exampleLimiter exampleLimiter_rule
  rw [hb] at h
  have hf := runBucket_fresh 3 0 3 (by norm_num) (by norm_num) (by norm_num) 1
  have e : ([0, 0, 0, 0] : List Int) = List.replicate 3 0 ++ List.replicate 1 0 := by
    simp [List.replicate]
  rw [e, hf] at h
  exact h

theorem update_buckets_lookup_of_rule {Info : Type} (g : String → Option Info)
    (rl : RateLimiter) (rules : List RateLimitRule) (validAPIKeys : List String) (k : String)
    (c : Int) (h : (Update g rl rules validAPIKeys).rules.lookup k = some c) :
    (Update g rl rules validAPIKeys).buckets.lookup k = rl.buckets.lookup k := by
  rw [update_buckets_lookup, h]
  simp

theorem staleLimiter_eq :
    staleLimiter = Update exampleRegistry exhaustedLimiter
      [{ APIKey := "k1", Model := "m1", RPH := 40 }] ["k1"] := rfl

theorem staleLimiter_rule : staleLimiter.rules.lookup ("k1" ++ "|" ++ "m1") = some 40 := by
  decide

theorem staleLimiter_bucket :
    staleLimiter.buckets.lookup ("k1" ++ "|" ++ "m1") = some exhaustedBucket := by
  have hr := staleLimiter_rule
  rw [staleLimiter_eq] at hr ⊢
  rw [update_buckets_lookup_of_rule _ _ _ _ _ 40 hr]
  exact exhaustedLimiter_bucket

/-- C12 at the state reached by one `Update` and four `Check` calls at reading 0. -/
theorem token_range_invariant_witness :
    ReachableAt 0 exhaustedLimiter ∧
      exhaustedLimiter.buckets.lookup ("k1" ++ "|" ++ "m1") = some exhaustedBucket ∧
      (0 ≤ exhaustedBucket.tokens ∧ exhaustedBucket.tokens ≤ exhaustedBucket.capacity) :=
  have h : ReachableAt 0 exhaustedLimiter :=
    reachableAt_stateAfter "k1" "m1" [0, 0, 0, 0] 0 exampleLimiter
      (ReachableAt.update 0 exampleRegistry NewRateLimiter
        [{ APIKey := "k1", Model := "m1", RPH := 3 }] ["k1"] (ReachableAt.init 0))
      (by simp)
  ⟨h, exhaustedLimiter_bucket,
    token_range_invariant 0 exhaustedLimiter h ("k1" ++ "|" ++ "m1") exhaustedBucket
      exhaustedLimiter_bucket⟩

/-- C13: `Update` leaves every bucket whose key is still in the new rule map exactly as it
was (tokens, `lastUpdate`, capacity and rate), from every state; and submitting the same
rules a second time changes no bucket at all. -/
theorem buckets_survive_update {Info : Type} (GetModelInfo : String → Option Info)
    (rl : RateLimiter) (rules : List RateLimitRule) (validAPIKeys : List String) :
    (∀ k : String, k ∈ (Update GetModelInfo rl rules validAPIKeys).rules →
        (Update GetModelInfo rl rules validAPIKeys).buckets.lookup k = rl.buckets.lookup k) ∧
      (∀ k : String,
        (Update GetModelInfo (Update GetModelInfo rl rules validAPIKeys) rules
            validAPIKeys).buckets.lookup k =
          (Update GetModelInfo rl rules validAPIKeys).buckets.lookup k) := by
  constructor
  · intro k hk
    rw [← AList.lookup_isSome] at hk
    rw [update_buckets_lookup]
    cases hl : (Update GetModelInfo rl rules validAPIKeys).rules.lookup k with
    | none => rw [hl] at hk; exact absurd hk (by simp)
    | some c => simp
  · intro k
    have hr : (Update GetModelInfo (Update GetModelInfo rl rules validAPIKeys) rules
        validAPIKeys).rules = (Update GetModelInfo rl rules validAPIKeys).rules := rfl
    rw [update_buckets_lookup, hr]
    by_cases hn : ((Update GetModelInfo rl rules validAPIKeys).rules.lookup k).isNone = true
    · rw [if_pos hn, update_buckets_lookup, if_pos hn]
    · rw [if_neg hn]

/-- C13 at the exhausted bucket of `k1|m1`: an `Update` that raises its ceiling to 40
leaves the bucket as it was. -/
theorem buckets_survive_update_witness :
    (Update exampleRegistry exhaustedLimiter
        [{ APIKey := "k1", Model := "m1", RPH := 40 }] ["k1"]).buckets.lookup "k1|m1" =
      exhaustedLimiter.buckets.lookup "k1|m1" :=
  (buckets_survive_update exampleRegistry exhaustedLimiter
    [{ APIKey := "k1", Model := "m1", RPH := 40 }] ["k1"]).1 "k1|m1"
    (AList.lookup_isSome.mp (by decide))

/-! ## `Check` against the reference step -/

theorem drainedLimiter_rule (c : ℕ) (h : 0 < c) :
    (drainedLimiter c).rules.lookup ("k1" ++ "|" ++ "m1") = some (c : Int) := by
  have e : (drainedLimiter c).rules = (limiterWith (c : Int)).rules :=
    stateAfter_rules "k1" "m1" (limiterWith (c : Int)) (List.replicate c 0)
  rw [e]
  exact limiterWith_rule (c : Int) (by exact_mod_cast h)

theorem drainedLimiter_bucket (c : ℕ) (h : 1 ≤ c) (hb : c ≤ 2 ^ 53) :
    (drainedLimiter c).buckets.lookup ("k1" ++ "|" ++ "m1") =
      some { tokens := 0, lastUpdate := 0, capacity := float64 (c : Int),
             rate := round64 (float64 (c : Int) / 3600) } := by
  have hs := stateAfter_bucket "k1" "m1" (c : Int) (List.replicate c 0) (limiterWith (c : Int))
    (limiterWith_rule (c : Int) (by exact_mod_cast h))
  rw [limiterWith_bucket] at hs
  have hf := runBucket_fresh (c : Int) 0 c h hb rfl 0
  simp only [List.replicate_zero, List.append_nil] at hf
  rw [hf] at hs
  exact hs

theorem Seconds_of_parts (d s n : Int) (hs : d.tdiv 1000000000 = s)
    (hn : d.tmod 1000000000 = n) (hs2 : abs s ≤ 2 ^ 53) (hn2 : abs n ≤ 2 ^ 53) :
    Seconds d = round64 ((s : ℚ) + round64 ((n : ℚ) / 1000000000)) := by
  rw [Seconds, hs, hn, float64_of_abs_le s hs2, float64_of_abs_le n hn2]

theorem Seconds_whole (s : Int) (h0 : 0 ≤ s) (h1 : s ≤ 2 ^ 53) :
    Seconds (s * 1000000000) = (s : ℚ) := by
  have hd : 0 ≤ s * 1000000000 := by positivity
  have ht : (s * 1000000000).tdiv 1000000000 = s := by
    rw [Int.tdiv_eq_ediv hd (by norm_num)]; omega
  have hm : (s * 1000000000).tmod 1000000000 = 0 := by
    rw [Int.tmod_eq_emod hd (by norm_num)]; omega
  rw [Seconds_of_parts _ s 0 ht hm (by rw [abs_of_nonneg h0]; exact h1) (by norm_num)]
  simp only [Int.cast_zero, zero_div, round64_zero, add_zero]
  exact round64_of_isFloat64 (isFloat64_intCast s (by rw [abs_of_nonneg h0]; exact h1))

theorem float64_625 : float64 625 = 625 := by
  have := float64_of_abs_le 625 (by norm_num)
  simpa using this

theorem rate_625 : round64 (625 / 3600) = 3127499741229511 / 18014398509481984 := by
  rw [round64_eq_of_scaled (-55) 6254999482459022 (by norm_num) (by norm_num) (by norm_num)
    (roundHalfEven_of_near (by norm_num) (by norm_num))]
  norm_num

theorem Seconds_5760ms : Seconds 5760000000 = 3242591731706757 / 562949953421312 := by
  rw [Seconds_of_parts 5760000000 5 760000000 (by decide) (by decide) (by norm_num)
    (by norm_num)]
  have e1 : round64 (((760000000 : Int) : ℚ) / 1000000000) =
      3422735716801577 / 4503599627370496 := by
    rw [round64_eq_of_scaled (-53) 6845471433603154 (by norm_num) (by norm_num) (by norm_num)
      (roundHalfEven_of_near (by norm_num) (by norm_num))]
    norm_num
  rw [e1]
  rw [round64_eq_of_scaled (-50) 6485183463413514 (by norm_num) (by norm_num) (by norm_num)
    (roundHalfEven_of_near (by norm_num) (by norm_num))]
  norm_num

theorem refilled_625_after_5760ms (c r : ℚ) :
    refilled 625 5760000000 { tokens := 0, lastUpdate := 0, capacity := c, rate := r } =
      9007199254740991 / 9007199254740992 := by
  have hsub : Sub 5760000000 0 = 5760000000 := by decide
  have hp : round64 ((3242591731706757 : ℚ) / 562949953421312 *
      (3127499741229511 / 18014398509481984)) = 9007199254740991 / 9007199254740992 := by
    rw [round64_eq_of_scaled (-53) 9007199254740991 (by norm_num) (by norm_num) (by norm_num)
      (roundHalfEven_of_near (by norm_num) (by norm_num))]
    norm_num
  have hi : round64 ((9007199254740991 : ℚ) / 9007199254740992) =
      9007199254740991 / 9007199254740992 :=
    round64_of_isFloat64 ⟨9007199254740991, -53, by norm_num, by norm_num⟩
  have hgt : ¬ ((9007199254740991 : ℚ) / 9007199254740992 > 625) := by norm_num
  simp only [refilled, hsub, Seconds_5760ms, float64_625, rate_625, hp, zero_add, hi, hgt,
    if_false]

/-- C16 (as stated, refuted): `drainedLimiter 625` has ceiling 625 and an empty bucket last
touched at reading 0. At 5.76 s the exact formula gives `r = min(625, 0 + 5.76 * 625 /
3600) = 1`, so the reference step allows, while `Check` computes `5.76 * (625 / 3600)` in
`float64` as `1 - 2 ^ (-53)` and denies. -/
theorem check_differs_from_exact_reference :
    (drainedLimiter 625).rules.lookup (ruleKey "k1" "m1") = some 625 ∧
      (Check (drainedLimiter 625) 5760000000 "k1" "m1").1 = false ∧
      (referenceStep 625 5760000000
        ((drainedLimiter 625).buckets.lookup (ruleKey "k1" "m1"))).1 = true := by
  have hrule := drainedLimiter_rule 625 (by norm_num)
  have hbucket := drainedLimiter_bucket 625 (by norm_num) (by norm_num)
  refine ⟨hrule, ?_, ?_⟩
  · rw [check_of_rule _ _ "k1" "m1" 625 hrule, hbucket, stepBucket_some,
      refilled_625_after_5760ms]
    simp only
    norm_num
  · unfold ruleKey
    rw [hbucket]
    simp only [referenceStep, exactBudget]
    norm_num

theorem refilled_eq_min (c : Int) (now : Int) (b : tokenBucket) :
    refilled c now b = min (float64 c)
      (round64 (b.tokens +
        round64 (Seconds (Sub now b.lastUpdate) * round64 (float64 c / 3600)))) := by
  unfold refilled
  split_ifs with h
  · rw [min_eq_left (le_of_lt h)]
  · rw [min_eq_right (not_lt.mp h)]

theorem stepBucket_eq_referenceStepFloat64 (c : Int) (now : Int)
    (found : Option tokenBucket) :
    stepBucket c now found = referenceStepFloat64 c now found := by
  cases found with
  | none =>
    rw [stepBucket_none, stepBucket_some, refilled_eq_min]
    simp only [referenceStepFloat64, freshBucket, ge_iff_le]
  | some b =>
    rw [stepBucket_some, refilled_eq_min]
    simp only [referenceStepFloat64, ge_iff_le]

/-- C16 (amended): for a key with ceiling `c`, `Check` at reading `now` returns the verdict
of the reference token-bucket step carried out in `float64` (`true` exactly when `r ≥ 1`
for `r = min(float64(c), t0 + Seconds(now - last) * (float64(c) / 3600))`, every operation
rounded) and leaves for the key the bucket of that step, `{tokens = r - 1 if r ≥ 1 else r,
capacity = float64(c), rate = float64(c) / 3600, lastUpdate = now}`, on allowed and on
denied calls alike. The verdict is that of the exact reference step of the claim whenever
`1 ≤ c ≤ 2 ^ 53`, the bucket has `0 ≤ tokens` and `lastUpdate ≤ now` (within the range of a
`Duration`) and the exact budget `E = t0 + (now - last) * c / 3600` is off the rounding
band around 1: `E * (1 + 2 ^ (-53)) ^ 6 < 1` or `1 ≤ E * (1 - 2 ^ (-53)) ^ 6`. -/
theorem check_eq_reference_step (rl : RateLimiter) (now : Int) (apiKey model : String)
    (c : Int) (hrule : rl.rules.lookup (ruleKey apiKey model) = some c) :
    (Check rl now apiKey model).1 =
        (referenceStepFloat64 c now (rl.buckets.lookup (ruleKey apiKey model))).1 ∧
      (Check rl now apiKey model).2.buckets.lookup (ruleKey apiKey model) =
        some (referenceStepFloat64 c now (rl.buckets.lookup (ruleKey apiKey model))).2 ∧
      (∀ b : tokenBucket, rl.buckets.lookup (ruleKey apiKey model) = some b →
        1 ≤ c → c ≤ 2 ^ 53 → 0 ≤ b.tokens → b.lastUpdate ≤ now →
        now - b.lastUpdate ≤ maxDuration →
        (exactBudget c now (some b) * roundingFactor ^ 6 < 1 ∨
          1 ≤ exactBudget c now (some b) * roundingDeficit ^ 6) →
        (Check rl now apiKey model).1 = (referenceStep c now (some b)).1) := by
  unfold ruleKey at hrule ⊢
  have h12 : (Check rl now apiKey model).1 =
        (referenceStepFloat64 c now (rl.buckets.lookup (apiKey ++ "|" ++ model))).1 ∧
      (Check rl now apiKey model).2.buckets.lookup (apiKey ++ "|" ++ model) =
        some (referenceStepFloat64 c now (rl.buckets.lookup (apiKey ++ "|" ++ model))).2 := by
    rw [check_of_rule rl now apiKey model c hrule, stepBucket_eq_referenceStepFloat64]
    exact ⟨rfl, AList.lookup_insert _⟩
  refine ⟨h12.1, h12.2, ?_⟩
  intro b hbk hc hb h0 ht hd hband
  have hr : 0 ≤ c := by omega
  have hrq : (0 : ℚ) ≤ (c : ℚ) := by exact_mod_cast hr
  have hcq : (1 : ℚ) ≤ (c : ℚ) := by exact_mod_cast hc
  have hdn : (0 : ℚ) ≤ ((now - b.lastUpdate : Int) : ℚ) := by
    have : 0 ≤ now - b.lastUpdate := by omega
    exact_mod_cast this
  have hE : 0 ≤ exactBudget c now (some b) := by
    rw [exactBudget_some]
    exact add_nonneg h0 (mul_nonneg (div_nonneg hdn (by norm_num))
      (div_nonneg hrq (by norm_num)))
  have hF6 : (1 : ℚ) ≤ roundingFactor ^ 6 := one_le_pow₀ roundingFactor_ge_one
  have hL6 : roundingDeficit ^ 6 ≤ 1 :=
    pow_le_one₀ (le_of_lt roundingDeficit_pos) roundingDeficit_le_one
  have hup := refilled_le_budget c now b h0 hr hb ht
  have hlo := refilled_ge_budget c now b h0 hr hb ht hd
  rw [← exactBudget_some] at hup hlo
  rw [check_of_rule rl now apiKey model c hrule, hbk, stepBucket_some]
  simp only [referenceStep]
  rcases hband with h | h
  · have h1 : ¬ (1 ≤ refilled c now b) := not_le.mpr (lt_of_le_of_lt hup h)
    have hlt : exactBudget c now (some b) < 1 :=
      lt_of_le_of_lt (le_mul_of_one_le_right hE hF6) h
    have h2 : ¬ (min (c : ℚ) (exactBudget c now (some b)) ≥ 1) :=
      not_le.mpr (lt_of_le_of_lt (min_le_right _ _) hlt)
    simp only [h1, h2, decide_False]
  · have h1 : 1 ≤ refilled c now b := le_trans (le_min hcq h) hlo
    have hge : 1 ≤ exactBudget c now (some b) :=
      le_trans h (mul_le_of_le_one_right hE hL6)
    have h2 : min (c : ℚ) (exactBudget c now (some b)) ≥ 1 := le_min hcq hge
    simp only [h1, h2, decide_True]

/-- C16 (amended) at a bucket left over from ceiling 3 (empty, last touched at reading 0)
and checked under ceiling 40 after 1200 seconds: the exact budget is `40 / 3`, off the
rounding band, and the verdict is also that of the exact reference step. -/
theorem check_eq_reference_step_witness :
    staleLimiter.rules.lookup (ruleKey "k1" "m1") = some 40 ∧
      (Check staleLimiter 1200000000000 "k1" "m1").1 =
        (referenceStepFloat64 40 1200000000000
          (staleLimiter.buckets.lookup (ruleKey "k1" "m1"))).1 ∧
      (Check staleLimiter 1200000000000 "k1" "m1").2.buckets.lookup (ruleKey "k1" "m1") =
        some (referenceStepFloat64 40 1200000000000
          (staleLimiter.buckets.lookup (ruleKey "k1" "m1"))).2 ∧
      (Check staleLimiter 1200000000000 "k1" "m1").1 =
        (referenceStep 40 1200000000000 (some exhaustedBucket)).1 :=
  ⟨by decide,
    (check_eq_reference_step staleLimiter 1200000000000 "k1" "m1" 40 (by decide)).1,
    (check_eq_reference_step staleLimiter 1200000000000 "k1" "m1" 40 (by decide)).2.1,
    (check_eq_reference_step staleLimiter 1200000000000 "k1" "m1" 40 (by decide)).2.2
      exhaustedBucket staleLimiter_bucket (by norm_num) (by norm_num) (le_refl (0 : ℚ))
      (by decide)
      (by unfold maxDuration; exact (by decide : (1200000000000 : Int) - 0 ≤ 2 ^ 63 - 1))
      (Or.inr (by
        have e : exactBudget 40 1200000000000 (some exhaustedBucket) = 40 / 3 := by
          rw [exactBudget_some]
          have e0 : exhaustedBucket.tokens = 0 := rfl
          have e1 : exhaustedBucket.lastUpdate = 0 := rfl
          rw [e0, e1]
          norm_num
        rw [e]
        unfold roundingDeficit
        norm_num))⟩

/-! ## Bucket parameters and the governing rule -/

theorem reachable_rules_pos (rl : RateLimiter) (h : Reachable rl) :
    ∀ k c, rl.rules.lookup k = some c → 0 < c := by
  induction h with
  | init => intro k c hk; simp [NewRateLimiter] at hk
  | update g rl rules valid _ _ => exact fun k c hk => update_rules_pos g rl rules valid k c hk
  | check rl now apiKey model _ ih => rw [check_rules]; exact ih

theorem stepBucket_params (rph : Int) (now : Int) (found : Option tokenBucket) :
    (stepBucket rph now found).2.capacity = float64 rph ∧
      (stepBucket rph now found).2.rate = round64 (float64 rph / 3600) ∧
      (stepBucket rph now found).2.lastUpdate = now := by
  cases found with
  | none =>
    rw [stepBucket_none, stepBucket_some]
    exact ⟨rfl, rfl, rfl⟩
  | some b =>
    rw [stepBucket_some]
    exact ⟨rfl, rfl, rfl⟩

theorem reachable_bucket_params (rl : RateLimiter) (h : Reachable rl) :
    ∀ k b, rl.buckets.lookup k = some b →
      ∃ c : Int, 0 < c ∧ b.capacity = float64 c ∧ b.rate = round64 (float64 c / 3600) := by
  induction h with
  | init => intro k b hk; simp [NewRateLimiter] at hk
  | update g rl rules valid _ ih =>
    exact fun k b hk => ih k b (update_buckets_lookup_some g rl rules valid k b hk)
  | check rl now apiKey model hr ih =>
    intro k b hk
    by_cases hkey : k = apiKey ++ "|" ++ model
    · cases hl : rl.rules.lookup (apiKey ++ "|" ++ model) with
      | none =>
        rw [check_no_rule rl now apiKey model hl] at hk
        exact ih k b hk
      | some rph =>
        rw [check_of_rule rl now apiKey model rph hl, hkey] at hk
        simp only [AList.lookup_insert, Option.some.injEq] at hk
        obtain ⟨p1, p2, _⟩ :=
          stepBucket_params rph now (rl.buckets.lookup (apiKey ++ "|" ++ model))
        rw [hk] at p1 p2
        exact ⟨rph, reachable_rules_pos rl hr _ _ hl, p1, p2⟩
    · rw [check_buckets_lookup_ne rl now apiKey model k hkey] at hk
      exact ih k b hk

theorem reachable_staleLimiter : Reachable staleLimiter :=
  Reachable.update exampleRegistry exhaustedLimiter
    [{ APIKey := "k1", Model := "m1", RPH := 40 }] ["k1"]
    (reachable_stateAfter "k1" "m1" [0, 0, 0, 0] exampleLimiter
      (Reachable.update exampleRegistry NewRateLimiter
        [{ APIKey := "k1", Model := "m1", RPH := 3 }] ["k1"] Reachable.init))

theorem float64_3 : float64 3 = 3 := by
  have := float64_of_abs_le 3 (by norm_num)
  simpa using this

theorem float64_40 : float64 40 = 40 := by
  have := float64_of_abs_le 40 (by norm_num)
  simpa using this

/-- C17 (as stated, refuted): `staleLimiter` is reached by an `Update` with ceiling 3, four
`Check` calls and an `Update` that raises the ceiling to 40; right after that `Update` the
rule map holds 40 for `k1|m1` while the bucket still has the capacity 3 of the old
ceiling. -/
theorem bucket_parameters_stale_after_update :
    Reachable staleLimiter ∧
      ¬ (∀ (b : tokenBucket) (c : Int),
          staleLimiter.buckets.lookup (ruleKey "k1" "m1") = some b →
          staleLimiter.rules.lookup (ruleKey "k1" "m1") = some c →
          b.capacity = float64 c ∧ b.rate = round64 (float64 c / 3600)) := by
  refine ⟨reachable_staleLimiter, ?_⟩
  intro hall
  have hc := (hall exhaustedBucket 40 staleLimiter_bucket staleLimiter_rule).1
  rw [float64_40] at hc
  have h3 : exhaustedBucket.capacity = 3 := float64_3
  rw [h3] at hc
  norm_num at hc

/-- C17 (amended): in every state reachable from `NewRateLimiter` by `Update` and `Check`
calls, every bucket has the capacity `float64(c)` and the rate `float64(c) / 3600` of one
positive ceiling `c`; a `Check` on a key with ceiling `c` leaves the key's bucket with
capacity `float64(c)` and rate `float64(c) / 3600`; and an `Update` leaves the bucket of
every key that keeps a rule exactly as it was, old capacity and rate included, so a changed
ceiling reaches the bucket with the next `Check` on the key. -/
theorem bucket_parameters_refreshed_by_check (rl : RateLimiter) (h : Reachable rl) :
    (∀ (k : String) (b : tokenBucket), rl.buckets.lookup k = some b →
        ∃ c : Int, 0 < c ∧ b.capacity = float64 c ∧ b.rate = round64 (float64 c / 3600)) ∧
      (∀ (now : Int) (apiKey model : String) (c : Int),
        rl.rules.lookup (ruleKey apiKey model) = some c →
        ∃ b : tokenBucket,
          (Check rl now apiKey model).2.buckets.lookup (ruleKey apiKey model) = some b ∧
            b.capacity = float64 c ∧ b.rate = round64 (float64 c / 3600)) ∧
      (∀ (Info : Type) (GetModelInfo : String → Option Info) (rules : List RateLimitRule)
          (validAPIKeys : List String) (k : String),
        k ∈ (Update GetModelInfo rl rules validAPIKeys).rules →
        (Update GetModelInfo rl rules validAPIKeys).buckets.lookup k = rl.buckets.lookup k) := by
  refine ⟨reachable_bucket_params rl h, ?_, ?_⟩
  · intro now apiKey model c hrule
    unfold ruleKey at hrule ⊢
    rw [check_of_rule rl now apiKey model c hrule]
    exact ⟨_, AList.lookup_insert _, (stepBucket_params c now _).1,
      (stepBucket_params c now _).2.1⟩
  · intro Info g rules valid k hk
    rw [← AList.lookup_isSome] at hk
    cases hl : (Update g rl rules valid).rules.lookup k with
    | none => rw [hl] at hk; exact absurd hk (by simp)
    | some c => exact update_buckets_lookup_of_rule g rl rules valid k c hl

/-- C17 (amended) at `exhaustedLimiter`: the `Update` that raises the ceiling of `k1|m1` to
40 leaves its bucket, with the parameters of ceiling 3, as it was. -/
theorem bucket_parameters_refreshed_by_check_witness :
    Reachable exhaustedLimiter ∧
      (Update exampleRegistry exhaustedLimiter
          [{ APIKey := "k1", Model := "m1", RPH := 40 }] ["k1"]).buckets.lookup
        ("k1" ++ "|" ++ "m1") = exhaustedLimiter.buckets.lookup ("k1" ++ "|" ++ "m1") :=
  have h : Reachable exhaustedLimiter :=
    reachable_stateAfter "k1" "m1" [0, 0, 0, 0] exampleLimiter
      (Reachable.update exampleRegistry NewRateLimiter
        [{ APIKey := "k1", Model := "m1", RPH := 3 }] ["k1"] Reachable.init)
  ⟨h, (bucket_parameters_refreshed_by_check exhaustedLimiter h).2.2 Unit exampleRegistry
    [{ APIKey := "k1", Model := "m1", RPH := 40 }] ["k1"] ("k1" ++ "|" ++ "m1")
    (AList.lookup_isSome.mp (by decide))⟩

/-! ## Denied calls -/

theorem float64_15 : float64 15 = 15 := by
  have := float64_of_abs_le 15 (by norm_num)
  simpa using this

theorem rate_15 : round64 (15 / 3600) = 4803839602528529 / 1152921504606846976 := by
  rw [round64_eq_of_scaled (-60) 4803839602528529 (by norm_num) (by norm_num) (by norm_num)
    (roundHalfEven_of_near (by norm_num) (by norm_num))]
  norm_num

theorem Seconds_3s : Seconds 3000000000 = 3 := by
  have e : (3000000000 : Int) = 3 * 1000000000 := by norm_num
  rw [e, Seconds_whole 3 (by norm_num) (by norm_num)]
  norm_num

theorem Seconds_237s : Seconds 237000000000 = 237 := by
  have e : (237000000000 : Int) = 237 * 1000000000 := by norm_num
  rw [e, Seconds_whole 237 (by norm_num) (by norm_num)]
  norm_num

theorem Seconds_240s : Seconds 240000000000 = 240 := by
  have e : (240000000000 : Int) = 240 * 1000000000 := by norm_num
  rw [e, Seconds_whole 240 (by norm_num) (by norm_num)]
  norm_num

theorem refilled_15_at_3s (c r : ℚ) :
    refilled 15 3000000000 { tokens := 0, lastUpdate := 0, capacity := c, rate := r } =
      3602879701896397 / 288230376151711744 := by
  have hsub : Sub 3000000000 0 = 3000000000 := by decide
  have hp : round64 ((3 : ℚ) * (4803839602528529 / 1152921504606846976)) =
      3602879701896397 / 288230376151711744 := by
    rw [round64_eq_of_scaled (-59) 7205759403792794 (by norm_num) (by norm_num) (by norm_num)
      (by rw [roundHalfEven_tie (r := 7205759403792793) (by norm_num)]; decide)]
    norm_num
  have hi : round64 ((3602879701896397 : ℚ) / 288230376151711744) =
      3602879701896397 / 288230376151711744 :=
    round64_of_isFloat64 ⟨3602879701896397, -58, by norm_num, by norm_num⟩
  have hgt : ¬ ((3602879701896397 : ℚ) / 288230376151711744 > 15) := by norm_num
  simp only [refilled, hsub, Seconds_3s, float64_15, rate_15, hp, zero_add, hi, hgt, if_false]

theorem refilled_15_at_240s_after_3s (c r : ℚ) :
    refilled 15 240000000000
        { tokens := 3602879701896397 / 288230376151711744, lastUpdate := 3000000000,
          capacity := c, rate := r } =
      9007199254740991 / 9007199254740992 := by
  have hsub : Sub 240000000000 3000000000 = 237000000000 := by decide
  have hp : round64 ((237 : ℚ) * (4803839602528529 / 1152921504606846976)) =
      8894609264056729 / 9007199254740992 := by
    rw [round64_eq_of_scaled (-53) 8894609264056729 (by norm_num) (by norm_num) (by norm_num)
      (roundHalfEven_of_near (by norm_num) (by norm_num))]
    norm_num
  have hsum : round64 ((3602879701896397 : ℚ) / 288230376151711744 +
      8894609264056729 / 9007199254740992) = 9007199254740991 / 9007199254740992 := by
    rw [round64_eq_of_scaled (-53) 9007199254740991 (by norm_num) (by norm_num) (by norm_num)
      (roundHalfEven_of_near (by norm_num) (by norm_num))]
    norm_num
  have hgt : ¬ ((9007199254740991 : ℚ) / 9007199254740992 > 15) := by norm_num
  simp only [refilled, hsub, Seconds_237s, float64_15, rate_15, hp, hsum, hgt, if_false]

theorem refilled_15_at_240s (c r : ℚ) :
    refilled 15 240000000000 { tokens := 0, lastUpdate := 0, capacity := c, rate := r } =
      1 := by
  have hsub : Sub 240000000000 0 = 240000000000 := by decide
  have hp : round64 ((240 : ℚ) * (4803839602528529 / 1152921504606846976)) = 1 := by
    rw [round64_eq_of_scaled (-53) 9007199254740992 (by norm_num) (by norm_num) (by norm_num)
      (roundHalfEven_of_near (by norm_num) (by norm_num))]
    norm_num
  have hgt : ¬ ((1 : ℚ) > 15) := by norm_num
  simp only [refilled, hsub, Seconds_240s, float64_15, rate_15, hp, zero_add, round64_one, hgt,
    if_false]

/-- C18 (as stated, refuted): `drainedLimiter 15` has ceiling 15 and an empty bucket last
touched at reading 0. A `Check` at 3 s is denied and leaves `0.0125` tokens; the following
`Check` at 240 s adds `237 * (15 / 3600)` in `float64`, reaches `1 - 2 ^ (-53)` and is
denied, while a single `Check` at 240 s on the original state computes
`240 * (15 / 3600) = 1` and is allowed. -/
theorem denied_check_changes_later_verdict :
    (drainedLimiter 15).rules.lookup (ruleKey "k1" "m1") = some 15 ∧
      (Check (drainedLimiter 15) 3000000000 "k1" "m1").1 = false ∧
      (Check (Check (drainedLimiter 15) 3000000000 "k1" "m1").2 240000000000 "k1" "m1").1 =
        false ∧
      (Check (drainedLimiter 15) 240000000000 "k1" "m1").1 = true := by
  have hrule := drainedLimiter_rule 15 (by norm_num)
  have hbucket := drainedLimiter_bucket 15 (by norm_num) (by norm_num)
  have h1 := check_of_rule _ 3000000000 "k1" "m1" 15 hrule
  rw [hbucket, stepBucket_some, refilled_15_at_3s] at h1
  have hlt : ¬ ((1 : ℚ) ≤ 3602879701896397 / 288230376151711744) := by norm_num
  simp only [hlt, if_false, decide_False] at h1
  have hrule2 : (Check (drainedLimiter 15) 3000000000 "k1" "m1").2.rules.lookup
      ("k1" ++ "|" ++ "m1") = some 15 := by
    rw [check_rules]; exact hrule
  have hbucket2 : (Check (drainedLimiter 15) 3000000000 "k1" "m1").2.buckets.lookup
      ("k1" ++ "|" ++ "m1") =
      some { tokens := 3602879701896397 / 288230376151711744, lastUpdate := 3000000000,
             capacity := float64 ((15 : ℕ) : Int),
             rate := round64 (float64 ((15 : ℕ) : Int) / 3600) } := by
    rw [h1]
    exact AList.lookup_insert _
  refine ⟨hrule, ?_, ?_, ?_⟩
  · rw [h1]
  · rw [check_of_rule _ 240000000000 "k1" "m1" 15 hrule2, hbucket2, stepBucket_some,
      refilled_15_at_240s_after_3s]
    simp only
    norm_num
  · rw [check_of_rule _ 240000000000 "k1" "m1" 15 hrule, hbucket, stepBucket_some,
      refilled_15_at_240s]
    simp only
    norm_num

theorem refilled_band (c : Int) (t2 : Int) (b : tokenBucket) (h0 : 0 ≤ b.tokens)
    (hc : 1 ≤ c) (hb : c ≤ 2 ^ 53) (ht : b.lastUpdate ≤ t2)
    (hd : t2 - b.lastUpdate ≤ maxDuration) :
    min (c : ℚ) (exactBudget c t2 (some b) * roundingDeficit ^ 12) ≤ refilled c t2 b ∧
      refilled c t2 b ≤ min (c : ℚ) (exactBudget c t2 (some b) * roundingFactor ^ 12) := by
  have hF := roundingFactor_ge_one
  have hL := roundingDeficit_le_one
  have hLp := roundingDeficit_pos
  have hr : 0 ≤ c := by omega
  have hrq : (0 : ℚ) ≤ (c : ℚ) := by exact_mod_cast hr
  have hfl : float64 c = (c : ℚ) :=
    float64_of_abs_le c (by rw [abs_of_nonneg hr]; exact hb)
  have hdn : (0 : ℚ) ≤ ((t2 - b.lastUpdate : Int) : ℚ) := by
    have : 0 ≤ t2 - b.lastUpdate := by omega
    exact_mod_cast this
  have hE : 0 ≤ exactBudget c t2 (some b) := by
    rw [exactBudget_some]
    exact add_nonneg h0 (mul_nonneg (div_nonneg hdn (by norm_num))
      (div_nonneg hrq (by norm_num)))
  have hF6 : roundingFactor ^ 6 ≤ roundingFactor ^ 12 :=
    pow_le_pow_right₀ hF (by norm_num)
  have hL6 : roundingDeficit ^ 12 ≤ roundingDeficit ^ 6 :=
    pow_le_pow_of_le_one (le_of_lt hLp) hL (by norm_num)
  have hup := refilled_le_budget c t2 b h0 hr hb ht
  have hlo := refilled_ge_budget c t2 b h0 hr hb ht hd
  have hcap := refilled_le_capacity c t2 b
  rw [hfl] at hcap
  rw [← exactBudget_some] at hup hlo
  constructor
  · exact le_trans (min_le_min_left _ (mul_le_mul_of_nonneg_left hL6 hE)) hlo
  · exact le_min hcap (le_trans hup (mul_le_mul_of_nonneg_left hF6 hE))

theorem refilled_band_after_denied (c : Int) (t t2 : Int) (b : tokenBucket) (cap rate : ℚ)
    (h0 : 0 ≤ b.tokens) (hc : 1 ≤ c) (hb : c ≤ 2 ^ 53) (ht : b.lastUpdate ≤ t) (ht2 : t ≤ t2)
    (hd : t2 - b.lastUpdate ≤ maxDuration) (hlt : ¬ (1 ≤ refilled c t b)) :
    min (c : ℚ) (exactBudget c t2 (some b) * roundingDeficit ^ 12) ≤
        refilled c t2 { tokens := refilled c t b, lastUpdate := t, capacity := cap,
                        rate := rate } ∧
      refilled c t2 { tokens := refilled c t b, lastUpdate := t, capacity := cap,
                      rate := rate } ≤
        min (c : ℚ) (exactBudget c t2 (some b) * roundingFactor ^ 12) := by
  have hF := roundingFactor_ge_one
  have hFp := roundingFactor_pos
  have hL := roundingDeficit_le_one
  have hLp := roundingDeficit_pos
  have hr : 0 ≤ c := by omega
  have hrq : (0 : ℚ) ≤ (c : ℚ) := by exact_mod_cast hr
  have hcq : (1 : ℚ) ≤ (c : ℚ) := by exact_mod_cast hc
  have hfl : float64 c = (c : ℚ) :=
    float64_of_abs_le c (by rw [abs_of_nonneg hr]; exact hb)
  have hd1 : t - b.lastUpdate ≤ maxDuration := by omega
  have hd2 : t2 - t ≤ maxDuration := by omega
  have hq : (0 : ℚ) ≤ (c : ℚ) / 3600 := div_nonneg hrq (by norm_num)
  have he1 : (0 : ℚ) ≤ ((t - b.lastUpdate : Int) : ℚ) / 1000000000 := by
    have : 0 ≤ t - b.lastUpdate := by omega
    exact div_nonneg (by exact_mod_cast this) (by norm_num)
  have he2 : (0 : ℚ) ≤ ((t2 - t : Int) : ℚ) / 1000000000 := by
    have : 0 ≤ t2 - t := by omega
    exact div_nonneg (by exact_mod_cast this) (by norm_num)
  have hD1 : (0 : ℚ) ≤ ((t - b.lastUpdate : Int) : ℚ) / 1000000000 * ((c : ℚ) / 3600) :=
    mul_nonneg he1 hq
  have hD2 : (0 : ℚ) ≤ ((t2 - t : Int) : ℚ) / 1000000000 * ((c : ℚ) / 3600) :=
    mul_nonneg he2 hq
  have hEq : exactBudget c t2 (some b) =
      b.tokens + ((t - b.lastUpdate : Int) : ℚ) / 1000000000 * ((c : ℚ) / 3600) +
        ((t2 - t : Int) : ℚ) / 1000000000 * ((c : ℚ) / 3600) := by
    rw [exactBudget_some]
    push_cast
    ring
  have hF6 : (1 : ℚ) ≤ roundingFactor ^ 6 := one_le_pow₀ hF
  have hL6 : roundingDeficit ^ 6 ≤ 1 := pow_le_one₀ (le_of_lt hLp) hL
  have hL6p : (0 : ℚ) < roundingDeficit ^ 6 := pow_pos hLp 6
  -- the denied call leaves `refilled c t b`, within the rounding band of its exact value
  have hn1 : 0 ≤ refilled c t b := refilled_nonneg c t b h0 hr ht
  have hu1 := refilled_le_budget c t b h0 hr hb ht
  have hl1 := refilled_ge_budget c t b h0 hr hb ht hd1
  have hl1' : (b.tokens + ((t - b.lastUpdate : Int) : ℚ) / 1000000000 * ((c : ℚ) / 3600)) *
      roundingDeficit ^ 6 ≤ refilled c t b := by
    rcases min_le_iff.mp hl1 with h | h
    · exact absurd (le_trans hcq h) hlt
    · exact h
  -- the following call
  have hu2 := refilled_le_budget c t2
    { tokens := refilled c t b, lastUpdate := t, capacity := cap, rate := rate } hn1 hr hb ht2
  have hl2 := refilled_ge_budget c t2
    { tokens := refilled c t b, lastUpdate := t, capacity := cap, rate := rate } hn1 hr hb ht2
    hd2
  have hcap := refilled_le_capacity c t2
    { tokens := refilled c t b, lastUpdate := t, capacity := cap, rate := rate }
  rw [hfl] at hcap
  simp only at hu2 hl2
  have hS : 0 ≤ b.tokens + ((t - b.lastUpdate : Int) : ℚ) / 1000000000 * ((c : ℚ) / 3600) :=
    add_nonneg h0 hD1
  constructor
  · refine le_trans (min_le_min_left _ ?_) hl2
    rw [hEq]
    have e12 : roundingDeficit ^ 12 = roundingDeficit ^ 6 * roundingDeficit ^ 6 := by ring
    have s1 : ((t2 - t : Int) : ℚ) / 1000000000 * ((c : ℚ) / 3600) * roundingDeficit ^ 6 ≤
        ((t2 - t : Int) : ℚ) / 1000000000 * ((c : ℚ) / 3600) :=
      mul_le_of_le_one_right hD2 hL6
    have s2 : (b.tokens + ((t - b.lastUpdate : Int) : ℚ) / 1000000000 * ((c : ℚ) / 3600) +
        ((t2 - t : Int) : ℚ) / 1000000000 * ((c : ℚ) / 3600)) * roundingDeficit ^ 6 ≤
        refilled c t b + ((t2 - t : Int) : ℚ) / 1000000000 * ((c : ℚ) / 3600) := by
      rw [add_mul]
      linarith
    calc (b.tokens + ((t - b.lastUpdate : Int) : ℚ) / 1000000000 * ((c : ℚ) / 3600) +
          ((t2 - t : Int) : ℚ) / 1000000000 * ((c : ℚ) / 3600)) * roundingDeficit ^ 12
        = (b.tokens + ((t - b.lastUpdate : Int) : ℚ) / 1000000000 * ((c : ℚ) / 3600) +
            ((t2 - t : Int) : ℚ) / 1000000000 * ((c : ℚ) / 3600)) * roundingDeficit ^ 6 *
            roundingDeficit ^ 6 := by rw [e12]; ring
      _ ≤ (refilled c t b + ((t2 - t : Int) : ℚ) / 1000000000 * ((c : ℚ) / 3600)) *
            roundingDeficit ^ 6 := mul_le_mul_of_nonneg_right s2 (le_of_lt hL6p)
  · refine le_min hcap (le_trans hu2 ?_)
    rw [hEq]
    have e12 : roundingFactor ^ 12 = roundingFactor ^ 6 * roundingFactor ^ 6 := by ring
    have s1 : ((t2 - t : Int) : ℚ) / 1000000000 * ((c : ℚ) / 3600) ≤
        ((t2 - t : Int) : ℚ) / 1000000000 * ((c : ℚ) / 3600) * roundingFactor ^ 6 :=
      le_mul_of_one_le_right hD2 hF6
    have s2 : refilled c t b + ((t2 - t : Int) : ℚ) / 1000000000 * ((c : ℚ) / 3600) ≤
        (b.tokens + ((t - b.lastUpdate : Int) : ℚ) / 1000000000 * ((c : ℚ) / 3600) +
          ((t2 - t : Int) : ℚ) / 1000000000 * ((c : ℚ) / 3600)) * roundingFactor ^ 6 := by
      rw [add_mul]
      linarith
    calc (refilled c t b + ((t2 - t : Int) : ℚ) / 1000000000 * ((c : ℚ) / 3600)) *
          roundingFactor ^ 6
        ≤ (b.tokens + ((t - b.lastUpdate : Int) : ℚ) / 1000000000 * ((c : ℚ) / 3600) +
            ((t2 - t : Int) : ℚ) / 1000000000 * ((c : ℚ) / 3600)) * roundingFactor ^ 6 *
            roundingFactor ^ 6 :=
          mul_le_mul_of_nonneg_right s2 (le_of_lt (pow_pos hFp 6))
      _ = (b.tokens + ((t - b.lastUpdate : Int) : ℚ) / 1000000000 * ((c : ℚ) / 3600) +
            ((t2 - t : Int) : ℚ) / 1000000000 * ((c : ℚ) / 3600)) * roundingFactor ^ 12 := by
          rw [e12]; ring

/-- C18 (amended): a denied call is transparent up to `float64` rounding. Let key
`apiKey|model` have ceiling `1 ≤ c ≤ 2 ^ 53` and a bucket `b` with `0 ≤ b.tokens`, let
`b.lastUpdate ≤ t ≤ t2` with `t2 - b.lastUpdate` within the range of a `Duration`, and let
`Check` at `t` return `false`. Write `E = b.tokens + (t2 - b.lastUpdate) / 10 ^ 9 * c / 3600`
for the exact budget at `t2`. Then the following `Check` at `t2` and a single `Check` at
`t2` on the original state are both the reference step applied to a refilled count, `r` and
`r2`, lying in the same band `min(c, E * (1 - 2 ^ (-53)) ^ 12) ≤ r ≤
min(c, E * (1 + 2 ^ (-53)) ^ 12)`: they leave the same rules, the same other buckets and the
same `lastUpdate`, capacity and rate for this key, both are denied when
`E * (1 + 2 ^ (-53)) ^ 12 < 1` and both are allowed when `1 ≤ E * (1 - 2 ^ (-53)) ^ 12`. -/
theorem denied_check_transparent_up_to_rounding (rl : RateLimiter) (apiKey model : String)
    (c : Int) (b : tokenBucket) (t t2 : Int)
    (hrule : rl.rules.lookup (ruleKey apiKey model) = some c)
    (hbucket : rl.buckets.lookup (ruleKey apiKey model) = some b)
    (hc : 1 ≤ c) (hb : c ≤ 2 ^ 53) (h0 : 0 ≤ b.tokens)
    (ht : b.lastUpdate ≤ t) (ht2 : t ≤ t2) (hd : t2 - b.lastUpdate ≤ maxDuration)
    (hdenied : (Check rl t apiKey model).1 = false) :
    (exactBudget c t2 (some b) * roundingFactor ^ 12 < 1 →
        (Check (Check rl t apiKey model).2 t2 apiKey model).1 = false ∧
          (Check rl t2 apiKey model).1 = false) ∧
      (1 ≤ exactBudget c t2 (some b) * roundingDeficit ^ 12 →
        (Check (Check rl t apiKey model).2 t2 apiKey model).1 = true ∧
          (Check rl t2 apiKey model).1 = true) ∧
      ∃ r r2 : ℚ,
        (min (c : ℚ) (exactBudget c t2 (some b) * roundingDeficit ^ 12) ≤ r ∧
          r ≤ min (c : ℚ) (exactBudget c t2 (some b) * roundingFactor ^ 12)) ∧
        (min (c : ℚ) (exactBudget c t2 (some b) * roundingDeficit ^ 12) ≤ r2 ∧
          r2 ≤ min (c : ℚ) (exactBudget c t2 (some b) * roundingFactor ^ 12)) ∧
        Check (Check rl t apiKey model).2 t2 apiKey model =
          (decide (1 ≤ r),
            { rl with
              buckets := (rl.buckets.insert (ruleKey apiKey model)
                { tokens := if 1 ≤ r then round64 (r - 1) else r, lastUpdate := t2,
                  capacity := float64 c, rate := round64 (float64 c / 3600) }) }) ∧
        Check rl t2 apiKey model =
          (decide (1 ≤ r2),
            { rl with
              buckets := (rl.buckets.insert (ruleKey apiKey model)
                { tokens := if 1 ≤ r2 then round64 (r2 - 1) else r2, lastUpdate := t2,
                  capacity := float64 c, rate := round64 (float64 c / 3600) }) }) := by
  unfold ruleKey at hrule hbucket
  unfold ruleKey
  have hcq : (1 : ℚ) ≤ (c : ℚ) := by exact_mod_cast hc
  have h1 := check_of_rule rl t apiKey model c hrule
  rw [hbucket, stepBucket_some] at h1
  have hlt : ¬ (1 ≤ refilled c t b) := by
    intro h
    rw [h1] at hdenied
    simp [h] at hdenied
  simp only [hlt, if_false, decide_False] at h1
  have hrule2 : (Check rl t apiKey model).2.rules.lookup (apiKey ++ "|" ++ model) = some c := by
    rw [check_rules]; exact hrule
  have h2 := check_of_rule (Check rl t apiKey model).2 t2 apiKey model c hrule2
  rw [h1] at h2
  simp only [AList.lookup_insert, AList.insert_insert, stepBucket_some] at h2
  have h3 := check_of_rule rl t2 apiKey model c hrule
  rw [hbucket, stepBucket_some] at h3
  simp only at h3
  rw [h1]
  have hA := refilled_band_after_denied c t t2 b (float64 c) (round64 (float64 c / 3600))
    h0 hc hb ht ht2 hd hlt
  have hB := refilled_band c t2 b h0 hc hb (le_trans ht ht2) hd
  refine ⟨?_, ?_, _, _, hA, hB, h2, h3⟩
  · intro hE
    have ha : ¬ (1 ≤ refilled c t2
        { tokens := refilled c t b, lastUpdate := t, capacity := float64 c,
          rate := round64 (float64 c / 3600) }) :=
      not_le.mpr (lt_of_le_of_lt (le_trans hA.2 (min_le_right _ _)) hE)
    have hb2 : ¬ (1 ≤ refilled c t2 b) :=
      not_le.mpr (lt_of_le_of_lt (le_trans hB.2 (min_le_right _ _)) hE)
    rw [h2, h3]
    simp only [ha, hb2, decide_False, and_self]
  · intro hE
    have ha : 1 ≤ refilled c t2
        { tokens := refilled c t b, lastUpdate := t, capacity := float64 c,
          rate := round64 (float64 c / 3600) } :=
      le_trans (le_min hcq hE) hA.1
    have hb2 : 1 ≤ refilled c t2 b := le_trans (le_min hcq hE) hB.1
    rw [h2, h3]
    simp only [ha, hb2, decide_True, and_self]

theorem exhaustedLimiter_denied : (Check exhaustedLimiter 0 "k1" "m1").1 = false := by
  have e := refilled_same_time 3 0 exhaustedBucket rfl isFloat64_zero
    (float64_nonneg (by norm_num))
  have e0 : exhaustedBucket.tokens = 0 := rfl
  rw [e0] at e
  rw [check_of_rule exhaustedLimiter 0 "k1" "m1" 3 exhaustedLimiter_rule,
    exhaustedLimiter_bucket, stepBucket_some, e]
  simp

/-- C18 (amended) at the exhausted bucket of `k1|m1` (ceiling 3, empty at reading 0): a call
at reading 0 is denied, the exact budget 2400 s later is 2 tokens, and the call at 2400 s is
allowed with or without the denied call before it. -/
theorem denied_check_transparent_up_to_rounding_witness :
    (Check exhaustedLimiter 0 "k1" "m1").1 = false ∧
      (Check (Check exhaustedLimiter 0 "k1" "m1").2 2400000000000 "k1" "m1").1 = true ∧
      (Check exhaustedLimiter 2400000000000 "k1" "m1").1 = true :=
  ⟨exhaustedLimiter_denied,
    (denied_check_transparent_up_to_rounding exhaustedLimiter "k1" "m1" 3 exhaustedBucket 0
      2400000000000 exhaustedLimiter_rule exhaustedLimiter_bucket (by norm_num) (by norm_num)
      (le_refl (0 : ℚ)) (le_refl (0 : Int)) (by norm_num)
      (by unfold maxDuration; exact (by decide : (2400000000000 : Int) - 0 ≤ 2 ^ 63 - 1))
      exhaustedLimiter_denied).2.1
      (by
        have e : exactBudget 3 2400000000000 (some exhaustedBucket) = 2 := by
          rw [exactBudget_some]
          have e0 : exhaustedBucket.tokens = 0 := rfl
          have e1 : exhaustedBucket.lastUpdate = 0 := rfl
          rw [e0, e1]
          norm_num
        rw [e]
        unfold roundingDeficit
        norm_num)⟩

/-! ## Locality -/

/-- C19: `Check` on `(apiKey, model)` leaves the rule map unchanged and leaves the bucket
entry of every key other than `apiKey + "|" + model` unchanged (none created, none
modified). -/
theorem check_local_to_key (rl : RateLimiter) (now : Int) (apiKey model k : String)
    (hk : k ≠ ruleKey apiKey model) :
    (Check rl now apiKey model).2.rules = rl.rules ∧
      (Check rl now apiKey model).2.buckets.lookup k = rl.buckets.lookup k :=
  ⟨check_rules rl now apiKey model, check_buckets_lookup_ne rl now apiKey model k hk⟩

/-- C19 at a `Check` on `("k1", "m1")`, seen from the key `k2|m1`. -/
theorem check_local_to_key_witness :
    (Check exhaustedLimiter 5 "k1" "m1").2.rules = exhaustedLimiter.rules ∧
      (Check exhaustedLimiter 5 "k1" "m1").2.buckets.lookup "k2|m1" =
        exhaustedLimiter.buckets.lookup "k2|m1" :=
  check_local_to_key exhaustedLimiter 5 "k1" "m1" "k2|m1" (by decide)

end RateLimit

namespace Management

/-- C14: `PutRateLimits` answers 400 exactly when the body cannot be decoded. When decoding
fails the handler state is unchanged and neither `OnConfigUpdated` nor `persist` is called;
when decoding succeeds with any body whatever, `cfg.RateLimit` becomes that body, `persist`
is called, and `OnConfigUpdated` is called (before `persist`) exactly when it is set. -/
theorem putRateLimits_fails_iff_undecodable {RateLimitConfig : Type}
    (h : Handler RateLimitConfig) (bound : Except String RateLimitConfig) :
    ((∃ msg, Effect.json 400 msg ∈ (PutRateLimits h bound).2) ↔ ∃ e, bound = Except.error e) ∧
      (∀ e, bound = Except.error e →
        (PutRateLimits h bound).1 = h ∧
          Effect.onConfigUpdated ∉ (PutRateLimits h bound).2 ∧
          Effect.persist ∉ (PutRateLimits h bound).2) ∧
      (∀ body, bound = Except.ok body →
        (PutRateLimits h bound).1.RateLimit = body ∧
          (PutRateLimits h bound).2 =
            (if h.hasOnConfigUpdated then [Effect.onConfigUpdated] else []) ++
              [Effect.persist]) := by
  cases bound with
  | error e =>
    refine ⟨⟨fun _ => ⟨e, rfl⟩, fun _ => ⟨"invalid body", by simp [PutRateLimits]⟩⟩, ?_, ?_⟩
    · intro e2 _
      simp [PutRateLimits]
    · intro body hb
      cases hb
  | ok body =>
    refine ⟨⟨?_, ?_⟩, ?_, ?_⟩
    · rintro ⟨msg, hm⟩
      cases hcb : h.hasOnConfigUpdated <;> simp [PutRateLimits, hcb] at hm
    · rintro ⟨e, he⟩
      cases he
    · intro e he
      cases he
    · intro b hb
      cases hb
      exact ⟨rfl, rfl⟩

/-- C14 at a handler with the callback set: a body whose only rule has a non-positive
ceiling is stored and both calls are made; an undecodable body leaves the handler as it
was. -/
theorem putRateLimits_fails_iff_undecodable_witness :
    ((PutRateLimits
          ({ RateLimit := [], hasOnConfigUpdated := true } :
            Handler (List RateLimit.RateLimitRule))
          (Except.ok [{ APIKey := "unknown", Model := "r", RPH := -1 }])).1.RateLimit =
        [{ APIKey := "unknown", Model := "r", RPH := -1 }] ∧
      (PutRateLimits
          ({ RateLimit := [], hasOnConfigUpdated := true } :
            Handler (List RateLimit.RateLimitRule))
          (Except.ok [{ APIKey := "unknown", Model := "r", RPH := -1 }])).2 =
        (if true then [Effect.onConfigUpdated] else []) ++ [Effect.persist]) ∧
      (PutRateLimits
          ({ RateLimit := [], hasOnConfigUpdated := true } :
            Handler (List RateLimit.RateLimitRule))
          (Except.error "EOF")).1 =
        { RateLimit := [], hasOnConfigUpdated := true } :=
  ⟨(putRateLimits_fails_iff_undecodable _ _).2.2 _ rfl,
    ((putRateLimits_fails_iff_undecodable _ _).2.1 "EOF" rfl).1⟩

end Management
